import Mathlib

/-!
# Ori: commit codec, object files, repository commands, mount adapter, streams

A shallow embedding of parts of the Ori file system (`libori/commit.cc`,
`libori/stream.cc`, `ori/object.cc`, `ori/repo_cmd.cc`, `orifs/orifuse.cc`,
`mount_ori/parse_opt.cc`) together with theorems about them.

Conventions of the embedding.

* A byte is a `Fin 256`; a `std::string` holding binary data is a list of bytes.
* A C++ object mutated by a method becomes a value passed in and returned.
* `assert` failures and decode failures are explicit outcomes (`Except`).
* The build switch `DEBUG` of `commit.cc` is a Boolean parameter.
-/

namespace Ori

/-! ## Bytes and fixed-width integers -/

abbrev Byte := Fin 256

abbrev Bytes := List Byte

/-- The low eight bits of a number, as a byte. -/
def byteOfNat (n : Nat) : Byte := ⟨n % 256, Nat.mod_lt n (by decide)⟩

/-- The `k` low bytes of `n`, least significant byte first. -/
def encodeLE : Nat → Nat → Bytes
  | 0, _ => []
  | k + 1, n => byteOfNat n :: encodeLE k (n / 256)

/-- The number whose little-endian bytes are given. -/
def decodeLE : Bytes → Nat
  | [] => 0
  | b :: bs => b.val + 256 * decodeLE bs

/-- The type `time_t`: a signed 64-bit integer. -/
structure TimeT where
  val : Int
  lo : -(2 ^ 63 : Int) ≤ val
  hi : val < (2 ^ 63 : Int)
deriving DecidableEq

/-- The two's complement bit pattern of a `time_t`. -/
def TimeT.toU64 (t : TimeT) : Nat := (t.val % (2 ^ 64 : Int)).toNat

/-- The `time_t` with the given 64-bit pattern. -/
def TimeT.ofU64 (u : Nat) : TimeT :=
  if h : u % 2 ^ 64 < 2 ^ 63 then
    ⟨((u % 2 ^ 64 : Nat) : Int), by omega, by omega⟩
  else
    ⟨((u % 2 ^ 64 : Nat) : Int) - (2 ^ 64 : Int), by omega, by omega⟩

/-! ## Object hashes -/

/-- Modelled from the spec: `ObjectHash`, whose header is not among the sources.
The spec calls it an opaque 32-byte identity whose zero value means empty. -/
structure ObjectHash where
  bytes : Bytes
  size_eq : bytes.length = 32
deriving DecidableEq

/-- The default-constructed hash: thirty-two zero bytes. -/
def ObjectHash.empty : ObjectHash := ⟨List.replicate 32 0, by simp⟩

/-- The method `ObjectHash::isEmpty`: true for the all-zero value. -/
def ObjectHash.isEmpty (h : ObjectHash) : Bool := h.bytes.all (fun b => b == 0)

/-! ## String streams -/

/-- How an encode or a decode can stop without a result. -/
inductive CodecError where
  | Malformed
  | AssertionFailed
deriving DecidableEq, Repr

instance instDecidableEqExcept {ε α : Type} [DecidableEq ε] [DecidableEq α] :
    DecidableEq (Except ε α) := fun a b =>
  match a, b with
  | .ok x, .ok y => if h : x = y then isTrue (by rw [h]) else isFalse (by simpa using h)
  | .error x, .error y => if h : x = y then isTrue (by rw [h]) else isFalse (by simpa using h)
  | .ok _, .error _ => isFalse (by simp)
  | .error _, .ok _ => isFalse (by simp)

/-- Modelled from the spec: `strwstream`, the in-memory output stream of
`stream.h` (not among the sources); every write appends to the buffer. -/
structure strwstream where
  buf : Bytes
deriving DecidableEq

/-- Modelled from the spec: `strstream`, the in-memory input stream of `stream.h`
(not among the sources); `buf` holds the bytes not yet read. -/
structure strstream where
  buf : Bytes
deriving DecidableEq

namespace strwstream

/-- Modelled from the spec: `writeHash` appends the 32 bytes of the hash. -/
def writeHash (ss : strwstream) (h : ObjectHash) : strwstream := ⟨ss.buf ++ h.bytes⟩

/-- Modelled from the spec: `writeInt<uint8_t>` appends one byte. -/
def writeUInt8 (ss : strwstream) (v : Nat) : strwstream := ⟨ss.buf ++ encodeLE 1 v⟩

/-- Modelled from the spec: `writeInt` of a `time_t` appends the `int64` in eight
bytes (little-endian, like the length prefix). -/
def writeInt64 (ss : strwstream) (t : TimeT) : strwstream := ⟨ss.buf ++ encodeLE 8 t.toU64⟩

/-- Modelled from the spec: `writePStr` appends the length as a little-endian
`uint32` and then the raw bytes. The length is converted to `uint32_t`, so only
its low 32 bits are written. -/
def writePStr (ss : strwstream) (s : Bytes) : strwstream :=
  ⟨ss.buf ++ encodeLE 4 (s.length % 2 ^ 32) ++ s⟩

/-- The method `str`: the bytes written so far. -/
def str (ss : strwstream) : Bytes := ss.buf

end strwstream

namespace strstream

/-- Modelled from the spec: reading `n` raw bytes; a short buffer is Malformed. -/
def readBytes (ss : strstream) (n : Nat) : Except CodecError (Bytes × strstream) :=
  if ss.buf.length < n then .error .Malformed
  else .ok (ss.buf.take n, ⟨ss.buf.drop n⟩)

/-- Modelled from the spec: `readHash` reads the 32 bytes of a hash. -/
def readHash (ss : strstream) : Except CodecError (ObjectHash × strstream) :=
  if h : ss.buf.length < 32 then .error .Malformed
  else .ok (⟨ss.buf.take 32, by simp; omega⟩, ⟨ss.buf.drop 32⟩)

/-- Modelled from the spec: `readInt<uint8_t>` reads one byte. -/
def readUInt8 (ss : strstream) : Except CodecError (Nat × strstream) :=
  match ss.readBytes 1 with
  | .error e => .error e
  | .ok (b, ss1) => .ok (decodeLE b, ss1)

/-- Modelled from the spec: `readInt<time_t>` reads an `int64` from eight bytes. -/
def readInt64 (ss : strstream) : Except CodecError (TimeT × strstream) :=
  match ss.readBytes 8 with
  | .error e => .error e
  | .ok (b, ss1) => .ok (TimeT.ofU64 (decodeLE b), ss1)

/-- Modelled from the spec: `readPStr` reads a little-endian `uint32` length and
then that many raw bytes. -/
def readPStr (ss : strstream) : Except CodecError (Bytes × strstream) :=
  match ss.readBytes 4 with
  | .error e => .error e
  | .ok (b, ss1) => ss1.readBytes (decodeLE b)

end strstream

/-! ## Commits (`libori/commit.cc`) -/

/-- The data members of class `Commit`. -/
structure Commit where
  treeObjId : ObjectHash
  parents : ObjectHash × ObjectHash
  user : Bytes
  date : TimeT
  snapshotName : Bytes
  graftRepo : Bytes
  graftPath : Bytes
  graftCommitId : ObjectHash
  message : Bytes
deriving DecidableEq

/-- The constructor `Commit::Commit()`. It assigns the empty string to three
members; the other strings and the hashes are default-constructed, and `date` is
left uninitialised, which is why its value is an argument here. -/
def Commit.new (date : TimeT) : Commit :=
  { treeObjId := ObjectHash.empty
    parents := (ObjectHash.empty, ObjectHash.empty)
    user := []
    date := date
    snapshotName := []
    graftRepo := []
    graftPath := []
    graftCommitId := ObjectHash.empty
    message := [] }

/-- The two assertions that `getBlob` and `fromBlob` make under `#ifdef DEBUG`:
a non-empty graft repo comes with a graft path and a graft commit. -/
def graftAssert (graftRepo graftPath : Bytes) (graftCommitId : ObjectHash) : Bool :=
  if graftRepo ≠ [] then graftPath ≠ [] && !graftCommitId.isEmpty else true

/-- The method `Commit::getBlob`. -/
def Commit.getBlob (DEBUG : Bool) (c : Commit) : Except CodecError Bytes :=
  let ss : strwstream := ⟨[]⟩
  let ss := ss.writeHash c.treeObjId
  let ss :=
    if !c.parents.2.isEmpty then
      ((ss.writeUInt8 2).writeHash c.parents.1).writeHash c.parents.2
    else
      (ss.writeUInt8 1).writeHash c.parents.1
  let ss := ss.writePStr c.user
  let ss := ss.writeInt64 c.date
  let ss := ss.writePStr c.snapshotName
  if DEBUG && !graftAssert c.graftRepo c.graftPath c.graftCommitId then
    .error .AssertionFailed
  else
    let ss := ss.writePStr c.graftRepo
    let ss := ss.writePStr c.graftPath
    let ss := ss.writeHash c.graftCommitId
    let ss := ss.writePStr c.message
    .ok ss.str

/-- The parents read by `Commit::fromBlob`: two hashes when the count byte is 2,
otherwise one hash, `parents.second` keeping the value it had. -/
def Commit.readParents (self : Commit) (numParents : Nat) (ss : strstream) :
    Except CodecError ((ObjectHash × ObjectHash) × strstream) :=
  if numParents = 2 then
    match ss.readHash with
    | .error e => .error e
    | .ok (p1, ss1) =>
      match ss1.readHash with
      | .error e => .error e
      | .ok (p2, ss2) => .ok ((p1, p2), ss2)
  else
    match ss.readHash with
    | .error e => .error e
    | .ok (p1, ss1) => .ok ((p1, self.parents.2), ss1)

/-- The method `Commit::fromBlob`, run on the commit object `self`; the result is
the object after the call. -/
def Commit.fromBlob (DEBUG : Bool) (self : Commit) (blob : Bytes) :
    Except CodecError Commit := do
  let ss : strstream := ⟨blob⟩
  let (treeObjId, ss) ← ss.readHash
  let (numParents, ss) ← ss.readUInt8
  let (parents, ss) ← self.readParents numParents ss
  let (user, ss) ← ss.readPStr
  let (date, ss) ← ss.readInt64
  let (snapshotName, ss) ← ss.readPStr
  let (graftRepo, ss) ← ss.readPStr
  let (graftPath, ss) ← ss.readPStr
  let (graftCommitId, ss) ← ss.readHash
  if DEBUG && !graftAssert graftRepo graftPath graftCommitId then
    throw CodecError.AssertionFailed
  let (message, _) ← ss.readPStr
  pure
    { treeObjId := treeObjId
      parents := parents
      user := user
      date := date
      snapshotName := snapshotName
      graftRepo := graftRepo
      graftPath := graftPath
      graftCommitId := graftCommitId
      message := message }

/-- Every string of the commit is short enough for its `uint32` length prefix. -/
def Commit.stringsFit (c : Commit) : Prop :=
  c.user.length < 2 ^ 32 ∧ c.snapshotName.length < 2 ^ 32 ∧ c.graftRepo.length < 2 ^ 32 ∧
    c.graftPath.length < 2 ^ 32 ∧ c.message.length < 2 ^ 32

instance (c : Commit) : Decidable c.stringsFit := by
  unfold Commit.stringsFit; infer_instance

/-- A length-prefixed string as it stands in the canonical bytes. -/
def pstrBytes (s : Bytes) : Bytes := encodeLE 4 (s.length % 2 ^ 32) ++ s

/-- The parent count of a commit: 2 when `parent2` is set, otherwise 1. -/
def Commit.parentCount (c : Commit) : Nat := if c.parents.2.isEmpty then 1 else 2

/-- The canonical bytes of a commit as the specification lists them: tree hash,
parent count, parent hashes, user, timestamp, snapshot name, graft repo, graft
path, graft commit hash, message. -/
def Commit.canonicalBytes (c : Commit) : Bytes :=
  c.treeObjId.bytes ++ [byteOfNat c.parentCount] ++ c.parents.1.bytes ++
    (if c.parentCount = 2 then c.parents.2.bytes else []) ++
    pstrBytes c.user ++ encodeLE 8 c.date.toU64 ++ pstrBytes c.snapshotName ++
    pstrBytes c.graftRepo ++ pstrBytes c.graftPath ++ c.graftCommitId.bytes ++
    pstrBytes c.message

/-! ## Object files (`ori/object.cc`) -/

/-- Modelled from the spec: the enumeration `Object::Type` of `object.h`, which is
not among the sources. The spec and `repo_cmd.cc` name five object types. -/
inductive ObjectType where
  | Commit
  | Tree
  | Blob
  | LargeBlob
  | Purged
deriving DecidableEq, Repr

/-- The ASCII string `CMMT`. -/
def tagCMMT : Bytes := [67, 77, 77, 84]

/-- The ASCII string `TREE`. -/
def tagTREE : Bytes := [84, 82, 69, 69]

/-- The ASCII string `BLOB`. -/
def tagBLOB : Bytes := [66, 76, 79, 66]

/-- The ASCII string `LGBL`. -/
def tagLGBL : Bytes := [76, 71, 66, 76]

/-- The ASCII string `PURG`. -/
def tagPURG : Bytes := [80, 85, 82, 71]

/-- The 4-byte tag that the specification gives to each object type. -/
def ObjectType.tag : ObjectType → Bytes
  | .Commit => tagCMMT
  | .Tree => tagTREE
  | .Blob => tagBLOB
  | .LargeBlob => tagLGBL
  | .Purged => tagPURG

/-- How a call can end the process instead of returning. -/
inductive Abort where
  | AssertionFailed
  | BadAlloc
deriving DecidableEq, Repr

/-- The error number `ENOENT`. -/
def ENOENT : Int := 2

/-- The error number `EINTR`. -/
def EINTR : Int := 4

/-- The error number `EBADF`. -/
def EBADF : Int := 9

/-- The largest byte count that one `read`, `write` or `pwrite` transfers. -/
def OriPriv.MAX_RW_COUNT : Nat := 0x7ffff000

/-- What the operating system does with one call of `read` or `write`: the call is
interrupted by a signal, it fails with an error number, or it transfers at most
`limit` bytes. -/
inductive IoEvent where
  | interrupted
  | fails (errno : Int)
  | transfers (limit : Nat)
deriving DecidableEq, Repr

/-- The part of the operating system that `object.cc` talks to: the regular files
by path, `errno`, the paths at which `open` with `O_CREAT` fails, with the error
number (`ENOENT` under a missing directory), and what the operating system does
with the coming calls of `write`. Once that list is used up, a `write` transfers
all the bytes it can. A `read` transfers the bytes that are there to transfer. -/
structure Sys where
  files : String → Option Bytes
  errno : Int
  createErrno : String → Option Int
  script : List IoEvent

/-- The descriptor of an `Object`: the file it names, the file offset, and
whether it was opened with `O_RDWR` or with `O_RDONLY`. -/
structure ObjectFd where
  path : String
  pos : Nat
  writable : Bool
deriving DecidableEq

/-- The bytes of a file after `data` has been written at the offset `pos`, over
what was there. -/
def Sys.put (old : Bytes) (pos : Nat) (data : Bytes) : Bytes :=
  old.take pos ++ data ++ old.drop (pos + data.length)

/-- The system call `write(fd, buf, count)`: the error number or the number of
bytes written, with the system and the descriptor afterwards. A descriptor that
was opened with `O_RDONLY` gives `EBADF`; one call transfers at most
`MAX_RW_COUNT` bytes; a failed call sets `errno`. -/
def Sys.write (s : Sys) (fd : ObjectFd) (data : Bytes) : Except Int Nat × Sys × ObjectFd :=
  if fd.writable = false then (.error EBADF, { s with errno := EBADF }, fd)
  else
    match s.script with
    | .interrupted :: rest =>
      (.error EINTR,
        { s with
          errno := EINTR
          script := rest },
        fd)
    | .fails e :: rest =>
      (.error e,
        { s with
          errno := e
          script := rest },
        fd)
    | .transfers limit :: rest =>
      let part := data.take (min limit OriPriv.MAX_RW_COUNT)
      (.ok part.length,
        { s with
          files := Function.update s.files fd.path
            (some (Sys.put ((s.files fd.path).getD []) fd.pos part))
          script := rest },
        { fd with pos := fd.pos + part.length })
    | [] =>
      let part := data.take OriPriv.MAX_RW_COUNT
      (.ok part.length,
        { s with
          files := Function.update s.files fd.path
            (some (Sys.put ((s.files fd.path).getD []) fd.pos part)) },
        { fd with pos := fd.pos + part.length })

/-- The system call `read` on an open descriptor: up to `n` bytes from the file
offset, and at most `MAX_RW_COUNT` in one call. -/
def Sys.read (s : Sys) (fd : ObjectFd) (n : Nat) : Bytes × ObjectFd :=
  let got := (((s.files fd.path).getD []).drop fd.pos).take (min n OriPriv.MAX_RW_COUNT)
  (got, { fd with pos := fd.pos + got.length })

/-- The system call `open` with `O_CREAT | O_RDWR`: the error number, or the
descriptor; an absent file is created empty, a file that is there keeps its
bytes. -/
def Sys.openCreate (s : Sys) (path : String) : Except Int (Sys × ObjectFd) :=
  match s.createErrno path with
  | some e => .error e
  | none =>
    match s.files path with
    | some _ => .ok (s, ⟨path, 0, true⟩)
    | none => .ok ({ s with files := Function.update s.files path (some []) }, ⟨path, 0, true⟩)

/-- The conversion of a byte count to `int`, as in `int status = write(...)`. -/
def toInt32 (n : Nat) : Int :=
  if n % 2 ^ 32 < 2 ^ 31 then ((n % 2 ^ 32 : Nat) : Int)
  else ((n % 2 ^ 32 : Nat) : Int) - (2 ^ 32 : Int)

/-- The conversion of an `int` to `size_t`. -/
def toSizeT (i : Int) : Nat := (i % (2 ^ 64 : Int)).toNat

/-- The value of `int status = write(...)`: -1 when the call failed, otherwise
the number of bytes written, converted to `int`. -/
def writeStatus (r : Except Int Nat) : Int :=
  match r with
  | .error _ => -1
  | .ok n => toInt32 n

/-- The data members of class `Object`: the descriptor (`none` for `-1`) and the
type. -/
structure Object where
  fd : Option ObjectFd
  t : ObjectType
deriving DecidableEq

/-- One case of the `switch` of `Object::create` with what follows the `switch`:
the tag is written and the type is set, then
`if (status < 0) return -errno; assert(status == 4); return 0;`. -/
def Object.createTag (s : Sys) (fd : ObjectFd) (tag : Bytes) (t : ObjectType) :
    Except Abort (Int × Object × Sys) :=
  let r := s.write fd tag
  let status := writeStatus r.1
  if status < 0 then .ok (-r.2.1.errno, ⟨some r.2.2, t⟩, r.2.1)
  else if status ≠ 4 then .error .AssertionFailed
  else .ok (0, ⟨some r.2.2, t⟩, r.2.1)

/-- The method `Object::create`. -/
def Object.create (self : Object) (s : Sys) (path : String) (type : ObjectType) :
    Except Abort (Int × Object × Sys) :=
  match s.openCreate path with
  | .error e => .ok (-e, { self with fd := none }, { s with errno := e })
  | .ok (s1, fd) =>
    match type with
    | .Commit => Object.createTag s1 fd tagCMMT .Commit
    | .Tree => Object.createTag s1 fd tagTREE .Tree
    | .Blob => Object.createTag s1 fd tagBLOB .Blob
    | _ => .error .AssertionFailed

/-- The method `Object::open`. -/
def Object.open (self : Object) (s : Sys) (path : String) :
    Except Abort (Int × Object × Sys) :=
  match s.files path with
  | none => .ok (-ENOENT, { self with fd := none }, { s with errno := ENOENT })
  | some _ =>
    let (buf, fd) := s.read ⟨path, 0, false⟩ 4
    if buf.length ≠ 4 then .error .AssertionFailed
    else if buf = tagCMMT then .ok (0, ⟨some fd, .Commit⟩, s)
    else if buf = tagTREE then .ok (0, ⟨some fd, .Tree⟩, s)
    else if buf = tagBLOB then .ok (0, ⟨some fd, .Blob⟩, s)
    else .error .AssertionFailed

/-- The method `Object::getType`. -/
def Object.getType (self : Object) : ObjectType := self.t

/-- The lines that `cmd_verify` prints for one object, `"Object %s\n%s\n"`. -/
def verifyReport (hash error : String) : String :=
  "Object " ++ hash ++ "\n" ++ error ++ "\n"

/-- The function `cmd_verify`: the exit status and what is printed. The methods
`listObjects` and `verifyObject` of the repository are not among the sources; the
set of hashes, in iteration order, and the verifier are arguments. -/
def cmd_verify (listObjects : List String) (verifyObject : String → String) :
    Int × List String :=
  listObjects.foldl
    (fun (st : Int × List String) (it : String) =>
      let error := verifyObject it
      if error ≠ "" then (1, st.2 ++ [verifyReport it error]) else st)
    (0, [])

/-- Modelled from the spec: what the commands see of a repository, its HEAD and
the hashes of the objects in its store. Class `Repo` is declared in `repo.h`; its
methods are not among the sources. -/
structure RepoState where
  head : String
  objects : List String
deriving DecidableEq

/-- Modelled from the spec: `Repo::updateHead` replaces HEAD. -/
def RepoState.updateHead (r : RepoState) (hash : String) : RepoState :=
  { r with head := hash }

/-- Modelled from the spec: the outcome of `Repo::pull`, which is not among the
sources: the local repository afterwards, and whether the pull succeeded (errors
are returned to the caller). -/
structure PullResult where
  succeeded : Bool
  repo : RepoState

/-- The function `cmd_pull`. The source repository that `srcRoot` names (local or
over SSH) is given by `openRepo`. -/
def cmd_pull (pull : RepoState → RepoState → PullResult) (openRepo : String → RepoState)
    (argv : List String) (repository : RepoState) : Int × RepoState :=
  match argv with
  | [_, srcRoot] =>
    let srcRepo := openRepo srcRoot
    let pulled := pull repository srcRepo
    (0, pulled.repo.updateHead srcRepo.head)
  | _ => (1, repository)

/-- The repositories on disk, by root path. -/
abbrev World := String → Option RepoState

/-- Modelled from the spec: the constructor `Repo(root)` gives the repository
found at `root`. -/
def World.openRepo (w : World) (root : String) : RepoState :=
  (w root).getD ⟨"", []⟩

/-- The expression `srcRoot.substr(srcRoot.rfind("/") + 1)`: what follows the last
slash, the whole string when there is none. -/
def afterLastSlash (s : String) : String :=
  String.mk (s.data.reverse.takeWhile (fun c => c ≠ '/')).reverse

/-- The body of `cmd_clone` once the two roots are known. -/
def cloneInto (init : World → String → Int × World)
    (pull : RepoState → RepoState → PullResult) (srcRoot newRoot : String) (w : World) :
    Int × World :=
  let w1 := (init w newRoot).2
  let srcRepo := w1.openRepo srcRoot
  let dstRepo := w1.openRepo newRoot
  let pulled := pull dstRepo srcRepo
  (0, Function.update w1 newRoot (some (pulled.repo.updateHead srcRepo.head)))

/-- The function `cmd_clone`. Its call of `cmd_init` is the argument `init`, whose
exit status the source ignores. -/
def cmd_clone (init : World → String → Int × World)
    (pull : RepoState → RepoState → PullResult) (argv : List String) (w : World) :
    Int × World :=
  match argv with
  | [_, srcRoot] => cloneInto init pull srcRoot (afterLastSlash srcRoot) w
  | [_, srcRoot, newRoot] => cloneInto init pull srcRoot newRoot w
  | _ => (1, w)

/-- Modelled from the spec: the working directory as `Scan_Traverse` of `scan.h`
(not among the sources) walks it: a file, or a directory with its entries. -/
inductive DirEntry where
  | file (path : String)
  | dir (path : String) (entries : List DirEntry)

namespace Repo

/-- Modelled from the spec: class `Tree` of `repo.h`, whose methods are not among
the sources: the entries added, each a path and an object hash. -/
abbrev Tree := List (String × String)

/-- Modelled from the spec: the method `Tree::addObject` records one entry. -/
def Tree.addObject (tree : Tree) (path objId : String) : Tree := tree ++ [(path, objId)]

/-- Modelled from the spec: class `Commit` as `repo_cmd.cc` uses it, with hashes
held as strings; its setters, used by `cmd_commit`, store their argument. -/
structure Commit where
  tree : String
  parent1 : String
  parent2 : String
  message : String
  time : Int
  user : String
deriving DecidableEq

/-- The constructor `Commit()`. -/
def Commit.new : Commit := ⟨"", "", "", "", 0, ""⟩

/-- The method `Commit::setTree`. -/
def Commit.setTree (c : Commit) (tree : String) : Commit := { c with tree := tree }

/-- The method `Commit::setParents`; in the header its second argument defaults to
the empty string. -/
def Commit.setParents (c : Commit) (p1 p2 : String) : Commit :=
  { c with parent1 := p1, parent2 := p2 }

/-- The method `Commit::setMessage`. -/
def Commit.setMessage (c : Commit) (msg : String) : Commit := { c with message := msg }

/-- The method `Commit::setTime`. -/
def Commit.setTime (c : Commit) (t : Int) : Commit := { c with time := t }

/-- The method `Commit::setUser`. -/
def Commit.setUser (c : Commit) (user : String) : Commit := { c with user := user }

end Repo

/-- One mutation of the store or of HEAD. -/
inductive StoreOp where
  | addFile (path hash : String)
  | addTree (hash : String)
  | addCommit (hash : String)
  | updateHead (hash : String)
deriving DecidableEq

/-- The effect of one mutation. Modelled from the spec: an insertion puts the
hash into the store unless it is there already, `updateHead` replaces HEAD. -/
def RepoState.apply (r : RepoState) : StoreOp → RepoState
  | .addFile _ h => { r with objects := r.objects.insert h }
  | .addTree h => { r with objects := r.objects.insert h }
  | .addCommit h => { r with objects := r.objects.insert h }
  | .updateHead h => r.updateHead h

/-- The global `repository` while a command runs: its state, and the mutations
made so far, oldest first. -/
structure Repository where
  state : RepoState
  log : List StoreOp

/-- What `cmd_commit` takes from outside the sources: the hash that `addFile`
computes for the file at a path, the hashes of a tree and of a commit, the clock
`time(NULL)` and `Util_GetFullname()`. -/
structure CommitEnv where
  hashFile : String → String
  hashTree : Repo.Tree → String
  hashCommit : Repo.Commit → String
  now : Int
  fullname : String

namespace Repository

/-- One mutation: the state changes and the log grows. -/
def perform (r : Repository) (op : StoreOp) : Repository :=
  ⟨r.state.apply op, r.log ++ [op]⟩

/-- Modelled from the spec: `Repo::addFile` stores the file and returns its hash. -/
def addFile (env : CommitEnv) (r : Repository) (path : String) : String × Repository :=
  (env.hashFile path, r.perform (.addFile path (env.hashFile path)))

/-- Modelled from the spec: `Repo::addTree` stores the tree and returns its hash. -/
def addTree (env : CommitEnv) (r : Repository) (tree : Repo.Tree) : String × Repository :=
  (env.hashTree tree, r.perform (.addTree (env.hashTree tree)))

/-- Modelled from the spec: `Repo::addCommit` stores the commit and returns its
hash. -/
def addCommit (env : CommitEnv) (r : Repository) (commit : Repo.Commit) :
    String × Repository :=
  (env.hashCommit commit, r.perform (.addCommit (env.hashCommit commit)))

/-- Modelled from the spec: `Repo::getHead`. -/
def getHead (r : Repository) : String := r.state.head

/-- Modelled from the spec: `Repo::updateHead`. -/
def updateHead (r : Repository) (hash : String) : Repository :=
  r.perform (.updateHead hash)

end Repository

mutual

/-- The callback `commitHelper`, called with the tree being built (`arg`) and one
directory entry (`path`). -/
def commitHelper (env : CommitEnv) (tree : Repo.Tree) (repository : Repository) :
    DirEntry → Repo.Tree × Repository
  | .dir path entries =>
    let (subTree, r1) := Scan_Traverse env [] repository entries
    let (hash, r2) := r1.addTree env subTree
    (tree.addObject path hash, r2)
  | .file path =>
    let (hash, r1) := repository.addFile env path
    (tree.addObject path hash, r1)

/-- Modelled from the spec: the function `Scan_Traverse` of `scan.h` (not among
the sources) with `commitHelper` as its callback: one call for each entry of the
directory. -/
def Scan_Traverse (env : CommitEnv) (tree : Repo.Tree) (repository : Repository) :
    List DirEntry → Repo.Tree × Repository
  | [] => (tree, repository)
  | e :: es =>
    let (tree1, r1) := commitHelper env tree repository e
    Scan_Traverse env tree1 r1 es

end

/-- The message that `cmd_commit` records for its arguments. -/
def commitMessage (argv : List String) : String :=
  match argv with
  | [_] => "No message."
  | [_, msg] => msg
  | _ => ""

/-- The function `cmd_commit`; `root` lists the entries of the repository root. -/
def cmd_commit (env : CommitEnv) (root : List DirEntry) (argv : List String)
    (repository : Repository) : Int × Repository :=
  let msg := commitMessage argv
  let (tree, r1) := Scan_Traverse env [] repository root
  let (treeHash, r2) := r1.addTree env tree
  let commit := Repo.Commit.new
  let commit := commit.setTree treeHash
  let commit := commit.setParents r2.getHead ""
  let commit := commit.setMessage msg
  let commit := commit.setTime env.now
  let user := env.fullname
  let commit := if user ≠ "" then commit.setUser user else commit
  let (commitHash, r3) := r2.addCommit env commit
  let r4 := r3.updateHead commitHash
  (0, r4)

/-- The states that a repository passes through while a log of mutations is
applied, the starting state first. -/
def statesAlong (r : RepoState) : List StoreOp → List RepoState
  | [] => [r]
  | op :: ops => r :: statesAlong (r.apply op) ops

/-- A mutation that writes HEAD. -/
def StoreOp.isUpdateHead : StoreOp → Bool
  | .updateHead _ => true
  | _ => false

mutual

/-- The entry lists of the directories at and below one entry of the working
directory. -/
def DirEntry.dirsBelow : DirEntry → List (List DirEntry)
  | .file _ => []
  | .dir _ entries => entries :: DirEntry.dirsBelowAll entries

/-- The entry lists of the directories below the entries of a directory. -/
def DirEntry.dirsBelowAll : List DirEntry → List (List DirEntry)
  | [] => []
  | e :: es => e.dirsBelow ++ DirEntry.dirsBelowAll es

end

/-- The entry that `commitHelper` adds to the tree of a directory for one entry
of that directory: the path with the hash that `addFile` returns for a file, and
with the hash that `addTree` returns for the tree of a directory. -/
def DirEntry.treeEntry (env : CommitEnv) (repository : Repository) :
    DirEntry → String × String
  | .file path => (path, (repository.addFile env path).1)
  | .dir path entries =>
    (path, (repository.addTree env (Scan_Traverse env [] repository entries).1).1)

/-! ## Values used in the statements below -/

/-- The object that a successful `fromBlob` leaves when the blob holds the
canonical bytes of `c`: the fields of `c`, except that `parents.second` keeps the
value it had in `self` when `c` has a single parent. -/
def Commit.decodedInto (self c : Commit) : Commit :=
  { c with parents := (c.parents.1, if c.parents.2.isEmpty then self.parents.2 else c.parents.2) }

/-- The parent hashes as they stand in the canonical bytes. -/
def Commit.parentBytes (c : Commit) : Bytes :=
  c.parents.1.bytes ++ (if c.parentCount = 2 then c.parents.2.bytes else [])

/-- The canonical bytes of a single-parent commit with the parent count byte
replaced by `count`. -/
def Commit.bytesWithCount (c : Commit) (count : Byte) : Bytes :=
  c.treeObjId.bytes ++ [count] ++ c.parents.1.bytes ++
    pstrBytes c.user ++ encodeLE 8 c.date.toU64 ++ pstrBytes c.snapshotName ++
    pstrBytes c.graftRepo ++ pstrBytes c.graftPath ++ c.graftCommitId.bytes ++
    pstrBytes c.message

/-- The canonical bytes of a commit up to the message: what `fromBlob` reads
before it reaches the assertions under `#ifdef DEBUG`. -/
def Commit.bytesBeforeMessage (c : Commit) : Bytes :=
  c.treeObjId.bytes ++ [byteOfNat c.parentCount] ++ c.parentBytes ++
    pstrBytes c.user ++ encodeLE 8 c.date.toU64 ++ pstrBytes c.snapshotName ++
    pstrBytes c.graftRepo ++ pstrBytes c.graftPath ++ c.graftCommitId.bytes

/-- The time 0. -/
def TimeT.zero : TimeT := ⟨0, by decide, by decide⟩

/-- The hash whose bytes all equal `b`. -/
def ObjectHash.fill (b : Byte) : ObjectHash := ⟨List.replicate 32 b, by simp⟩

/-- A commit with a user name of `n` zero bytes and every other field as the
constructor leaves it. -/
def Commit.withZeroUser (n : Nat) : Commit :=
  { Commit.new TimeT.zero with user := List.replicate n 0 }

/-- A merge commit that records a graft. -/
def sampleGraftCommit : Commit :=
  { treeObjId := ObjectHash.fill 7
    parents := (ObjectHash.fill 1, ObjectHash.fill 2)
    user := [97, 108]
    date := ⟨-5, by decide, by decide⟩
    snapshotName := [115]
    graftRepo := [114]
    graftPath := [112]
    graftCommitId := ObjectHash.fill 3
    message := [109, 115, 103] }

/-- A single-parent commit with a graft path and no graft repo. -/
def pathOnlyGraftCommit : Commit :=
  { Commit.new TimeT.zero with
    treeObjId := ObjectHash.fill 7
    parents := (ObjectHash.fill 1, ObjectHash.empty)
    graftPath := [120]
    graftCommitId := ObjectHash.fill 3 }

/-- A single-parent commit with a graft repo and no graft path. -/
def repoOnlyGraftCommit : Commit :=
  { Commit.new TimeT.zero with
    treeObjId := ObjectHash.fill 7
    parents := (ObjectHash.fill 1, ObjectHash.empty)
    graftRepo := [114] }

/-- A single-parent commit with a graft repo and a graft commit hash and no graft
path, as `setGraft("r", "", id)` leaves it. -/
def noPathGraftCommit : Commit :=
  { Commit.new TimeT.zero with
    treeObjId := ObjectHash.fill 7
    parents := (ObjectHash.fill 1, ObjectHash.empty)
    graftRepo := [114]
    graftCommitId := ObjectHash.fill 3 }

/-- A pull that fails and leaves the local repository as it was. -/
def failingPull : RepoState → RepoState → PullResult := fun r _ => ⟨false, r⟩

/-- A world with one repository, at `/src`, whose HEAD is `new`. -/
def sampleWorld : World := fun p => if p = "/src" then some ⟨"new", ["new"]⟩ else none

/-- An initialisation that creates an empty repository at the given root. -/
def sampleInit (w : World) (root : String) : Int × World :=
  (0, Function.update w root (some ⟨"", []⟩))

/-- The commit that the specification expects `cmd_commit` to store: its tree is
the hash of the tree built from the repository root, its first parent the HEAD
before the command, its second parent empty. -/
def expectedCommit (env : CommitEnv) (root : List DirEntry) (repository : Repository)
    (message : String) : Repo.Commit :=
  { tree := env.hashTree (Scan_Traverse env [] repository root).1
    parent1 := repository.state.head
    parent2 := ""
    message := message
    time := env.now
    user := env.fullname }

/-- The mutations of `cmd_commit` when those of its scan are `ops`. -/
def scanOpsAll (ops : List StoreOp) (env : CommitEnv) (root : List DirEntry)
    (argv : List String) (repository : Repository) : List StoreOp :=
  ops ++
    [StoreOp.addTree (env.hashTree (Scan_Traverse env [] repository root).1),
      StoreOp.addCommit
        (env.hashCommit (expectedCommit env root repository (commitMessage argv))),
      StoreOp.updateHead
        (env.hashCommit (expectedCommit env root repository (commitMessage argv)))]

/-! ## Repository initialisation (`cmd_init` of `ori/repo_cmd.cc`) -/

/-- The macro `ORI_PATH_DIR` of `repo.h`. -/
def ORI_PATH_DIR : String := "/.ori"

/-- The macro `ORI_PATH_VERSION` of `repo.h`. -/
def ORI_PATH_VERSION : String := "/.ori/version"

/-- The macro `ORI_PATH_UUID` of `repo.h`. -/
def ORI_PATH_UUID : String := "/.ori/id"

/-- A node of the file system: a directory, or a regular file with its text; each
with its permission bits. -/
inductive FsNode where
  | dir (mode : Nat)
  | file (mode : Nat) (data : String)
deriving DecidableEq

/-- The file system that `cmd_init` works on: the node at each path, and the
file mode creation mask of the process. Access permissions are not checked. -/
structure DiskFs where
  nodes : String → Option FsNode
  umask : Nat

/-- The directory part of a path: what stands before its last slash. -/
def dirnameOf (path : String) : String :=
  String.mk ((path.data.reverse.dropWhile (fun c => c ≠ '/')).drop 1).reverse

/-- The function `Util_IsDirectory`: the path names a directory. -/
def DiskFs.isDir (fs : DiskFs) (path : String) : Bool :=
  match fs.nodes path with
  | some (.dir _) => true
  | _ => false

/-- The directory in which a path is to be created exists; a path without a
directory part lies in the working directory or in the root. -/
def DiskFs.parentOk (fs : DiskFs) (path : String) : Bool :=
  dirnameOf path = "" || fs.isDir (dirnameOf path)

/-- The permission bits left of `mode` by the mask. -/
def maskedMode (mode umask : Nat) : Nat := mode - (mode &&& umask)

/-- The system call `mkdir`: it fails, with -1, when the path exists or when the
directory above it does not. -/
def DiskFs.mkdir (fs : DiskFs) (path : String) (mode : Nat) : Int × DiskFs :=
  if (fs.nodes path).isSome then (-1, fs)
  else if !fs.parentOk path then (-1, fs)
  else (0, { fs with
    nodes := Function.update fs.nodes path (some (.dir (maskedMode mode fs.umask))) })

/-- The system call `open` with `O_CREAT | O_WRONLY | O_APPEND`: `none` when it
fails (the path is a directory, or the directory above it is missing); an absent
file is created empty. -/
def DiskFs.openAppend (fs : DiskFs) (path : String) (mode : Nat) : Option DiskFs :=
  match fs.nodes path with
  | some (.dir _) => none
  | some (.file _ _) => some fs
  | none =>
    if fs.parentOk path then
      some { fs with
        nodes := Function.update fs.nodes path (some (.file (maskedMode mode fs.umask) "")) }
    else none

/-- The system call `write` on a descriptor opened with `O_APPEND`, and `dprintf`
on it: the text goes to the end of the file. -/
def DiskFs.append (fs : DiskFs) (path text : String) : DiskFs :=
  match fs.nodes path with
  | some (.file m d) =>
    { fs with nodes := Function.update fs.nodes path (some (.file m (d ++ text))) }
  | _ => fs

/-- The system call `chmod`. -/
def DiskFs.chmod (fs : DiskFs) (path : String) (mode : Nat) : DiskFs :=
  match fs.nodes path with
  | some (.file _ d) => { fs with nodes := Function.update fs.nodes path (some (.file mode d)) }
  | some (.dir _) => { fs with nodes := Function.update fs.nodes path (some (.dir mode)) }
  | none => fs

/-- What `cmd_init` takes from outside: the working directory that `getcwd`
returns and the identifier that `Util_NewUUID` generates. -/
structure InitEnv where
  cwd : String
  uuid : String

/-- The part of `cmd_init` that follows the choice of `rootPath`. -/
def initRepoAt (env : InitEnv) (rootPath : String) (fs : DiskFs) : Int × DiskFs :=
  let oriDir := rootPath ++ ORI_PATH_DIR
  let r1 := fs.mkdir oriDir 0o755
  if r1.1 < 0 then (1, r1.2)
  else
    let tmpDir := rootPath ++ ORI_PATH_DIR ++ "/tmp"
    let r2 := r1.2.mkdir tmpDir 0o755
    if r2.1 < 0 then (1, r2.2)
    else
      let tmpDir := rootPath ++ ORI_PATH_DIR ++ "/objs"
      let r3 := r2.2.mkdir tmpDir 0o755
      if r3.1 < 0 then (1, r3.2)
      else
        let uuidFile := rootPath ++ ORI_PATH_UUID
        match r3.2.openAppend uuidFile 0o660 with
        | none => (1, r3.2)
        | some fs4 =>
          let fs5 := fs4.append uuidFile env.uuid
          let fs6 := fs5.chmod uuidFile 0o440
          let versionFile := rootPath ++ ORI_PATH_VERSION
          match fs6.openAppend versionFile 0o660 with
          | none => (1, fs6)
          | some fs7 => (0, fs7.append versionFile "ORI1.0")

/-- The function `cmd_init`: the exit status and the file system afterwards. What
it prints is left out. -/
def cmd_init (env : InitEnv) (argv : List String) (fs : DiskFs) : Int × DiskFs :=
  match argv with
  | [_] => initRepoAt env env.cwd fs
  | [_, rootPath] =>
    initRepoAt env rootPath (if fs.isDir rootPath then fs else (fs.mkdir rootPath 0o755).2)
  | _ => (1, fs)

/-- Modelled from the spec: the structure `mount_ori_config` of `oriopt.h`, which
is not among the sources; the members that `set_opt_helper` touches. -/
structure mount_ori_config where
  argcount : Int
  repoPath : String
  mountPoint : String
  clonePath : String
deriving DecidableEq

/-- The key that the FUSE option parser passes for an option it did not match. -/
def FUSE_OPT_KEY_OPT : Int := -1

/-- The key that the FUSE option parser passes for a non-option argument. -/
def FUSE_OPT_KEY_NONOPT : Int := -2

/-- The macro `OPT_KEY_CLONE_PARAM`. -/
def OPT_KEY_CLONE_PARAM : Int := 0

/-- The call `s.substr(pos, len)` for `pos` within the string. -/
def substr (s : String) (pos len : Nat) : String := String.mk ((s.data.drop pos).take len)

/-- The call `s.substr(pos)` for `pos` within the string. -/
def substrFrom (s : String) (pos : Nat) : String := String.mk (s.data.drop pos)

/-- The function `set_opt_helper`: its return value (1 keeps the argument for
FUSE, 0 discards it, -1 is an error) and the configuration afterwards. -/
def set_opt_helper (data : mount_ori_config) (arg : String) (key : Int) :
    Int × mount_ori_config :=
  if key = FUSE_OPT_KEY_OPT then (1, data)
  else if key = FUSE_OPT_KEY_NONOPT then
    if data.argcount = 0 then
      (0, { data with repoPath := arg, argcount := data.argcount + 1 })
    else if data.argcount = 1 then
      (1, { data with mountPoint := arg, argcount := data.argcount + 1 })
    else (-1, data)
  else if key = OPT_KEY_CLONE_PARAM then
    let clone := arg
    if substr clone 0 6 ≠ "clone=" then (-1, data)
    else (0, { data with clonePath := substrFrom clone 5 })
  else (-1, data)

/-! ## Lost heads and purging (`cmd_findheads`, `cmd_purgeobj` of `ori/repo_cmd.cc`) -/

/-- What `cmd_findheads` takes from outside the sources: the macro
`EMPTY_COMMIT`, the map that `computeRefCounts` returns (each object with the set
of objects that refer to it, in the order of the keys), the type of each object,
the integer value of each enumerator of `Object::Type`, and `getCommit`. -/
structure FindHeadsEnv where
  EMPTY_COMMIT : String
  computeRefCounts : List (String × List String)
  getObjectType : String → ObjectType
  enumValue : ObjectType → Nat
  getCommit : String → Repo.Commit

/-- The three lines that `cmd_findheads` prints for one object. -/
def findheadsReport (hash : String) (c : Repo.Commit) : List String :=
  ["commit:  " ++ hash, "parents: " ++ c.parent1, c.message]

/-- The function `cmd_findheads`: the exit status and the lines printed. The
condition `getObjectType(...)` is true for every enumerator whose value is not
zero. -/
def cmd_findheads (env : FindHeadsEnv) : Int × List String :=
  (0, env.computeRefCounts.foldl
    (fun (out : List String) (it : String × List String) =>
      if it.1 = env.EMPTY_COMMIT then out
      else if it.2.length = 0 && env.enumValue (env.getObjectType it.1) ≠ 0 then
        out ++ findheadsReport it.1 (env.getCommit it.1)
      else out)
    [])

/-- The function `cmd_purgeobj` on a store of type `σ`: the exit status, the store
afterwards, and the arguments of the calls of `purgeObject` that were made. The
methods `getObjectType` (`none` when there is no such object) and `purgeObject`
are not among the sources and are arguments. -/
def cmd_purgeobj {σ : Type} (getObjectType : σ → String → Option ObjectType)
    (purgeObject : σ → String → Bool × σ) (argv : List String) (store : σ) :
    Int × σ × List String :=
  match argv with
  | [_, objId] =>
    if getObjectType store objId ≠ some ObjectType.Blob then (1, store, [])
    else
      let r := purgeObject store objId
      if !r.1 then (1, r.2, [objId])
      else (0, r.2, [objId])
  | _ => (1, store, [])

/-- The usual numbering of the enumerators, after a zero value for no object. -/
def sampleEnumValue : ObjectType → Nat
  | .Commit => 1
  | .Tree => 2
  | .Blob => 3
  | .LargeBlob => 4
  | .Purged => 5

/-- A repository with the commit `c-head` that nothing refers to, its parent
`c-old`, and a tree `t-lost` that nothing refers to. -/
def sampleFindHeadsEnv : FindHeadsEnv :=
  { EMPTY_COMMIT := ""
    computeRefCounts := [("c-head", []), ("c-old", ["c-head"]), ("t-lost", [])]
    getObjectType := fun h => if h = "t-lost" then .Tree else .Commit
    enumValue := sampleEnumValue
    getCommit := fun h =>
      if h = "c-head" then ⟨"t1", "c-old", "", "second", 2, "me"⟩
      else if h = "c-old" then ⟨"t0", "", "", "first", 1, "me"⟩
      else ⟨"", "", "", "", 0, ""⟩ }

/-! ## The mount adapter (`orifs/orifuse.cc`) -/

/-- The macro `ORI_CONTROL_FILEPATH`. -/
def ORI_CONTROL_FILEPATH : String := "/.ori_control"

/-- The macro `ORI_SNAPSHOT_DIRPATH`. -/
def ORI_SNAPSHOT_DIRPATH : String := "/.snapshot"

/-- The test `strncmp(path, lit, strlen(lit)) == 0`: the first characters of
`path` are those of `lit`. -/
def strncmpEq (path lit : String) : Bool := lit.data.isPrefixOf path.data

/-- The error number `EPERM`. -/
def EPERM : Int := 1

/-- The error number `EIO`. -/
def EIO : Int := 5

/-- The error number `EACCES`. -/
def EACCES : Int := 13

/-- The error number `ENOTDIR`. -/
def ENOTDIR : Int := 20

/-- The error number `EISDIR`. -/
def EISDIR : Int := 21

/-- The error number `EINVAL`. -/
def EINVAL : Int := 22

/-- The error number `ENOTEMPTY` (its value on Linux). -/
def ENOTEMPTY : Int := 39

/-- Modelled from the spec: the kind of a `FileInfo`, which `isReg`, `isDir` and
`isSymlink` of `oripriv.h` (not among the sources) tell apart. -/
inductive FileKind where
  | Reg
  | Dir
  | Symlink
deriving DecidableEq, Repr

/-- Modelled from the spec: the state of a `FileInfo`, `FILETYPE_COMMITTED` or
`FILETYPE_DIRTY`. -/
inductive FileType where
  | Committed
  | Dirty
deriving DecidableEq, Repr

/-- The members of `struct stat` that the adapter sets. -/
structure StatInfo where
  st_mode : Nat
  st_nlink : Nat
  st_uid : Nat
  st_gid : Nat
  st_size : Int
  st_blksize : Int
  st_blocks : Int
  st_mtime : Int
  st_ctime : Int
deriving DecidableEq

/-- The result of `memset(stbuf, 0, sizeof(struct stat))`. -/
def StatInfo.zero : StatInfo := ⟨0, 0, 0, 0, 0, 0, 0, 0, 0⟩

/-- Modelled from the spec: class `OriFileInfo` of `oripriv.h` (not among the
sources): `path` is the spill file or empty, `fd` its descriptor or -1. -/
structure OriFileInfo where
  id : Nat
  kind : FileKind
  statInfo : StatInfo
  link : String
  path : String
  hash : String
  type : FileType
  fd : Int
deriving DecidableEq

/-- Modelled from the spec: class `OriDir`: the entries of a directory, each a
name and the id of its `OriFileInfo`, and the dirty mark. -/
structure OriDir where
  entries : List (String × Nat)
  dirty : Bool
deriving DecidableEq

/-- Modelled from the spec: class `OriPriv`, the overlay: the `OriFileInfo`
objects by id, the map from path to object, the directories by the id of their
object, the open handles, the two allocators, the journal, the root path of the
repository; and, of the operating system, the spill files (path to size) and the
descriptors open on them. -/
structure OriPriv where
  infos : Nat → Option OriFileInfo
  paths : String → Option Nat
  dirs : Nat → OriDir
  handles : Nat → Option Nat
  nextId : Nat
  nextFh : Nat
  journalLog : List (String × String)
  rootPath : String
  spill : String → Option Int
  fds : Int → Option String

/-- How a callback can end the process instead of returning. -/
inductive MountAbort where
  | AssertionFailed
  | UncaughtException (errno : Int)
deriving DecidableEq, Repr

/-- The outcome of a callback: the value returned and the overlay afterwards. -/
abbrev MountResult := Except MountAbort (Int × OriPriv)

/-- Modelled from the spec: `OriFile_Dirname`, with the adapter's replacement of
an empty result by `/`. -/
def parentPathOf (path : String) : String :=
  if dirnameOf path = "" then "/" else dirnameOf path

/-- Modelled from the spec: `OriFile_Basename`, what follows the last slash. -/
def OriFile_Basename (path : String) : String := afterLastSlash path

namespace OriPriv

/-- Modelled from the spec: `getFileInfo(path)`, the object at the path, whose id
is its key; a missing path throws `ENOENT`. -/
def getFileInfo (priv : OriPriv) (path : String) : Except Int OriFileInfo :=
  match priv.paths path with
  | none => .error ENOENT
  | some id =>
    match priv.infos id with
    | none => .error ENOENT
    | some info => .ok { info with id := id }

/-- Modelled from the spec: `getFileInfo(fh)`, the object of an open handle. -/
def getFileInfoFh (priv : OriPriv) (fh : Nat) : Option OriFileInfo :=
  match priv.handles fh with
  | none => none
  | some id =>
    match priv.infos id with
    | none => none
    | some info => some { info with id := id }

/-- A write through the pointer that `getFileInfo` returned. -/
def setInfo (priv : OriPriv) (info : OriFileInfo) : OriPriv :=
  { priv with infos := Function.update priv.infos info.id (some info) }

/-- Modelled from the spec: `getDir(path)`, the id of the directory; a missing
path throws `ENOENT`, a path that is no directory `ENOTDIR`. -/
def getDir (priv : OriPriv) (path : String) : Except Int Nat :=
  match priv.getFileInfo path with
  | .error e => .error e
  | .ok info => if info.kind = .Dir then .ok info.id else .error ENOTDIR

/-- The method `OriDir::setDirty` on the directory with the given id. -/
def setDirDirty (priv : OriPriv) (dirId : Nat) : OriPriv :=
  { priv with dirs := Function.update priv.dirs dirId { priv.dirs dirId with dirty := true } }

/-- The method `OriDir::add` on the directory with the given id. -/
def dirAdd (priv : OriPriv) (dirId : Nat) (name : String) (id : Nat) : OriPriv :=
  let dir : OriDir := { entries := (priv.dirs dirId).entries ++ [(name, id)], dirty := true }
  { priv with dirs := Function.update priv.dirs dirId dir }

/-- The removal of a name from the directory that holds `path`, which becomes
dirty. -/
def dirRemove (priv : OriPriv) (path : String) : OriPriv :=
  match priv.getDir (parentPathOf path) with
  | .error _ => priv
  | .ok dirId =>
    let dir : OriDir :=
      { entries := (priv.dirs dirId).entries.filter (fun e => e.1 ≠ OriFile_Basename path),
        dirty := true }
    { priv with dirs := Function.update priv.dirs dirId dir }

/-- Modelled from the spec: `journal(op, arg)` appends a line to the journal. -/
def journal (priv : OriPriv) (op arg : String) : OriPriv :=
  { priv with journalLog := priv.journalLog ++ [(op, arg)] }

/-- Modelled from the spec: `unlink(path)` takes the path out of the overlay. -/
def unlink (priv : OriPriv) (path : String) : OriPriv :=
  { priv.dirRemove path with paths := Function.update priv.paths path none }

/-- Modelled from the spec: `rmDir(path)` takes the directory out of the overlay. -/
def rmDir (priv : OriPriv) (path : String) : OriPriv :=
  { priv.dirRemove path with paths := Function.update priv.paths path none }

/-- Modelled from the spec: `rename(from, to)` moves the object to the new path
and marks both parent directories dirty. -/
def rename (priv : OriPriv) (fromPath toPath : String) : Except Int OriPriv :=
  match priv.paths fromPath with
  | none => .error ENOENT
  | some id =>
    match priv.getDir (parentPathOf toPath) with
    | .error e => .error e
    | .ok toDir =>
      let p1 := priv.dirRemove toPath
      let p2 := p1.dirRemove fromPath
      let p3 := p2.dirAdd toDir (OriFile_Basename toPath) id
      .ok { p3 with
        paths := Function.update (Function.update p3.paths fromPath none) toPath (some id) }

/-- The name of the spill file of the object with the given id. -/
def tmpName (priv : OriPriv) (id : Nat) : String :=
  priv.rootPath ++ "/.ori/tmp/" ++ toString id

/-- Modelled from the spec: the creation of a new object in the Dirty state at a
path; a taken path throws `EEXIST` (17). -/
def addInfo (priv : OriPriv) (path : String) (kind : FileKind) (spillPath : String) :
    Except Int (OriFileInfo × OriPriv) :=
  match priv.paths path with
  | some _ => .error 17
  | none =>
    let info : OriFileInfo :=
      { id := priv.nextId, kind := kind, statInfo := StatInfo.zero, link := "",
        path := spillPath, hash := "", type := .Dirty, fd := -1 }
    .ok (info, { priv with
      infos := Function.update priv.infos priv.nextId (some info)
      paths := Function.update priv.paths path (some priv.nextId)
      nextId := priv.nextId + 1 })

/-- Modelled from the spec: `addFile(path)` creates a Dirty regular file with a
fresh spill file, open on a new handle. -/
def addFile (priv : OriPriv) (path : String) : Except Int (OriFileInfo × Nat × OriPriv) :=
  match priv.addInfo path .Reg (priv.tmpName priv.nextId) with
  | .error e => .error e
  | .ok (info, p1) =>
    let fd : Int := (p1.nextFh : Int) + 3
    let info1 := { info with fd := fd }
    .ok (info1, p1.nextFh,
      { p1.setInfo info1 with
        handles := Function.update p1.handles p1.nextFh (some info.id)
        nextFh := p1.nextFh + 1
        spill := Function.update p1.spill info.path (some 0)
        fds := Function.update p1.fds fd (some info.path) })

/-- Modelled from the spec: `addDir(path)` creates a directory; a missing parent
throws `ENOENT`. -/
def addDir (priv : OriPriv) (path : String) : Except Int (OriFileInfo × OriPriv) :=
  match priv.getDir (parentPathOf path) with
  | .error e => .error e
  | .ok parent =>
    match priv.addInfo path .Dir "" with
    | .error e => .error e
    | .ok (info, p1) =>
      let p2 := p1.dirAdd parent (OriFile_Basename path) info.id
      .ok (info, { p2 with dirs := Function.update p2.dirs info.id ⟨[], true⟩ })

/-- Modelled from the spec: `addSymlink(path)` creates a symbolic link. -/
def addSymlink (priv : OriPriv) (path : String) : Except Int (OriFileInfo × OriPriv) :=
  priv.addInfo path .Symlink ""

/-- Modelled from the spec: `openFile(path, writing, trunc)`: a writing open of a
file without a spill file materialises one; the file gets a new handle. -/
def openFile (priv : OriPriv) (path : String) (writing trunc : Bool) :
    Except Int (OriFileInfo × Nat × OriPriv) :=
  match priv.getFileInfo path with
  | .error e => .error e
  | .ok info =>
    let p1 : OriPriv :=
      { priv with
        handles := Function.update priv.handles priv.nextFh (some info.id)
        nextFh := priv.nextFh + 1 }
    if writing && info.path = "" then
      let fd : Int := (priv.nextFh : Int) + 3
      let size : Int := if trunc then 0 else info.statInfo.st_size
      let info1 := { info with path := priv.tmpName info.id, fd := fd }
      .ok (info1, priv.nextFh,
        { p1.setInfo info1 with
          spill := Function.update p1.spill (priv.tmpName info.id) (some size)
          fds := Function.update p1.fds fd (some (priv.tmpName info.id)) })
    else .ok (info, priv.nextFh, p1)

/-- The system call `unlink` on a spill file. -/
def removeSpill (priv : OriPriv) (path : String) : OriPriv :=
  { priv with spill := Function.update priv.spill path none }

/-- The system call `pwrite(fd, buf, size, offset)` on a spill file: the error
number, or the bytes written and the state afterwards. The contents of spill
files are not kept, only their size. -/
def pwrite (priv : OriPriv) (fd : Int) (size : Nat) (offset : Int) :
    Except Int (Nat × OriPriv) :=
  match priv.fds fd with
  | none => .error EBADF
  | some file =>
    if offset < 0 ∨ (2 : Int) ^ 63 ≤ offset + (size : Int) then .error EINVAL
    else
      let n := min size MAX_RW_COUNT
      let old : Int := (priv.spill file).getD 0
      let new : Int := max old (offset + (n : Int))
      .ok (n, { priv with spill := Function.update priv.spill file (some new) })

/-- The system call `truncate(path, length)` on a spill file. -/
def truncate (priv : OriPriv) (path : String) (length : Int) : Except Int OriPriv :=
  match priv.spill path with
  | none => .error ENOENT
  | some _ =>
    if length < 0 then .error EINVAL
    else .ok { priv with spill := Function.update priv.spill path (some length) }

/-- The system call `ftruncate(fd, length)` on a spill file. -/
def ftruncate (priv : OriPriv) (fd : Int) (length : Int) : Except Int OriPriv :=
  match priv.fds fd with
  | none => .error EBADF
  | some file =>
    if length < 0 then .error EINVAL
    else .ok { priv with spill := Function.update priv.spill file (some length) }

end OriPriv

/-- The conversion of a `size_t` to `off_t`. -/
def toOffT (n : Nat) : Int :=
  if n % 2 ^ 64 < 2 ^ 63 then ((n % 2 ^ 64 : Nat) : Int)
  else ((n % 2 ^ 64 : Nat) : Int) - (2 ^ 64 : Int)

/-- The callback `ori_unlink`. The consistency check `priv->fsck()` that a DEBUG
build runs first in several callbacks only reads the overlay and is left out. -/
def ori_unlink (priv : OriPriv) (path : String) : MountResult :=
  if path = ORI_CONTROL_FILEPATH then .ok (-EACCES, priv)
  else if strncmpEq path ORI_SNAPSHOT_DIRPATH then .ok (-EACCES, priv)
  else
    match priv.getFileInfo path with
    | .error e => .ok (-e, priv)
    | .ok info =>
      if info.kind = .Dir then .ok (-EPERM, priv)
      else
        let p1 := if info.path ≠ "" then priv.removeSpill info.path else priv
        let p2 := p1.unlink path
        .ok (0, p2.journal "unlink" path)

/-- The callback `ori_symlink`. -/
def ori_symlink (priv : OriPriv) (target_path link_path : String) : MountResult :=
  let parentPath := parentPathOf link_path
  if link_path = ORI_CONTROL_FILEPATH then .ok (-EACCES, priv)
  else if strncmpEq link_path ORI_SNAPSHOT_DIRPATH then .ok (-EACCES, priv)
  else
    match priv.getDir parentPath with
    | .error e => .ok (-e, priv)
    | .ok parentDir =>
      match priv.addSymlink link_path with
      | .error e => .error (.UncaughtException e)
      | .ok (info, p1) =>
        let info1 : OriFileInfo :=
          { info with
            statInfo := { info.statInfo with
              st_mode := info.statInfo.st_mode ||| 0o755
              st_size := (info.path.length : Int) }
            link := target_path
            type := .Dirty }
        let p2 := p1.setInfo info1
        .ok (0, p2.dirAdd parentDir (OriFile_Basename link_path) info.id)

/-- The callback `ori_rename`. -/
def ori_rename (priv : OriPriv) (from_path to_path : String) : MountResult :=
  if strncmpEq to_path ORI_SNAPSHOT_DIRPATH then .ok (-EACCES, priv)
  else if strncmpEq from_path ORI_SNAPSHOT_DIRPATH then .ok (-EACCES, priv)
  else
    match priv.getFileInfo from_path with
    | .error e => .ok (-e, priv)
    | .ok info =>
      let toFile : Option OriFileInfo := (priv.getFileInfo to_path).toOption
      let toIsDir : Bool :=
        match toFile with
        | some t => t.kind = .Dir
        | none => false
      let notEmpty : Except Int Bool :=
        if toIsDir then
          match priv.getDir to_path with
          | .error e => .error e
          | .ok toFileDir => .ok (!(priv.dirs toFileDir).entries.isEmpty)
        else .ok false
      match notEmpty with
      | .error e => .ok (-e, priv)
      | .ok true => .ok (-ENOTEMPTY, priv)
      | .ok false =>
        if toFile.isSome && info.kind = .Dir && !toIsDir then .ok (-EISDIR, priv)
        else if info.kind = .Dir then .ok (-EINVAL, priv)
        else
          match priv.rename from_path to_path with
          | .error e => .ok (-e, priv)
          | .ok p1 => .ok (0, p1.journal "rename" (from_path ++ ":" ++ to_path))

/-- The callback `ori_create`: also the new value of `fi->fh`. -/
def ori_create (priv : OriPriv) (path : String) (mode : Nat) (fh : Nat) :
    Except MountAbort (Int × OriPriv × Nat) :=
  let parentPath := parentPathOf path
  if strncmpEq path ORI_SNAPSHOT_DIRPATH then .ok (-EACCES, priv, fh)
  else
    match priv.getDir parentPath with
    | .error e => .ok (-e, priv, fh)
    | .ok parentDir =>
      match priv.addFile path with
      | .error e => .error (.UncaughtException e)
      | .ok (info, newFh, p1) =>
        let info1 : OriFileInfo :=
          { info with
            statInfo := { info.statInfo with st_mode := info.statInfo.st_mode ||| mode }
            type := .Dirty }
        let p2 := p1.setInfo info1
        let p3 := p2.dirAdd parentDir (OriFile_Basename path) info.id
        .ok (0, p3.journal "create" (path ++ (":" ++ info.path)), newFh)

/-- The open flag `O_WRONLY`. -/
def O_WRONLY : Nat := 1

/-- The open flag `O_RDWR`. -/
def O_RDWR : Nat := 2

/-- The open flag `O_TRUNC` (its value on Linux). -/
def O_TRUNC : Nat := 512

/-- The callback `ori_open`: also the new value of `fi->fh`. -/
def ori_open (priv : OriPriv) (path : String) (flags : Nat) (fh : Nat) :
    Except MountAbort (Int × OriPriv × Nat) :=
  let writing : Bool := flags &&& O_WRONLY ≠ 0 || flags &&& O_RDWR ≠ 0
  let trunc : Bool := flags &&& O_TRUNC ≠ 0
  if path = ORI_CONTROL_FILEPATH then .ok (0, priv, fh)
  else if strncmpEq path ORI_SNAPSHOT_DIRPATH then
    .ok (if writing then -EPERM else 0, priv, fh)
  else
    let parentPath := parentPathOf path
    match priv.getDir parentPath with
    | .error e => .ok (-e, priv, fh)
    | .ok parentDir =>
      match priv.openFile path writing trunc with
      | .error e => .ok (-e, priv, fh)
      | .ok (_, newFh, p1) =>
        let p2 := if writing then p1.setDirDirty parentDir else p1
        .ok (0, p2, newFh)

/-- The call `memcpy(buf, src, n)` on a buffer that holds at least `n` characters. -/
def memcpy (buf src : List Char) (n : Nat) : List Char := src.take n ++ buf.drop n

/-- The callback `ori_read`: the value returned and the buffer afterwards. The
reads from a snapshot and from an open file need the object store and are the
argument `readOther`. -/
def ori_read (readOther : OriPriv → String → List Char → Nat → Int → Nat → Int × List Char)
    (priv : OriPriv) (path : String) (buf : List Char) (size : Nat) (offset : Int)
    (fh : Nat) : Int × List Char :=
  if path = ORI_CONTROL_FILEPATH then
    let repoPath := priv.rootPath
    let len : Int := toInt32 (if size < repoPath.length then size else repoPath.length)
    if offset ≠ 0 ∨ size < repoPath.length then (- EIO, buf)
    else (len, memcpy buf repoPath.data (toSizeT len))
  else readOther priv path buf size offset fh

/-- The file type bits `S_IFREG`. -/
def S_IFREG : Nat := 0o100000

/-- The callback `ori_getattr`: the value returned and `*stbuf`. The attributes
of the snapshot tree and of overlay files are the argument `attrOther`; `euid` and
`egid` are what `geteuid` and `getegid` return. -/
def ori_getattr (attrOther : OriPriv → String → Int × StatInfo) (euid egid : Nat)
    (priv : OriPriv) (path : String) : Int × StatInfo :=
  let stbuf := StatInfo.zero
  if path = ORI_CONTROL_FILEPATH then
    let repoPath := priv.rootPath
    let stbuf := { stbuf with
      st_uid := euid
      st_gid := egid
      st_mode := 0o600 ||| S_IFREG
      st_nlink := 1
      st_size := (repoPath.length : Int)
      st_blksize := 4096 }
    (0, { stbuf with st_blocks := Int.tdiv (stbuf.st_size + 511) 512 })
  else attrOther priv path

/-- The callback `ori_write`; `assertOn` tells whether `ASSERT` is compiled in.
A handle that is not open is an assertion failure. -/
def ori_write (assertOn : Bool) (priv : OriPriv) (path : String) (size : Nat) (offset : Int)
    (fh : Nat) : MountResult :=
  if path = ORI_CONTROL_FILEPATH then .ok (- EIO, priv)
  else if strncmpEq path ORI_SNAPSHOT_DIRPATH then
    if assertOn then .error .AssertionFailed else .ok (- EIO, priv)
  else
    match priv.getFileInfoFh fh with
    | none => .error .AssertionFailed
    | some info =>
      if info.kind = .Dir then .ok (-EISDIR, priv)
      else
        let info1 := { info with type := FileType.Dirty }
        let p1 := priv.setInfo info1
        match p1.pwrite info1.fd size offset with
        | .error e => .ok (-e, p1)
        | .ok (n, p2) =>
          let status : Int := toInt32 n
          let info2 : OriFileInfo :=
            if info1.statInfo.st_size < toOffT size + offset then
              { info1 with
                statInfo := { info1.statInfo with
                  st_size := toOffT (size + toSizeT offset)
                  st_blocks := (((size + toSizeT offset + (512 - 1)) % 2 ^ 64 / 512 : Nat) : Int) } }
            else info1
          .ok (status, p2.setInfo info2)

/-- The callback `ori_truncate`. An exception of `getFileInfo` is not caught. -/
def ori_truncate (assertOn : Bool) (priv : OriPriv) (path : String) (length : Int) :
    MountResult :=
  if path = ORI_CONTROL_FILEPATH then .ok (-EACCES, priv)
  else if strncmpEq path ORI_SNAPSHOT_DIRPATH then .ok (-EACCES, priv)
  else
    match priv.getFileInfo path with
    | .error e => .error (.UncaughtException e)
    | .ok info =>
      if info.type = .Dirty then
        match priv.truncate info.path length with
        | .error e => .ok (-e, priv)
        | .ok p1 =>
          let info1 : OriFileInfo :=
            { info with
              statInfo := { info.statInfo with
                st_size := length
                st_blocks := Int.tdiv (length + (512 - 1)) 512 } }
          .ok (0, p1.setInfo info1)
      else if assertOn then .error .AssertionFailed
      else .ok (-EINVAL, priv)

/-- The callback `ori_ftruncate`. -/
def ori_ftruncate (assertOn : Bool) (priv : OriPriv) (path : String) (length : Int)
    (fh : Nat) : MountResult :=
  if path = ORI_CONTROL_FILEPATH then .ok (-EACCES, priv)
  else if strncmpEq path ORI_SNAPSHOT_DIRPATH then
    if assertOn then .error .AssertionFailed else .ok (- EIO, priv)
  else
    match priv.getFileInfoFh fh with
    | none => .error .AssertionFailed
    | some info =>
      if info.type = .Dirty then
        match priv.ftruncate info.fd length with
        | .error e => .ok (-e, priv)
        | .ok p1 =>
          let info1 : OriFileInfo :=
            { info with
              statInfo := { info.statInfo with
                st_size := length
                st_blocks := Int.tdiv (length + (512 - 1)) 512 } }
          .ok (0, p1.setInfo info1)
      else if assertOn then .error .AssertionFailed
      else .ok (-EINVAL, priv)

/-- The callback `ori_mkdir`. -/
def ori_mkdir (priv : OriPriv) (path : String) (mode : Nat) : MountResult :=
  if strncmpEq path ORI_SNAPSHOT_DIRPATH then .ok (-EACCES, priv)
  else
    match priv.addDir path with
    | .error e => .ok (-e, priv)
    | .ok (info, p1) =>
      let info1 : OriFileInfo :=
        { info with statInfo := { info.statInfo with st_mode := info.statInfo.st_mode ||| mode } }
      .ok (0, (p1.setInfo info1).journal "mkdir" path)

/-- The callback `ori_rmdir`. -/
def ori_rmdir (priv : OriPriv) (path : String) : MountResult :=
  if strncmpEq path ORI_SNAPSHOT_DIRPATH then .ok (-EACCES, priv)
  else
    match priv.getDir path with
    | .error e => .ok (-e, priv)
    | .ok dir =>
      if !(priv.dirs dir).entries.isEmpty then .ok (-ENOTEMPTY, priv)
      else .ok (0, (priv.rmDir path).journal "rmdir" path)

/-- The common part of `ori_chmod`, `ori_chown` and `ori_utimens`: the guards, the
change `f` of the attributes, the Dirty mark, and the dirty mark of the parent. -/
def setAttr (priv : OriPriv) (path : String) (f : StatInfo → StatInfo) : MountResult :=
  let parentPath := parentPathOf path
  if path = ORI_CONTROL_FILEPATH then .ok (-EACCES, priv)
  else if strncmpEq path ORI_SNAPSHOT_DIRPATH then .ok (-EACCES, priv)
  else
    match priv.getFileInfo path with
    | .error e => .ok (-e, priv)
    | .ok info =>
      let p1 := priv.setInfo { info with statInfo := f info.statInfo, type := .Dirty }
      match p1.getDir parentPath with
      | .error e => .ok (-e, p1)
      | .ok dir => .ok (0, p1.setDirDirty dir)

/-- The callback `ori_chmod`. -/
def ori_chmod (priv : OriPriv) (path : String) (mode : Nat) : MountResult :=
  setAttr priv path (fun st => { st with st_mode := mode })

/-- The callback `ori_chown`. -/
def ori_chown (priv : OriPriv) (path : String) (uid gid : Nat) : MountResult :=
  setAttr priv path (fun st => { st with st_uid := uid, st_gid := gid })

/-- The callback `ori_utimens`; `mtime` is `tv[1].tv_sec`. -/
def ori_utimens (priv : OriPriv) (path : String) (mtime : Int) : MountResult :=
  setAttr priv path (fun st => { st with st_mtime := mtime })

/-- The ceiling of `s / 512`. -/
def ceilDiv512 (s : Int) : Int := ⌈(s : ℚ) / 512⌉

/-- An overlay over an empty commit: the root directory only. -/
def emptyPriv : OriPriv :=
  { infos := fun id =>
      if id = 0 then some ⟨0, .Dir, StatInfo.zero, "", "", "", .Committed, -1⟩ else none
    paths := fun p => if p = "/" then some 0 else none
    dirs := fun _ => ⟨[], false⟩
    handles := fun _ => none
    nextId := 1
    nextFh := 0
    journalLog := []
    rootPath := "/repo"
    spill := fun _ => none
    fds := fun _ => none }

/-- An overlay over a commit that holds the directory `/d`, the directory `/e`
with the file `/e/x`, and the file `/f`, all in the Committed state; `/f` is open
for reading on handle 7. -/
def samplePriv : OriPriv :=
  { infos := fun id =>
      if id = 0 then some ⟨0, .Dir, StatInfo.zero, "", "", "", .Committed, -1⟩
      else if id = 1 then some ⟨1, .Dir, StatInfo.zero, "", "", "", .Committed, -1⟩
      else if id = 2 then some ⟨2, .Dir, StatInfo.zero, "", "", "", .Committed, -1⟩
      else if id = 3 then some ⟨3, .Reg, StatInfo.zero, "", "", "h3", .Committed, -1⟩
      else if id = 4 then
        some ⟨4, .Reg, { StatInfo.zero with st_size := 100, st_blocks := 1 }, "", "", "h4",
          .Committed, -1⟩
      else none
    paths := fun p =>
      if p = "/" then some 0 else if p = "/d" then some 1 else if p = "/e" then some 2
      else if p = "/e/x" then some 3 else if p = "/f" then some 4 else none
    dirs := fun id =>
      if id = 0 then ⟨[("d", 1), ("e", 2), ("f", 4)], false⟩
      else if id = 2 then ⟨[("x", 3)], false⟩ else ⟨[], false⟩
    handles := fun fh => if fh = 7 then some 4 else none
    nextId := 5
    nextFh := 8
    journalLog := []
    rootPath := "/repo"
    spill := fun _ => none
    fds := fun _ => none }

/-- An overlay in which `/w` is a regular file in the Dirty state, with a spill
file of 100 bytes that is open on descriptor 3, reached through handle 0. -/
def dirtyPriv : OriPriv :=
  { infos := fun id =>
      if id = 0 then some ⟨0, .Dir, StatInfo.zero, "", "", "", .Committed, -1⟩
      else if id = 1 then
        some ⟨1, .Reg, { StatInfo.zero with st_size := 100, st_blocks := 1 }, "",
          "/repo/.ori/tmp/1", "", .Dirty, 3⟩
      else none
    paths := fun p => if p = "/" then some 0 else if p = "/w" then some 1 else none
    dirs := fun id => if id = 0 then ⟨[("w", 1)], true⟩ else ⟨[], false⟩
    handles := fun fh => if fh = 0 then some 1 else none
    nextId := 2
    nextFh := 1
    journalLog := [("create", "/w:/repo/.ori/tmp/1")]
    rootPath := "/repo"
    spill := fun p => if p = "/repo/.ori/tmp/1" then some 100 else none
    fds := fun fd => if fd = 3 then some "/repo/.ori/tmp/1" else none }

/-! ## Commit identity (`Commit::hash` of `libori/commit.cc`) -/

/-- The method `Commit::hash`: the digest of the canonical bytes. The function
`Util_HashString` is not among the sources and is an argument. -/
def Commit.hash (Util_HashString : Bytes → ObjectHash) (DEBUG : Bool) (c : Commit) :
    Except CodecError ObjectHash :=
  match c.getBlob DEBUG with
  | .error e => .error e
  | .ok blob => .ok (Util_HashString blob)

/-- A commit with one parent and empty strings. -/
def singleParentCommit : Commit :=
  { Commit.new TimeT.zero with
    treeObjId := ObjectHash.fill 7
    parents := (ObjectHash.fill 1, ObjectHash.empty) }

/-- A digest that only looks at the length of its input. -/
def lengthDigest (b : Bytes) : ObjectHash := ObjectHash.fill (byteOfNat b.length)

/-! ## Reference counts and grafts (`cmd_rebuildrefs`, `cmd_refcount`, `cmd_graft`) -/

/-- The enumerators `Object::BRRef` and `Object::BRPurged` of `object.h`, which is
not among the sources. -/
inductive BRState where
  | BRRef
  | BRPurged
deriving DecidableEq, Repr

/-- One change that `cmd_rebuildrefs` makes to an object file. -/
inductive MetadataOp where
  | clearMetadata (obj : String)
  | addBackref (obj ref : String) (state : BRState)
deriving DecidableEq, Repr

/-- What `cmd_rebuildrefs` takes from outside the sources: the macro
`EMPTY_COMMIT`, the map that `computeRefCounts` returns, in the order of its keys,
and for each object id what `o.open(repository.objIdToPath(id))` followed by
`o.getType()` gives, `none` when `open` returns a negative status. -/
structure RebuildRefsEnv where
  EMPTY_COMMIT : String
  computeRefCounts : List (String × List String)
  openObject : String → Option ObjectType

/-- The loop of `cmd_rebuildrefs` over the entries of `refs` that are left: the
exit status, the changes made to object files and the lines printed. The macro
`NOT_IMPLEMENTED` of `debug.h` is not among the sources; `assertOn` tells whether
it stops the process. -/
def rebuildrefsLoop (assertOn : Bool) (env : RebuildRefsEnv) :
    List (String × List String) → List MetadataOp → List String →
    Except Abort (Int × List MetadataOp × List String)
  | [], ops, out => .ok (0, ops, out)
  | it :: rest, ops, out =>
    if it.1 = env.EMPTY_COMMIT then rebuildrefsLoop assertOn env rest ops out
    else
      match env.openObject it.1 with
      | none => .ok (1, ops, out ++ ["Cannot open object " ++ it.1])
      | some type =>
        if type = .Commit ∨ type = .Tree ∨ type = .Blob then
          rebuildrefsLoop assertOn env rest
            (ops ++ [.clearMetadata it.1] ++ it.2.map (fun i => .addBackref it.1 i .BRRef)) out
        else if type = .Purged then
          rebuildrefsLoop assertOn env rest
            (ops ++ [.clearMetadata it.1] ++ it.2.map (fun i => .addBackref it.1 i .BRPurged))
            out
        else if assertOn then .error .AssertionFailed
        else rebuildrefsLoop assertOn env rest ops out

/-- The function `cmd_rebuildrefs`. -/
def cmd_rebuildrefs (assertOn : Bool) (env : RebuildRefsEnv) (argv : List String) :
    Except Abort (Int × List MetadataOp × List String) :=
  let out :=
    if argv.length ≠ 1 then ["rebuildrefs takes no arguements!", "Usage: ori rebuildrefs"]
    else []
  rebuildrefsLoop assertOn env env.computeRefCounts [] out

/-- The function `cmd_refcount`: the exit status and the lines printed. The
methods `getRefCounts` and `getRefs` only read the repository; what they return,
in the order of the keys, is an argument. -/
def cmd_refcount (getRefCounts : List (String × List (String × BRState)))
    (getRefs : String → List (String × BRState)) (argv : List String) : Int × List String :=
  match argv with
  | [_] =>
    (0, ["Object".pushn ' ' 58 ++ " Count"] ++
      getRefCounts.map (fun it => it.1 ++ " " ++ toString it.2.length))
  | [_, objId] => (0, (getRefs objId).map (fun it => it.1))
  | _ => (0, ["Invalid number of arguements.", "ori refcount [OBJID]"])

/-- The function `cmd_graft` over repositories of type `σ`: the exit status, the
repositories afterwards and the lines printed. `Util_RealPath`,
`Repo::findRootPath` and `Repo::graftSubtree` are not among the sources and are
arguments. -/
def cmd_graft {σ : Type} (Util_RealPath : String → String) (findRootPath : String → String)
    (graftSubtree : σ → String → String → String → String → σ) (argv : List String)
    (w : σ) : Int × σ × List String :=
  match argv with
  | [_, a1, a2] =>
    let srcRelPath := Util_RealPath a1
    let dstRelPath := Util_RealPath a2
    if srcRelPath = "" ∨ dstRelPath = "" then
      (1, w, ["Error: Unable to resolve relative paths."])
    else
      let srcRoot := findRootPath srcRelPath
      let dstRoot := findRootPath dstRelPath
      if srcRoot = "" then (1, w, ["Error: source path is not a repository."])
      else if dstRoot = "" then (1, w, ["Error: destination path is not a repository."])
      else
        let srcRelPath := substrFrom srcRelPath srcRoot.length
        let dstRelPath := substrFrom dstRelPath dstRoot.length
        (0, graftSubtree w srcRoot dstRoot srcRelPath dstRelPath, [srcRelPath, dstRelPath])
  | _ =>
    (1, w, ["Error in correct number of arguments.",
      "ori graft <Source Path> <Destination Path>"])

/-- A repository with a commit `c1` that nothing refers to and its tree `t1`. -/
def sampleRebuildRefsEnv : RebuildRefsEnv :=
  { EMPTY_COMMIT := ""
    computeRefCounts := [("c1", []), ("t1", ["c1"])]
    openObject := fun h =>
      if h = "c1" then some .Commit else if h = "t1" then some .Tree else none }

/-! ## Mount options (`mount_ori/parse_opt.cc`) -/

/-- The call `memset(s, c, n)` on a block of memory: the first `n` bytes become
`(unsigned char)c`. -/
def memset (s : Bytes) (c : Int) (n : Nat) : Bytes :=
  List.replicate (min n s.length) (byteOfNat (c % 256).toNat) ++ s.drop n

/-- The function `mount_ori_parse_opt`: the arguments and the bytes of `*conf`
afterwards. The structure `mount_ori_config` is declared in `ori_fuse.h`, which is
not among the sources: `sizeofConfig` is its size and `conf` its bytes, the
pointers `repo_path` and `clone_path` among them. `fuse_opt_parse`, called with
the table `mount_ori_opts` and the processor `mount_ori_opt_proc`, belongs to
libfuse and is an argument. `FUSE_SINGLE_THREADED` is defined as 0, so no `-s` is
added. -/
def mount_ori_parse_opt (sizeofConfig : Nat)
    (fuse_opt_parse : List String → Bytes → Int × List String × Bytes)
    (args : List String) (conf : Bytes) : List String × Bytes :=
  let conf := memset conf (sizeofConfig : Int) 0
  let r := fuse_opt_parse args conf
  (r.2.1, r.2.2)

/-- The pointer member `repo_path`, at `offsetof(mount_ori_config, repo_path)`. -/
def repo_path (offset : Nat) (conf : Bytes) : Nat := decodeLE ((conf.drop offset).take 8)

/-- The pointer member `clone_path`, at `offsetof(mount_ori_config, clone_path)`. -/
def clone_path (offset : Nat) (conf : Bytes) : Nat := decodeLE ((conf.drop offset).take 8)

/-- What `fuse_opt_parse` does when no argument matches a template of the table
and the processor returns 1: the arguments are kept and the data is not written. -/
def fuseOptParseNoMatch (args : List String) (conf : Bytes) : Int × List String × Bytes :=
  (0, args, conf)

/-! ## Status and checkout (`cmd_status`, `cmd_checkout` of `ori/repo_cmd.cc`) -/

/-- The container `std::map<string, string>`: its pairs in the order of their
keys, each key once. -/
abbrev StrMap := List (String × String)

/-- The order of `std::string` on the characters of two strings: the first
difference decides, and a string comes before its extensions. -/
def charsLt : List Char → List Char → Bool
  | [], [] => false
  | [], _ :: _ => true
  | _ :: _, [] => false
  | a :: as, b :: bs =>
    if a.toNat < b.toNat then true else if b.toNat < a.toNat then false else charsLt as bs

/-- The comparison `a < b` of two `std::string`. -/
def strLt (a b : String) : Bool := charsLt a.data b.data

/-- The method `insert` of `std::map`: a pair whose key is in the map already is
not inserted, a new pair goes to its place in the order of the keys. -/
def mapInsert : StrMap → String → String → StrMap
  | [], k, v => [(k, v)]
  | (k1, v1) :: rest, k, v =>
    if k = k1 then (k1, v1) :: rest
    else if strLt k k1 then (k, v) :: (k1, v1) :: rest
    else (k1, v1) :: mapInsert rest k v

/-- The method `find` of `std::map`: the value at a key, `none` for `end()`. -/
def mapFind (m : StrMap) (k : String) : Option String := m.lookup k

/-- Modelled from the spec: an entry of a tree object as `StatusTreeIter` reads it
from `tree.tree`: its name, its hash and, for an entry of type `TreeEntry::Tree`,
the entries of the tree that `repository.getTree` returns for that hash, in the
order of their names. The methods of `Tree` and `Repo` are not among the sources. -/
inductive TreeNode where
  | blob (name hash : String)
  | tree (name hash : String) (entries : List TreeNode)

mutual

/-- The body of the loop of `StatusTreeIter` for one entry. -/
def StatusTreeEntry (tipState : StrMap) (path : String) : TreeNode → StrMap
  | .tree name _ entries =>
    StatusTreeIter (mapInsert tipState (path ++ "/" ++ name) "DIR") (path ++ "/" ++ name) entries
  | .blob name hash => mapInsert tipState (path ++ "/" ++ name) hash

/-- The function `StatusTreeIter`, called with the entries of the tree `treeId`. -/
def StatusTreeIter (tipState : StrMap) (path : String) : List TreeNode → StrMap
  | [] => tipState
  | e :: es => StatusTreeIter (StatusTreeEntry tipState path e) path es

end

/-- The callback `StatusDirectoryCB`; `isDirectory` is what `Util_IsDirectory`
returns for the path and `hashFile` is `Util_HashFile`. -/
def StatusDirectoryCB (hashFile : String → String) (repoRoot : String) (dirState : StrMap)
    (isDirectory : Bool) (path : String) : StrMap :=
  if !isDirectory then
    let objHash := hashFile path
    mapInsert dirState (substrFrom path repoRoot.length) objHash
  else mapInsert dirState (substrFrom path repoRoot.length) "DIR"

mutual

/-- One entry of the walk of `Scan_RTraverse`. -/
def scanEntry (hashFile : String → String) (repoRoot : String) (dirState : StrMap) :
    DirEntry → StrMap
  | .file path => StatusDirectoryCB hashFile repoRoot dirState false path
  | .dir path entries =>
    Scan_RTraverse hashFile repoRoot (StatusDirectoryCB hashFile repoRoot dirState true path)
      entries

/-- Modelled from the spec: the function `Scan_RTraverse` of `scan.h` (not among
the sources) with `StatusDirectoryCB` as its callback: one call for each file and
each directory below the root, a directory before what it holds. -/
def Scan_RTraverse (hashFile : String → String) (repoRoot : String) (dirState : StrMap) :
    List DirEntry → StrMap
  | [] => dirState
  | e :: es => Scan_RTraverse hashFile repoRoot (scanEntry hashFile repoRoot dirState e) es

end

/-- What `cmd_status` and `cmd_checkout` take from outside the sources: the macro
`EMPTY_COMMIT`, HEAD, for each commit the entries of its tree, the root path of the
repository, the entries below it that `Scan_RTraverse` walks, and `Util_HashFile`. -/
structure StatusEnv where
  EMPTY_COMMIT : String
  getHead : String
  commitTree : String → List TreeNode
  rootPath : String
  workdir : List DirEntry
  hashFile : String → String

/-- The map `tipState` that `cmd_status` and `cmd_checkout` build for the commit
`tip`. -/
def tipStateOf (env : StatusEnv) (tip : String) : StrMap :=
  if tip ≠ env.EMPTY_COMMIT then StatusTreeIter [] "" (env.commitTree tip) else []

/-- The map `dirState` that `cmd_status` and `cmd_checkout` build. -/
def dirStateOf (env : StatusEnv) : StrMap :=
  Scan_RTraverse env.hashFile env.rootPath [] env.workdir

/-- A line `"<letter>\t<path>\n"` of the output, without its newline. -/
def statusLine (letter path : String) : String := letter ++ "\t" ++ path

/-- What the first loop of `cmd_status` prints for one pair of `dirState`. -/
def statusDirLines (tipState : StrMap) (it : String × String) : List String :=
  match mapFind tipState it.1 with
  | none => [statusLine "A" it.1]
  | some v => if v ≠ it.2 then [statusLine "M" it.1] else []

/-- What the second loop of `cmd_status` prints for one pair of `tipState`. -/
def statusTipLines (dirState : StrMap) (it : String × String) : List String :=
  match mapFind dirState it.1 with
  | none => [statusLine "D" it.1]
  | some _ => []

/-- The function `cmd_status`: the exit status and the lines printed. -/
def cmd_status (env : StatusEnv) : Int × List String :=
  let tip := env.getHead
  let tipState := tipStateOf env tip
  let dirState := dirStateOf env
  let out := dirState.foldl (fun out it => out ++ statusDirLines tipState it) []
  let out := tipState.foldl (fun out it => out ++ statusTipLines dirState it) out
  (0, out)

/-- A call that `cmd_checkout` makes to change the working directory. -/
inductive CheckoutOp where
  | copyObject (objId path : String)
  | mkdir (path : String) (mode : Nat)
deriving DecidableEq, Repr

/-- The first loop of `cmd_checkout`, over the pairs of `dirState` that are left;
`assertOn` tells whether `assert` is compiled in. -/
def checkoutDirLoop (assertOn : Bool) (rootPath : String) (tipState : StrMap) :
    StrMap → List CheckoutOp → List String → Except Abort (List CheckoutOp × List String)
  | [], ops, out => .ok (ops, out)
  | it :: rest, ops, out =>
    match mapFind tipState it.1 with
    | none => checkoutDirLoop assertOn rootPath tipState rest ops (out ++ [statusLine "A" it.1])
    | some v =>
      if v ≠ it.2 then
        if assertOn && it.2 = "DIR" then .error .AssertionFailed
        else
          checkoutDirLoop assertOn rootPath tipState rest
            (ops ++ [.copyObject v (rootPath ++ it.1)]) (out ++ [statusLine "M" it.1])
      else checkoutDirLoop assertOn rootPath tipState rest ops out

/-- The body of the second loop of `cmd_checkout` for one pair of `tipState`. -/
def checkoutTipStep (getObjectType : String → Option ObjectType) (rootPath : String)
    (dirState : StrMap) (st : List CheckoutOp × List String) (it : String × String) :
    List CheckoutOp × List String :=
  match mapFind dirState it.1 with
  | some _ => st
  | none =>
    let path := rootPath ++ it.1
    if it.2 = "DIR" then (st.1 ++ [.mkdir path 0o755], st.2 ++ [statusLine "N" it.1])
    else if getObjectType it.2 ≠ some .Purged then
      (st.1 ++ [.copyObject it.2 path], st.2 ++ [statusLine "U" it.1])
    else (st.1, st.2 ++ [statusLine "U" it.1, "Object has been purged."])

/-- The function `cmd_checkout`: the exit status, the calls made to change the
working directory and the lines printed. -/
def cmd_checkout (assertOn : Bool) (env : StatusEnv)
    (getObjectType : String → Option ObjectType) (argv : List String) :
    Except Abort (Int × List CheckoutOp × List String) :=
  let tip :=
    match argv with
    | [_, a1] => a1
    | _ => env.getHead
  let tipState := tipStateOf env tip
  let dirState := dirStateOf env
  match checkoutDirLoop assertOn env.rootPath tipState dirState [] [] with
  | .error e => .error e
  | .ok st =>
    let st := tipState.foldl (checkoutTipStep getObjectType env.rootPath dirState) st
    .ok (0, st.1, st.2)

/-- The pairs of the map stand in the strict order of their keys, so every key
stands once. -/
def mapWF (m : StrMap) : Prop := m.Pairwise (fun a b => strLt a.1 b.1 = true)

/-- The tree of the sample commit: the files `f` and `g`. -/
def sampleTree : List TreeNode := [.blob "f" "h-f", .blob "g" "h-g"]

/-- A repository at `/r` whose HEAD `c1` has the files `f` and `g`, with a working
directory that holds `f` with another content, `g` not at all, and a new file
`n`. -/
def sampleStatusEnv : StatusEnv :=
  { EMPTY_COMMIT := ""
    getHead := "c1"
    commitTree := fun _ => sampleTree
    rootPath := "/r"
    workdir := [.file "/r/f", .file "/r/n"]
    hashFile := fun p => if p = "/r/f" then "h-other" else "h-n" }

/-- The same repository with an empty working directory. -/
def sampleEmptyWorkdirEnv : StatusEnv := { sampleStatusEnv with workdir := [] }

/-- The types of the objects of the sample repository: the blob of `f` is purged. -/
def sampleObjectType (h : String) : Option ObjectType :=
  if h = "h-f" then some .Purged else if h = "h-g" then some .Blob else none

/-! ## Byte streams (`libori/stream.cc`) -/

/-- The error number `ESPIPE`. -/
def ESPIPE : Int := 29

/-- The macro `COPYFILE_BUFSZ`. -/
def COPYFILE_BUFSZ : Nat := 2048

/-- A descriptor that is read: the bytes of the file, the file offset, whether the
file can seek, and what the operating system does with the coming calls of `read`.
Once that list is used up, a call transfers all the bytes it can. -/
structure SrcFd where
  data : Bytes
  pos : Nat
  seekable : Bool
  script : List IoEvent
deriving DecidableEq

/-- The system call `lseek(fd, offset, SEEK_SET)`: the value returned, `errno`, and
the descriptor afterwards. -/
def SrcFd.lseek (f : SrcFd) (offset : Int) : Int × Int × SrcFd :=
  if !f.seekable then (-1, ESPIPE, f)
  else if offset < 0 then (-1, EINVAL, f)
  else (offset, 0, { f with pos := offset.toNat })

/-- The system call `read(fd, buf, count)`: the error number or the bytes put into
`buf`, and the descriptor afterwards. -/
def SrcFd.read (f : SrcFd) (count : Nat) : Except Int Bytes × SrcFd :=
  match f.script with
  | .interrupted :: rest => (.error EINTR, { f with script := rest })
  | .fails e :: rest => (.error e, { f with script := rest })
  | .transfers limit :: rest =>
    let got := (f.data.drop f.pos).take (min count (min limit OriPriv.MAX_RW_COUNT))
    (.ok got, { f with pos := f.pos + got.length, script := rest })
  | [] =>
    let got := (f.data.drop f.pos).take (min count OriPriv.MAX_RW_COUNT)
    (.ok got, { f with pos := f.pos + got.length })

/-- The data members of class `fdstream`, with `last_error` and `last_errnum` of
its base class `bytestream`. -/
structure fdstream where
  fd : SrcFd
  offset : Int
  length : Nat
  left : Nat
  last_error : String
  last_errnum : Int
deriving DecidableEq

namespace fdstream

/-- The method `bytestream::setErrno`; the text of `strerror` is left out of the
message. -/
def setErrno (s : fdstream) (msg : String) (errno : Int) : fdstream :=
  { s with last_error := msg ++ ": (" ++ toString errno ++ ")\n", last_errnum := errno }

/-- Modelled from the spec: the method `error()` of `bytestream`, declared in
`stream.h`, which is not among the sources: whether an error has been recorded. -/
def error (s : fdstream) : Bool := s.last_error ≠ ""

/-- Modelled from the spec: the method `errnum()` of `bytestream`. -/
def errnum (s : fdstream) : Int := s.last_errnum

/-- The constructor `fdstream::fdstream(fd, offset, length)`. -/
def new (fd : SrcFd) (offset : Int) (length : Nat) : fdstream :=
  let s : fdstream :=
    { fd := fd, offset := offset, length := length, left := length, last_error := "",
      last_errnum := 0 }
  let r := fd.lseek offset
  if r.1 ≠ offset then { s with fd := r.2.2 }.setErrno "lseek" r.2.1
  else { s with fd := r.2.2 }

/-- The method `fdstream::ended`. -/
def ended (s : fdstream) : Bool := s.left == 0 || s.error

/-- The part of `fdstream::read` from the label `retry_read` on. Every interrupted
call uses up one entry of the script, so `script.length + 1` rounds are enough;
`rounds` counts them. -/
def retry_read (final_size : Nat) : Nat → fdstream → Bytes × fdstream
  | 0, s => ([], s)
  | rounds + 1, s =>
    match s.fd.read final_size with
    | (.error e, fd1) =>
      if e = EINTR then retry_read final_size rounds { s with fd := fd1 }
      else ([], { s with fd := fd1 }.setErrno "read" e)
    | (.ok got, fd1) => (got, { s with fd := fd1, left := s.left - got.length })

/-- The method `fdstream::read`: the bytes put into `buf`, whose number is the
value returned, and the stream afterwards. -/
def read (s : fdstream) (n : Nat) : Bytes × fdstream :=
  let final_size := min n s.left
  retry_read final_size (s.fd.script.length + 1) s

/-- The method `fdstream::sizeHint`. -/
def sizeHint (s : fdstream) : Nat := s.length

/-- The numbers of bytes that a sequence of `read` calls returns, and the stream
after them. -/
def readMany (s : fdstream) : List Nat → List Nat × fdstream
  | [] => ([], s)
  | n :: ns =>
    let r := s.read n
    let rest := readMany r.2 ns
    (r.1.length :: rest.1, rest.2)

end fdstream

/-- Modelled from the spec: the virtual methods of class `bytestream`, declared in
`stream.h`, which is not among the sources, for a stream whose state has type
`σ`: `read` gives the bytes put into the buffer, whose number it returns. -/
structure bytestream (σ : Type) where
  read : σ → Nat → Bytes × σ
  ended : σ → Bool
  sizeHint : σ → Nat
  error : σ → Bool
  errnum : σ → Int

/-- The class `fdstream` as a `bytestream`. -/
def fdstream.methods : bytestream fdstream :=
  ⟨fdstream.read, fdstream.ended, fdstream.sizeHint, fdstream.error, fdstream.errnum⟩

namespace bytestream

/-- The loop `while (!ended())` of `readAll`; `rounds` bounds the number of its
iterations, and `none` says that the bound was reached. -/
def readAllLoop {σ : Type} (bs : bytestream σ) : Nat → σ → Bytes → Option (Bytes × σ)
  | 0, _, _ => none
  | rounds + 1, s, rval =>
    if bs.ended s then some (rval, s)
    else
      let r := bs.read s COPYFILE_BUFSZ
      if bs.error r.2 then some ([], r.2)
      else readAllLoop bs rounds r.2 (rval ++ r.1)

/-- The method `bytestream::readAll`: the string returned and the stream
afterwards. -/
def readAll {σ : Type} (bs : bytestream σ) (rounds : Nat) (s : σ) : Option (Bytes × σ) :=
  if bs.sizeHint s = 0 then readAllLoop bs rounds s []
  else
    let rval : Bytes := List.replicate (bs.sizeHint s) 0
    let r := bs.read s (bs.sizeHint s)
    let rval := r.1 ++ rval.drop r.1.length
    if bs.error r.2 then some ([], r.2)
    else some (rval, r.2)

/-- The bytes that successive calls of `read`, each for `n` bytes, deliver until
`ended()` is true. -/
def deliveredUntilEnded {σ : Type} (bs : bytestream σ) (n : Nat) : Nat → σ → Option Bytes
  | 0, _ => none
  | rounds + 1, s =>
    if bs.ended s then some []
    else
      match deliveredUntilEnded bs n rounds (bs.read s n).2 with
      | none => none
      | some rest => some ((bs.read s n).1 ++ rest)

end bytestream

/-- An open file descriptor: the file it names and the file offset. -/
structure Fd where
  path : String
  pos : Nat
deriving DecidableEq

/-- The part of the operating system that `copyToFile` writes to: the regular
files by path, the paths that cannot be opened with their error number, and what
the operating system does with the coming calls of `write`. -/
structure DstSys where
  files : String → Option Bytes
  openErrno : String → Option Int
  script : List IoEvent

namespace DstSys

/-- The system call `open(path, O_WRONLY | O_CREAT, 0644)`. -/
def openCreate (sys : DstSys) (path : String) : Except Int (DstSys × Fd) :=
  match sys.openErrno path with
  | some e => .error e
  | none =>
    match sys.files path with
    | some _ => .ok (sys, ⟨path, 0⟩)
    | none => .ok ({ sys with files := Function.update sys.files path (some []) }, ⟨path, 0⟩)

/-- The bytes of the file after `data` has been written at the offset `pos`. -/
def put (old : Bytes) (pos : Nat) (data : Bytes) : Bytes :=
  old.take pos ++ data ++ old.drop (pos + data.length)

/-- The system call `write(fd, buf, count)`: the error number or the number of
bytes written, with the system and the descriptor afterwards. -/
def write (sys : DstSys) (fd : Fd) (buf : Bytes) : Except Int Nat × DstSys × Fd :=
  match sys.script with
  | .interrupted :: rest => (.error EINTR, { sys with script := rest }, fd)
  | .fails e :: rest => (.error e, { sys with script := rest }, fd)
  | .transfers limit :: rest =>
    let data := buf.take (min limit OriPriv.MAX_RW_COUNT)
    let new := put ((sys.files fd.path).getD []) fd.pos data
    (.ok data.length,
      { sys with
        files := Function.update sys.files fd.path (some new)
        script := rest },
      { fd with pos := fd.pos + data.length })
  | [] =>
    let data := buf.take OriPriv.MAX_RW_COUNT
    let new := put ((sys.files fd.path).getD []) fd.pos data
    (.ok data.length,
      { sys with
        files := Function.update sys.files fd.path (some new) },
      { fd with pos := fd.pos + data.length })

/-- The system call `unlink(path)`. -/
def unlink (sys : DstSys) (path : String) : DstSys :=
  { sys with files := Function.update sys.files path none }

end DstSys

namespace bytestream

/-- The part of `copyToFd` from the label `retryWrite` to the test of
`bytesWritten`; `rounds` counts the calls of `write`, of which `script.length + 1`
are enough. -/
def retryWrite (buf : Bytes) : Nat → DstSys → Fd → Except Int Nat × DstSys × Fd
  | 0, sys, fd => (.error EINTR, sys, fd)
  | rounds + 1, sys, fd =>
    match sys.write fd buf with
    | (.error e, sys1, fd1) =>
      if e = EINTR then retryWrite buf rounds sys1 fd1 else (.error e, sys1, fd1)
    | (.ok n, sys1, fd1) => (.ok n, sys1, fd1)

/-- The loop of `copyToFd` with `totalWritten` as an argument; `rounds` bounds the
number of its iterations, and `none` says that the bound was reached. -/
def copyLoop {σ : Type} (bs : bytestream σ) :
    Nat → σ → DstSys → Fd → Nat → Option (Int × σ × DstSys × Fd)
  | 0, _, _, _, _ => none
  | rounds + 1, s, sys, dstFd, totalWritten =>
    if bs.ended s then some (toInt32 totalWritten, s, sys, dstFd)
    else
      let r := bs.read s COPYFILE_BUFSZ
      if bs.error r.2 then some (-(bs.errnum r.2), r.2, sys, dstFd)
      else
        match retryWrite r.1 (sys.script.length + 1) sys dstFd with
        | (.error e, sys1, fd1) => some (-e, r.2, sys1, fd1)
        | (.ok bytesWritten, sys1, fd1) =>
          copyLoop bs rounds r.2 sys1 fd1 ((totalWritten + bytesWritten) % 2 ^ 64)

/-- The method `bytestream::copyToFd`. -/
def copyToFd {σ : Type} (bs : bytestream σ) (rounds : Nat) (s : σ) (sys : DstSys)
    (dstFd : Fd) : Option (Int × σ × DstSys × Fd) :=
  copyLoop bs rounds s sys dstFd 0

/-- The method `bytestream::copyToFile`: the value returned, the stream and the
system afterwards. -/
def copyToFile {σ : Type} (bs : bytestream σ) (rounds : Nat) (s : σ) (sys : DstSys)
    (path : String) : Option (Int × σ × DstSys) :=
  match sys.openCreate path with
  | .error e => some (-e, s, sys)
  | .ok (sys1, dstFd) =>
    match copyToFd bs rounds s sys1 dstFd with
    | none => none
    | some (rval, s1, sys2, _) =>
      if rval < 0 then some (rval, s1, sys2.unlink path)
      else some (rval, s1, sys2)

end bytestream

/-- A stream that delivers `left` zero bytes and reports no error, as a descriptor
on a file of zero bytes does. -/
def zeroStream : bytestream Nat :=
  { read := fun left n => (List.replicate (min n left) 0, left - min n left)
    ended := fun left => left == 0
    sizeHint := fun _ => 0
    error := fun _ => false
    errnum := fun _ => 0 }

/-- The five bytes of `hello`. -/
def helloBytes : Bytes := [104, 101, 108, 108, 111]

/-- A descriptor on a file that holds `hello`. -/
def helloFd : SrcFd := ⟨helloBytes, 0, true, []⟩

/-- A descriptor on a file that holds `hello`, whose first `read` is cut short
after three bytes. -/
def helloShortFd : SrcFd := ⟨helloBytes, 0, true, [.transfers 3]⟩

/-- A file system without files in which every `write` is complete. -/
def emptyDst : DstSys := ⟨fun _ => none, fun _ => none, []⟩

/-- A file system without files whose first `write` is cut short after three
bytes. -/
def shortWriteDst : DstSys := ⟨fun _ => none, fun _ => none, [.transfers 3]⟩

/-! ## Lemmas: integers and streams -/

theorem encodeLE_length (k n : Nat) : (encodeLE k n).length = k := by
  induction k generalizing n with
  | zero => rfl
  | succ k ih => simp [encodeLE, ih]

theorem decodeLE_encodeLE (k n : Nat) : decodeLE (encodeLE k n) = n % 256 ^ k := by
  induction k generalizing n with
  | zero => simp [encodeLE, decodeLE, Nat.mod_one]
  | succ k ih =>
    simp only [encodeLE, decodeLE, byteOfNat, ih]
    rw [pow_succ, mul_comm (256 ^ k) 256, Nat.mod_mul]

theorem decodeLE_lt (bs : Bytes) : decodeLE bs < 256 ^ bs.length := by
  induction bs with
  | nil => simp [decodeLE]
  | cons b bs ih =>
    simp only [decodeLE, List.length_cons, pow_succ]
    have := b.isLt
    omega

theorem TimeT.toU64_lt (t : TimeT) : t.toU64 < 2 ^ 64 := by
  have h1 := t.lo
  have h2 := t.hi
  unfold TimeT.toU64
  omega

theorem TimeT.ofU64_toU64 (t : TimeT) : TimeT.ofU64 t.toU64 = t := by
  have h1 := t.lo
  have h2 := t.hi
  have h3 := t.toU64_lt
  obtain ⟨v, lo, hi⟩ := t
  unfold TimeT.ofU64
  simp only [TimeT.toU64] at h3 ⊢
  split
  · congr 1
    omega
  · congr 1
    omega

theorem ObjectHash.ext_bytes {a b : ObjectHash} (h : a.bytes = b.bytes) : a = b := by
  cases a; cases b; simp_all

theorem all_zero_eq_replicate (l : Bytes) (h : l.all (fun b => b == 0) = true) :
    l = List.replicate l.length 0 := by
  induction l with
  | nil => rfl
  | cons b l ih =>
    simp only [List.all_cons, Bool.and_eq_true, beq_iff_eq] at h
    simp only [List.length_cons, List.replicate_succ, List.cons.injEq]
    exact ⟨h.1, ih h.2⟩

theorem ObjectHash.eq_empty_of_isEmpty (h : ObjectHash) (he : h.isEmpty = true) :
    h = ObjectHash.empty := by
  apply ObjectHash.ext_bytes
  have := all_zero_eq_replicate h.bytes he
  rw [h.size_eq] at this
  exact this

theorem strstream.readBytes_append (a rest : Bytes) :
    readBytes ⟨a ++ rest⟩ a.length = .ok (a, ⟨rest⟩) := by
  simp [readBytes]

theorem strstream.readBytes_short (p : Bytes) (n : Nat) (h : p.length < n) :
    readBytes ⟨p⟩ n = .error .Malformed := by
  simp [readBytes, h]

theorem strstream.readHash_append (h : ObjectHash) (rest : Bytes) :
    readHash ⟨h.bytes ++ rest⟩ = .ok (h, ⟨rest⟩) := by
  have hs := h.size_eq
  unfold readHash
  rw [dif_neg (by simp; omega)]
  congr 2
  · apply ObjectHash.ext_bytes
    simp [← hs]
  · simp [← hs]

theorem strstream.readHash_short (p : Bytes) (h : p.length < 32) :
    readHash ⟨p⟩ = .error .Malformed := by
  simp [readHash, h]

theorem strstream.readUInt8_append (v : Nat) (rest : Bytes) :
    readUInt8 ⟨encodeLE 1 v ++ rest⟩ = .ok (v % 256, ⟨rest⟩) := by
  have := strstream.readBytes_append (encodeLE 1 v) rest
  rw [encodeLE_length] at this
  simp [readUInt8, this, decodeLE_encodeLE]

theorem strstream.readUInt8_short (p : Bytes) (h : p.length < 1) :
    readUInt8 ⟨p⟩ = .error .Malformed := by
  simp [readUInt8, strstream.readBytes_short p 1 h]

theorem strstream.readInt64_append (t : TimeT) (rest : Bytes) :
    readInt64 ⟨encodeLE 8 t.toU64 ++ rest⟩ = .ok (t, ⟨rest⟩) := by
  have := strstream.readBytes_append (encodeLE 8 t.toU64) rest
  rw [encodeLE_length] at this
  have h64 : t.toU64 % 256 ^ 8 = t.toU64 := Nat.mod_eq_of_lt (by have := t.toU64_lt; omega)
  simp only [readInt64, this, decodeLE_encodeLE, h64, TimeT.ofU64_toU64]

theorem strstream.readInt64_short (p : Bytes) (h : p.length < 8) :
    readInt64 ⟨p⟩ = .error .Malformed := by
  simp [readInt64, strstream.readBytes_short p 8 h]

theorem strstream.readPStr_append (s rest : Bytes) (hs : s.length < 2 ^ 32) :
    readPStr ⟨pstrBytes s ++ rest⟩ = .ok (s, ⟨rest⟩) := by
  have h1 := strstream.readBytes_append (encodeLE 4 (s.length % 2 ^ 32)) (s ++ rest)
  rw [encodeLE_length] at h1
  have h2 : s.length % 2 ^ 32 % 256 ^ 4 = s.length := by
    rw [Nat.mod_eq_of_lt hs]; exact Nat.mod_eq_of_lt (by omega)
  simp only [readPStr, pstrBytes, List.append_assoc, h1, decodeLE_encodeLE, h2]
  exact strstream.readBytes_append s rest

/-! ## Lemmas: the commit codec -/

theorem Commit.parentCount_eq_two (c : Commit) :
    c.parentCount = 2 ↔ c.parents.2.isEmpty = false := by
  unfold Commit.parentCount
  cases c.parents.2.isEmpty <;> simp

theorem Commit.parentCount_eq_one (c : Commit) :
    c.parentCount = 1 ↔ c.parents.2.isEmpty = true := by
  unfold Commit.parentCount
  cases c.parents.2.isEmpty <;> simp

/-- What `getBlob` returns, in both builds. -/
theorem Commit.getBlob_cases (DEBUG : Bool) (c : Commit) :
    c.getBlob DEBUG =
      if DEBUG && !graftAssert c.graftRepo c.graftPath c.graftCommitId then
        .error .AssertionFailed
      else .ok c.canonicalBytes := by
  unfold Commit.getBlob Commit.canonicalBytes Commit.parentCount
  cases hp : c.parents.2.isEmpty <;>
    simp [strwstream.writeHash, strwstream.writeUInt8, strwstream.writePStr,
      strwstream.writeInt64, strwstream.str, pstrBytes, encodeLE, List.append_assoc]

/-- Decoding canonical bytes, whatever follows them. -/
theorem Commit.fromBlob_canonical (DEBUG : Bool) (self c : Commit) (rest : Bytes)
    (hfit : c.stringsFit) :
    Commit.fromBlob DEBUG self (c.canonicalBytes ++ rest) =
      if DEBUG && !graftAssert c.graftRepo c.graftPath c.graftCommitId then
        .error .AssertionFailed
      else .ok (self.decodedInto c) := by
  obtain ⟨hu, hs, hr, hp, hm⟩ := hfit
  have e1 : ∀ n : Nat, [byteOfNat n] = encodeLE 1 n := fun _ => rfl
  have hm' := strstream.readPStr_append c.message rest hm
  unfold Commit.fromBlob Commit.canonicalBytes Commit.parentCount Commit.decodedInto
  cases hp2 : c.parents.2.isEmpty <;>
    simp only [Bool.false_eq_true, ↓reduceIte, e1, List.append_assoc, List.nil_append,
      strstream.readHash_append, strstream.readUInt8_append, Commit.readParents,
      strstream.readPStr_append _ _ hu, strstream.readPStr_append _ _ hs,
      strstream.readPStr_append _ _ hr, strstream.readPStr_append _ _ hp,
      strstream.readInt64_append, bind, Except.bind, Nat.reduceMod, Nat.reduceEqDiff,
      Nat.succ_ne_self, hm'] <;>
    cases DEBUG <;> cases graftAssert c.graftRepo c.graftPath c.graftCommitId <;>
    simp [throw, throwThe, MonadExceptOf.throw, pure, Except.pure, bind, Except.bind, hm']

/-! ## Lemmas: decoding a truncated blob -/

theorem initial_append_cases (p a b : Bytes) (hp : p <+: a ++ b)
    (hlt : p.length < (a ++ b).length) :
    (p <+: a ∧ p.length < a.length) ∨
      ∃ q, p = a ++ q ∧ q <+: b ∧ q.length < b.length := by
  rcases List.prefix_or_prefix_of_prefix hp (List.prefix_append a b) with h | h
  · by_cases hl : p.length < a.length
    · exact Or.inl ⟨h, hl⟩
    · have hpa : p = a := h.eq_of_length_le (by omega)
      subst hpa
      refine Or.inr ⟨[], by simp, List.nil_prefix, ?_⟩
      simp only [List.length_append] at hlt
      simp only [List.length_nil]
      omega
  · obtain ⟨q, rfl⟩ := h
    refine Or.inr ⟨q, rfl, (List.prefix_append_right_inj a).1 hp, ?_⟩
    simp only [List.length_append] at hlt
    omega

theorem strstream.readPStr_short (s q : Bytes) (hs : s.length < 2 ^ 32) (hq : q <+: pstrBytes s)
    (hlt : q.length < (pstrBytes s).length) : readPStr ⟨q⟩ = .error .Malformed := by
  unfold pstrBytes at hq hlt
  rcases initial_append_cases q _ _ hq hlt with ⟨_, h⟩ | ⟨r, rfl, _, hr⟩
  · rw [encodeLE_length] at h
    simp [readPStr, strstream.readBytes_short q 4 h]
  · have h1 := strstream.readBytes_append (encodeLE 4 (s.length % 2 ^ 32)) r
    rw [encodeLE_length] at h1
    have h2 : s.length % 2 ^ 32 % 256 ^ 4 = s.length := by
      rw [Nat.mod_eq_of_lt hs]; exact Nat.mod_eq_of_lt (by omega)
    simp only [readPStr, h1, decodeLE_encodeLE, h2]
    exact strstream.readBytes_short r _ hr

theorem strstream.readHash_cut (h : ObjectHash) (q : Bytes)
    (hlt : q.length < h.bytes.length) : readHash ⟨q⟩ = .error .Malformed :=
  strstream.readHash_short q (by rw [h.size_eq] at hlt; exact hlt)

theorem Commit.canonicalBytes_nested (c : Commit) :
    c.canonicalBytes =
      c.treeObjId.bytes ++ (encodeLE 1 c.parentCount ++ (c.parentBytes ++
        (pstrBytes c.user ++ (encodeLE 8 c.date.toU64 ++ (pstrBytes c.snapshotName ++
          (pstrBytes c.graftRepo ++ (pstrBytes c.graftPath ++ (c.graftCommitId.bytes ++
            pstrBytes c.message)))))))) := by
  simp [Commit.canonicalBytes, Commit.parentBytes, encodeLE, List.append_assoc]

theorem Commit.readParents_append (self c : Commit) (rest : Bytes) :
    self.readParents (c.parentCount % 256) ⟨c.parentBytes ++ rest⟩ =
      .ok ((self.decodedInto c).parents, ⟨rest⟩) := by
  unfold Commit.readParents Commit.parentBytes Commit.parentCount Commit.decodedInto
  cases c.parents.2.isEmpty <;>
    simp [strstream.readHash_append, List.append_assoc]

theorem Commit.readParents_short (self c : Commit) (q : Bytes) (hq : q <+: c.parentBytes)
    (hlt : q.length < c.parentBytes.length) :
    self.readParents (c.parentCount % 256) ⟨q⟩ = .error .Malformed := by
  unfold Commit.parentBytes at hq hlt
  unfold Commit.readParents
  rcases initial_append_cases q _ _ hq hlt with ⟨_, h⟩ | ⟨r, rfl, _, hr⟩
  · rw [strstream.readHash_cut _ q h]
    split <;> rfl
  · unfold Commit.parentCount at hr ⊢
    cases hE : c.parents.2.isEmpty
    · simp only [hE, Bool.false_eq_true, ↓reduceIte] at hr
      simp [strstream.readHash_append, strstream.readHash_cut _ r hr]
    · simp [hE] at hr

theorem Commit.bytesBeforeMessage_length (c : Commit) :
    c.bytesBeforeMessage.length =
      32 + 1 + c.parentBytes.length + (pstrBytes c.user).length + 8 +
        (pstrBytes c.snapshotName).length + (pstrBytes c.graftRepo).length +
        (pstrBytes c.graftPath).length + 32 := by
  simp only [Commit.bytesBeforeMessage, List.length_append, ObjectHash.size_eq,
    encodeLE_length, List.length_singleton]

/-- Decoding a proper prefix of the canonical bytes: a prefix that ends before the
message fails in a reader; a longer one reaches the assertions under DEBUG and
then fails in the reader of the message. -/
theorem Commit.fromBlob_cut (DEBUG : Bool) (self c : Commit) (p : Bytes)
    (hfit : c.stringsFit)
    (hp : p <+: c.canonicalBytes) (hlt : p.length < c.canonicalBytes.length) :
    (p.length < c.bytesBeforeMessage.length ∧
        Commit.fromBlob DEBUG self p = .error .Malformed) ∨
      (c.bytesBeforeMessage.length ≤ p.length ∧
        Commit.fromBlob DEBUG self p =
          if DEBUG && !graftAssert c.graftRepo c.graftPath c.graftCommitId then
            .error .AssertionFailed
          else .error .Malformed) := by
  obtain ⟨hu, hs, hr, hgp, hm⟩ := hfit
  have hL := c.bytesBeforeMessage_length
  have h32 := c.treeObjId.size_eq
  have h32g := c.graftCommitId.size_eq
  rw [Commit.canonicalBytes_nested] at hp hlt
  unfold Commit.fromBlob
  rcases initial_append_cases p _ _ hp hlt with ⟨_, h⟩ | ⟨q, rfl, hp, hlt⟩
  · exact Or.inl ⟨by omega, by simp [strstream.readHash_cut _ p h, bind, Except.bind]⟩
  simp only [strstream.readHash_append, bind, Except.bind]
  rcases initial_append_cases q _ _ hp hlt with ⟨_, h⟩ | ⟨q, rfl, hp, hlt⟩
  · rw [encodeLE_length] at h
    exact Or.inl ⟨by simp only [List.length_append]; omega,
      by simp [strstream.readUInt8_short q h]⟩
  simp only [strstream.readUInt8_append]
  rcases initial_append_cases q _ _ hp hlt with ⟨hq, h⟩ | ⟨q, rfl, hp, hlt⟩
  · exact Or.inl ⟨by simp only [List.length_append, encodeLE_length]; omega,
      by simp [Commit.readParents_short self c q hq h]⟩
  simp only [Commit.readParents_append]
  rcases initial_append_cases q _ _ hp hlt with ⟨hq, h⟩ | ⟨q, rfl, hp, hlt⟩
  · exact Or.inl ⟨by simp only [List.length_append, encodeLE_length]; omega,
      by simp [strstream.readPStr_short _ q hu hq h]⟩
  simp only [strstream.readPStr_append _ _ hu]
  rcases initial_append_cases q _ _ hp hlt with ⟨_, h⟩ | ⟨q, rfl, hp, hlt⟩
  · rw [encodeLE_length] at h
    exact Or.inl ⟨by simp only [List.length_append, encodeLE_length]; omega,
      by simp [strstream.readInt64_short q h]⟩
  simp only [strstream.readInt64_append]
  rcases initial_append_cases q _ _ hp hlt with ⟨hq, h⟩ | ⟨q, rfl, hp, hlt⟩
  · exact Or.inl ⟨by simp only [List.length_append, encodeLE_length]; omega,
      by simp [strstream.readPStr_short _ q hs hq h]⟩
  simp only [strstream.readPStr_append _ _ hs]
  rcases initial_append_cases q _ _ hp hlt with ⟨hq, h⟩ | ⟨q, rfl, hp, hlt⟩
  · exact Or.inl ⟨by simp only [List.length_append, encodeLE_length]; omega,
      by simp [strstream.readPStr_short _ q hr hq h]⟩
  simp only [strstream.readPStr_append _ _ hr]
  rcases initial_append_cases q _ _ hp hlt with ⟨hq, h⟩ | ⟨q, rfl, hp, hlt⟩
  · exact Or.inl ⟨by simp only [List.length_append, encodeLE_length]; omega,
      by simp [strstream.readPStr_short _ q hgp hq h]⟩
  simp only [strstream.readPStr_append _ _ hgp]
  rcases initial_append_cases q _ _ hp hlt with ⟨_, h⟩ | ⟨q, rfl, hp, hlt⟩
  · exact Or.inl ⟨by simp only [List.length_append, encodeLE_length]; omega,
      by simp [strstream.readHash_cut _ q h]⟩
  refine Or.inr ⟨by simp only [List.length_append, encodeLE_length]; omega, ?_⟩
  simp only [strstream.readHash_append]
  cases DEBUG <;> cases graftAssert c.graftRepo c.graftPath c.graftCommitId <;>
    simp [strstream.readPStr_short _ q hm hp hlt, pure, Except.pure, throw, throwThe,
      MonadExceptOf.throw, bind, Except.bind]

/-! ## The commit codec: round trip, layout, graft check, truncation -/

theorem Commit.decodedInto_new (junk : TimeT) (c : Commit) :
    (Commit.new junk).decodedInto c = c := by
  unfold Commit.decodedInto
  cases h : c.parents.2.isEmpty
  · simp
  · have := c.parents.2.eq_empty_of_isEmpty h
    simp [Commit.new, ← this]

theorem Commit.canonicalBytes_withZeroUser (n : Nat) (h : n % 2 ^ 32 = 0) :
    (Commit.withZeroUser n).canonicalBytes =
      (Commit.new TimeT.zero).canonicalBytes ++ List.replicate n 0 := by
  have hz : encodeLE 8 TimeT.zero.toU64 = List.replicate 8 0 := by decide
  have h4 : encodeLE 4 0 = List.replicate 4 0 := by decide
  have hp : ∀ n m : Nat, List.replicate n (0 : Byte) ++ List.replicate m 0 =
      List.replicate m 0 ++ List.replicate n 0 := by
    intro n m
    rw [← List.replicate_add, ← List.replicate_add, Nat.add_comm]
  have hp' : ∀ (n m : Nat) (l : Bytes), List.replicate n (0 : Byte) ++ (List.replicate m 0 ++ l) =
      List.replicate m 0 ++ (List.replicate n 0 ++ l) := by
    intro n m l
    rw [← List.append_assoc, hp, List.append_assoc]
  simp only [Commit.canonicalBytes, Commit.withZeroUser, Commit.new, pstrBytes,
    List.length_replicate, h, List.length_nil, Nat.zero_mod, List.append_nil, hz, h4,
    ObjectHash.empty, List.append_assoc]
  congr 4
  simp only [hp' n, hp n]

/-- C1, counterexample. The commit whose user name is `2 ^ 32` zero bytes long and
whose other fields are empty is encoded by `getBlob`, and decoding these bytes
into a freshly constructed commit succeeds with the empty commit, not with the
commit that was encoded: the length prefix holds 0. -/
theorem Commit.roundtrip_long_user_counterexample :
    (Commit.withZeroUser (2 ^ 32)).getBlob false =
        .ok ((Commit.new TimeT.zero).canonicalBytes ++ List.replicate (2 ^ 32) 0) ∧
      Commit.fromBlob false (Commit.new TimeT.zero)
          ((Commit.new TimeT.zero).canonicalBytes ++ List.replicate (2 ^ 32) 0) =
        .ok (Commit.new TimeT.zero) ∧
      Commit.new TimeT.zero ≠ Commit.withZeroUser (2 ^ 32) := by
  refine ⟨?_, ?_, ?_⟩
  · rw [Commit.getBlob_cases, Commit.canonicalBytes_withZeroUser _ (Nat.mod_self _)]
    simp only [Bool.false_and, Bool.false_eq_true, if_false]
  · rw [Commit.fromBlob_canonical false _ _ _ (by decide), Commit.decodedInto_new]
    simp only [Bool.false_and, Bool.false_eq_true, if_false]
  · intro h
    have h2 : ([] : Bytes).length = (List.replicate (2 ^ 32) (0 : Byte)).length :=
      congrArg (fun c => c.user.length) h
    rw [List.length_replicate, List.length_nil] at h2
    exact absurd h2 (by norm_num)

/-- C1, amended. For every commit whose five strings are each shorter than
`2 ^ 32` bytes (and which, in a DEBUG build, passes the graft assertion),
`getBlob` returns bytes, and `fromBlob` on these bytes in a freshly constructed
commit succeeds and leaves exactly that commit. -/
theorem Commit.fromBlob_getBlob (DEBUG : Bool) (c : Commit) (junk : TimeT)
    (hfit : c.stringsFit)
    (hassert : DEBUG = true → graftAssert c.graftRepo c.graftPath c.graftCommitId = true) :
    ∃ blob, c.getBlob DEBUG = .ok blob ∧
      Commit.fromBlob DEBUG (Commit.new junk) blob = .ok c := by
  have hA : (DEBUG && !graftAssert c.graftRepo c.graftPath c.graftCommitId) = false := by
    cases DEBUG
    · rfl
    · simp [hassert rfl]
  refine ⟨c.canonicalBytes, ?_, ?_⟩
  · rw [Commit.getBlob_cases, hA]; rfl
  · have := Commit.fromBlob_canonical DEBUG (Commit.new junk) c [] hfit
    rw [List.append_nil, hA, Commit.decodedInto_new] at this
    exact this

set_option maxRecDepth 100000 in
/-- C1, witness: the round trip of a merge commit with a graft, in a DEBUG build. -/
theorem Commit.fromBlob_getBlob_witness :
    sampleGraftCommit.stringsFit ∧
      ∃ blob, sampleGraftCommit.getBlob true = .ok blob ∧
        Commit.fromBlob true (Commit.new TimeT.zero) blob = .ok sampleGraftCommit :=
  ⟨by decide, Commit.fromBlob_getBlob true sampleGraftCommit TimeT.zero (by decide) (by decide)⟩

set_option maxRecDepth 100000 in
/-- C2, counterexample. In a DEBUG build `getBlob` emits nothing for the commit
with the graft repo `r`, an empty graft path and a graft commit hash: the
assertion of lines 164-169 fails. Without DEBUG the same commit is encoded. -/
theorem Commit.getBlob_debug_counterexample :
    noPathGraftCommit.graftRepo ≠ [] ∧ noPathGraftCommit.graftPath = [] ∧
      noPathGraftCommit.graftCommitId.isEmpty = false ∧
      noPathGraftCommit.getBlob true = .error .AssertionFailed ∧
      noPathGraftCommit.getBlob false = .ok noPathGraftCommit.canonicalBytes := by
  decide

/-- C2, amended. In a build without DEBUG for every commit, and in a DEBUG build
for every commit that passes the graft assertion of lines 164-169, `getBlob`
returns exactly the canonical bytes that the specification lists, in that order
and with nothing else: tree hash, parent count byte, `parent1`, `parent2` exactly
when the count is 2, user, timestamp, snapshot name, graft repo, graft path,
graft commit hash, message. In a DEBUG build it stops on the failed assertion
for every other commit and returns nothing. The count byte stands at offset 32
of the canonical bytes; it is 2 exactly when `parent2` is non-empty and 1
otherwise. -/
theorem Commit.getBlob_layout (DEBUG : Bool) (c : Commit) :
    c.getBlob DEBUG =
        (if DEBUG && !graftAssert c.graftRepo c.graftPath c.graftCommitId then
          .error .AssertionFailed
        else
          .ok (c.treeObjId.bytes ++ [byteOfNat c.parentCount] ++ c.parents.1.bytes ++
            (if c.parentCount = 2 then c.parents.2.bytes else []) ++
            pstrBytes c.user ++ encodeLE 8 c.date.toU64 ++ pstrBytes c.snapshotName ++
            pstrBytes c.graftRepo ++ pstrBytes c.graftPath ++ c.graftCommitId.bytes ++
            pstrBytes c.message)) ∧
      c.canonicalBytes[32]? = some (byteOfNat c.parentCount) ∧
      (c.parentCount = 2 ↔ c.parents.2.isEmpty = false) ∧
      (c.parentCount = 1 ↔ c.parents.2.isEmpty = true) := by
  refine ⟨?_, ?_, c.parentCount_eq_two, c.parentCount_eq_one⟩
  · rw [Commit.getBlob_cases]; rfl
  · rw [Commit.canonicalBytes_nested, List.getElem?_append_right (by rw [c.treeObjId.size_eq])]
    simp [c.treeObjId.size_eq, encodeLE]

set_option maxRecDepth 100000 in
/-- C2, witness: the layout of a merge commit with a graft, in a DEBUG build. -/
theorem Commit.getBlob_layout_witness :
    sampleGraftCommit.getBlob true =
        .ok ((ObjectHash.fill 7).bytes ++ [2] ++ (ObjectHash.fill 1).bytes ++
          (ObjectHash.fill 2).bytes ++ [2, 0, 0, 0, 97, 108] ++
          [251, 255, 255, 255, 255, 255, 255, 255] ++ [1, 0, 0, 0, 115] ++
          [1, 0, 0, 0, 114] ++ [1, 0, 0, 0, 112] ++ (ObjectHash.fill 3).bytes ++
          [3, 0, 0, 0, 109, 115, 103]) ∧
      sampleGraftCommit.canonicalBytes[32]? = some 2 :=
  ⟨(Commit.getBlob_layout true sampleGraftCommit).1,
    (Commit.getBlob_layout true sampleGraftCommit).2.1⟩

set_option maxRecDepth 100000 in
/-- C3, counterexample. A commit with an empty graft repo, the graft path `x` and
a non-empty graft commit hash is encoded by `getBlob` and decoded by `fromBlob`
without any refusal, in the DEBUG build and in the other. -/
theorem Commit.graft_check_counterexample :
    pathOnlyGraftCommit.graftRepo = [] ∧ pathOnlyGraftCommit.graftPath ≠ [] ∧
      pathOnlyGraftCommit.graftCommitId.isEmpty = false ∧
      ∀ DEBUG : Bool,
        pathOnlyGraftCommit.getBlob DEBUG = .ok pathOnlyGraftCommit.canonicalBytes ∧
          Commit.fromBlob DEBUG (Commit.new TimeT.zero) pathOnlyGraftCommit.canonicalBytes =
            .ok pathOnlyGraftCommit := by
  decide

/-- C3, amended. The graft check of the codec is the pair of assertions compiled
under DEBUG. In a DEBUG build, for every commit whose graft repo is non-empty
while its graft path or its graft commit hash is empty, `getBlob` stops on a
failed assertion instead of encoding, and `fromBlob` stops on a failed assertion
(not Malformed) on the bytes that describe such a commit. A commit whose graft
repo is empty is encoded and decoded in every build, whatever its graft path and
graft commit hash are; without DEBUG every commit is. -/
theorem Commit.graft_assertion (c : Commit) (self : Commit) (hfit : c.stringsFit) :
    (c.graftRepo ≠ [] → (c.graftPath = [] ∨ c.graftCommitId.isEmpty = true) →
        c.getBlob true = .error .AssertionFailed ∧
          Commit.fromBlob true self c.canonicalBytes = .error .AssertionFailed) ∧
      (c.graftRepo = [] → ∀ DEBUG : Bool,
        c.getBlob DEBUG = .ok c.canonicalBytes ∧
          Commit.fromBlob DEBUG self c.canonicalBytes = .ok (self.decodedInto c)) ∧
      (c.getBlob false = .ok c.canonicalBytes ∧
        Commit.fromBlob false self c.canonicalBytes = .ok (self.decodedInto c)) := by
  have hdec := fun D => Commit.fromBlob_canonical D self c [] hfit
  simp only [List.append_nil] at hdec
  refine ⟨?_, ?_, ?_⟩
  · intro hrepo hmissing
    have hA : graftAssert c.graftRepo c.graftPath c.graftCommitId = false := by
      unfold graftAssert
      rcases hmissing with h | h <;> simp [hrepo, h]
    rw [Commit.getBlob_cases, hdec, hA]
    exact ⟨rfl, rfl⟩
  · intro hrepo DEBUG
    have hA : graftAssert c.graftRepo c.graftPath c.graftCommitId = true := by
      simp [graftAssert, hrepo]
    rw [Commit.getBlob_cases, hdec, hA]
    cases DEBUG <;> exact ⟨rfl, rfl⟩
  · rw [Commit.getBlob_cases, hdec]
    exact ⟨rfl, rfl⟩

set_option maxRecDepth 100000 in
/-- C3, witness: a commit with a graft repo and no graft path. -/
theorem Commit.graft_assertion_witness :
    repoOnlyGraftCommit.stringsFit ∧ repoOnlyGraftCommit.graftRepo ≠ [] ∧
      repoOnlyGraftCommit.graftPath = [] ∧
      repoOnlyGraftCommit.getBlob true = .error .AssertionFailed ∧
      Commit.fromBlob true (Commit.new TimeT.zero) repoOnlyGraftCommit.canonicalBytes =
        .error .AssertionFailed ∧
      repoOnlyGraftCommit.getBlob false = .ok repoOnlyGraftCommit.canonicalBytes :=
  have h := Commit.graft_assertion repoOnlyGraftCommit (Commit.new TimeT.zero) (by decide)
  ⟨by decide, by decide, by decide, (h.1 (by decide) (Or.inl (by decide))).1,
    (h.1 (by decide) (Or.inl (by decide))).2, h.2.2.1⟩

theorem Commit.fromBlob_bytesWithCount (DEBUG : Bool) (self c : Commit) (count : Byte)
    (hcount : count ≠ 2) (hfit : c.stringsFit) :
    Commit.fromBlob DEBUG self (c.bytesWithCount count) =
      if DEBUG && !graftAssert c.graftRepo c.graftPath c.graftCommitId then
        .error .AssertionFailed
      else .ok { c with parents := (c.parents.1, self.parents.2) } := by
  obtain ⟨hu, hs, hr, hp, hm⟩ := hfit
  have e1 : [count] = encodeLE 1 count.val := by
    simp [encodeLE, byteOfNat, Nat.mod_eq_of_lt count.isLt]
  have hc : ¬ count.val % 256 = 2 := by
    rw [Nat.mod_eq_of_lt count.isLt]
    intro h
    exact hcount (Fin.ext h)
  have hm' := strstream.readPStr_append c.message [] hm
  rw [List.append_nil] at hm'
  unfold Commit.fromBlob Commit.bytesWithCount
  simp only [e1, List.append_assoc, strstream.readHash_append, strstream.readUInt8_append,
    Commit.readParents, hc, ↓reduceIte, strstream.readPStr_append _ _ hu,
    strstream.readPStr_append _ _ hs, strstream.readPStr_append _ _ hr,
    strstream.readPStr_append _ _ hp, strstream.readInt64_append, bind, Except.bind, hm']
  cases DEBUG <;> cases graftAssert c.graftRepo c.graftPath c.graftCommitId <;>
    simp [throw, throwThe, MonadExceptOf.throw, pure, Except.pure, bind, Except.bind, hm']

set_option maxRecDepth 100000 in
theorem Commit.fromBlob_bytesWithCount_sample :
    (pathOnlyGraftCommit.bytesWithCount 7)[32]? = some 7 ∧
      Commit.fromBlob false (Commit.new TimeT.zero) (pathOnlyGraftCommit.bytesWithCount 7) =
        .ok pathOnlyGraftCommit ∧
      Commit.fromBlob false (Commit.new TimeT.zero) (pathOnlyGraftCommit.bytesWithCount 0) =
        .ok pathOnlyGraftCommit := by
  decide

set_option maxRecDepth 100000 in
theorem Commit.fromBlob_dropLast_sample :
    repoOnlyGraftCommit.canonicalBytes.dropLast.length <
        repoOnlyGraftCommit.canonicalBytes.length ∧
      Commit.fromBlob true (Commit.new TimeT.zero) repoOnlyGraftCommit.canonicalBytes.dropLast =
        .error .AssertionFailed := by
  decide

/-- C4, counterexample. The canonical bytes of a single-parent commit with the
parent count byte replaced by 7 (and by 0) are decoded by `fromBlob` into that
commit; the blob is not rejected. The canonical bytes of the empty commit are a
proper prefix of the canonical bytes of the commit whose user name is `2 ^ 32`
zero bytes long, yet `fromBlob` decodes them. And in a DEBUG build the canonical
bytes of a commit with a graft repo and no graft path, with the last byte cut
off, stop `fromBlob` on the failed assertion, not with Malformed. -/
theorem Commit.fromBlob_count_counterexample :
    ((pathOnlyGraftCommit.bytesWithCount 7)[32]? = some 7 ∧
      Commit.fromBlob false (Commit.new TimeT.zero) (pathOnlyGraftCommit.bytesWithCount 7) =
        .ok pathOnlyGraftCommit ∧
      Commit.fromBlob false (Commit.new TimeT.zero) (pathOnlyGraftCommit.bytesWithCount 0) =
        .ok pathOnlyGraftCommit) ∧
    ((Commit.new TimeT.zero).canonicalBytes <+: (Commit.withZeroUser (2 ^ 32)).canonicalBytes ∧
      (Commit.new TimeT.zero).canonicalBytes.length <
        (Commit.withZeroUser (2 ^ 32)).canonicalBytes.length ∧
      Commit.fromBlob false (Commit.new TimeT.zero) (Commit.new TimeT.zero).canonicalBytes =
        .ok (Commit.new TimeT.zero)) ∧
    (repoOnlyGraftCommit.canonicalBytes.dropLast.length <
        repoOnlyGraftCommit.canonicalBytes.length ∧
      Commit.fromBlob true (Commit.new TimeT.zero) repoOnlyGraftCommit.canonicalBytes.dropLast =
        .error .AssertionFailed) := by
  refine ⟨Commit.fromBlob_bytesWithCount_sample, ⟨?_, ?_, ?_⟩, Commit.fromBlob_dropLast_sample⟩
  · rw [Commit.canonicalBytes_withZeroUser _ (Nat.mod_self _)]
    exact List.prefix_append _ _
  · rw [Commit.canonicalBytes_withZeroUser _ (Nat.mod_self _), List.length_append,
      List.length_replicate]
    exact Nat.lt_add_of_pos_right (by norm_num)
  · have h := Commit.fromBlob_canonical false (Commit.new TimeT.zero) (Commit.new TimeT.zero) []
      (by decide)
    rw [List.append_nil, Commit.decodedInto_new] at h
    rw [h]
    simp only [Bool.false_and, Bool.false_eq_true, if_false]

/-- C4, amended. For a commit whose strings are each shorter than `2 ^ 32` bytes,
`fromBlob` yields no commit on any proper prefix of the canonical bytes: it fails
with Malformed, except that in a DEBUG build, when the graft fields of the commit
fail the assertion of lines 203-208 and the prefix holds everything before the
message, it stops on that failed assertion instead. The parent count byte is not
validated: every value other than 2 is read as a single parent, so the canonical
bytes of a single-parent commit with any count byte other than 2 are decoded,
with `parents.second` left as it was (in a DEBUG build: when the graft fields
pass the assertion, on which it stops otherwise). -/
theorem Commit.fromBlob_truncated (DEBUG : Bool) (self c : Commit) (hfit : c.stringsFit) :
    (∀ p : Bytes, p <+: c.canonicalBytes → p.length < c.canonicalBytes.length →
        Commit.fromBlob DEBUG self p =
          if (DEBUG && !graftAssert c.graftRepo c.graftPath c.graftCommitId) &&
              decide (c.bytesBeforeMessage.length ≤ p.length) then
            .error .AssertionFailed
          else .error .Malformed) ∧
      (∀ count : Byte, count ≠ 2 →
        Commit.fromBlob DEBUG self (c.bytesWithCount count) =
          if DEBUG && !graftAssert c.graftRepo c.graftPath c.graftCommitId then
            .error .AssertionFailed
          else .ok { c with parents := (c.parents.1, self.parents.2) }) := by
  refine ⟨?_, ?_⟩
  · intro p hp hlt
    rcases Commit.fromBlob_cut DEBUG self c p hfit hp hlt with ⟨hl, h⟩ | ⟨hl, h⟩
    · have hd : decide (c.bytesBeforeMessage.length ≤ p.length) = false :=
        decide_eq_false (by omega)
      rw [h, hd, Bool.and_false]
      rfl
    · have hd : decide (c.bytesBeforeMessage.length ≤ p.length) = true := decide_eq_true hl
      rw [h, hd, Bool.and_true]
  · intro count hcount
    exact Commit.fromBlob_bytesWithCount DEBUG self c count hcount hfit

set_option maxRecDepth 100000 in
/-- C4, witness: in a DEBUG build, the canonical bytes of a merge commit that
passes the graft assertion cut after 100 bytes, and those of a commit that fails
it cut after 80 bytes (before the message) and with the last byte cut off (inside
the message). -/
theorem Commit.fromBlob_truncated_witness :
    sampleGraftCommit.stringsFit ∧ repoOnlyGraftCommit.stringsFit ∧
      Commit.fromBlob true (Commit.new TimeT.zero) (sampleGraftCommit.canonicalBytes.take 100) =
        .error .Malformed ∧
      Commit.fromBlob true (Commit.new TimeT.zero) (repoOnlyGraftCommit.canonicalBytes.take 80) =
        .error .Malformed ∧
      Commit.fromBlob true (Commit.new TimeT.zero) repoOnlyGraftCommit.canonicalBytes.dropLast =
        .error .AssertionFailed :=
  ⟨by decide, by decide,
    (Commit.fromBlob_truncated true (Commit.new TimeT.zero) sampleGraftCommit (by decide)).1
      (sampleGraftCommit.canonicalBytes.take 100) (List.take_prefix _ _) (by decide),
    (Commit.fromBlob_truncated true (Commit.new TimeT.zero) repoOnlyGraftCommit (by decide)).1
      (repoOnlyGraftCommit.canonicalBytes.take 80) (List.take_prefix _ _) (by decide),
    (Commit.fromBlob_truncated true (Commit.new TimeT.zero) repoOnlyGraftCommit (by decide)).1
      repoOnlyGraftCommit.canonicalBytes.dropLast (List.dropLast_prefix _) (by decide)⟩

/-! ## Object files -/

theorem toInt32_of_lt (n : Nat) (h : n < 2 ^ 31) : toInt32 n = (n : Int) := by
  unfold toInt32
  have h1 : n % 2 ^ 32 = n := Nat.mod_eq_of_lt (by omega)
  rw [h1, if_pos h]

theorem toSizeT_natCast (n : Nat) (h : n < 2 ^ 64) : toSizeT (n : Int) = n := by
  unfold toSizeT
  omega

/-- What `create` does when its `open` fails. -/
theorem Object.create_open_fails (self : Object) (s : Sys) (path : String)
    (type : ObjectType) (e : Int) (hopen : s.createErrno path = some e) :
    self.create s path type = .ok (-e, { self with fd := none }, { s with errno := e }) := by
  simp [Object.create, Sys.openCreate, hopen]

/-- What `open` does on a file that begins with the tag of a type it knows. -/
theorem Object.open_tagged (self : Object) (s : Sys) (path : String) (type : ObjectType)
    (rest : Bytes) (hfile : s.files path = some (type.tag ++ rest))
    (htype : type = .Commit ∨ type = .Tree ∨ type = .Blob) :
    self.open s path = .ok (0, ⟨some ⟨path, 4, false⟩, type⟩, s) := by
  have hm : min 4 OriPriv.MAX_RW_COUNT = 4 := by decide
  rcases htype with h | h | h <;> subst h <;>
    simp [Object.open, hfile, Sys.read, hm, ObjectType.tag, tagCMMT, tagTREE, tagBLOB]

/-- C5, the code at the failing inputs. `create` has no case for LargeBlob and for
Purged: once its `open` has succeeded it fails its assertion and writes no tag
(when the `open` fails it returns `-errno`, as for every type). `open` on a file
that begins with `LGBL` or with `PURG` fails its assertion as well, whatever
follows the tag. For Commit, Tree and Blob, `open` on a file that begins with the
tag returns 0 and sets the type. -/
theorem Object.create_open_five_types (self : Object) (s : Sys) (path : String)
    (rest : Bytes) :
    self.create s path .LargeBlob =
        (match s.createErrno path with
          | some e => .ok (-e, { self with fd := none }, { s with errno := e })
          | none => .error .AssertionFailed) ∧
      self.create s path .Purged =
        (match s.createErrno path with
          | some e => .ok (-e, { self with fd := none }, { s with errno := e })
          | none => .error .AssertionFailed) ∧
      self.open { s with files := Function.update s.files path (some (tagLGBL ++ rest)) } path =
        .error .AssertionFailed ∧
      self.open { s with files := Function.update s.files path (some (tagPURG ++ rest)) } path =
        .error .AssertionFailed ∧
      ∀ type : ObjectType, type = .Commit ∨ type = .Tree ∨ type = .Blob →
        ∃ o s1,
          self.open { s with files := Function.update s.files path (some (type.tag ++ rest)) }
              path =
            .ok (0, o, s1) ∧ o.getType = type := by
  have hm : min 4 OriPriv.MAX_RW_COUNT = 4 := by decide
  have hc : ∀ type : ObjectType, type = .LargeBlob ∨ type = .Purged →
      self.create s path type =
        (match s.createErrno path with
          | some e => .ok (-e, { self with fd := none }, { s with errno := e })
          | none => .error .AssertionFailed) := by
    intro type htype
    cases ho : s.createErrno path with
    | some e => exact Object.create_open_fails self s path type e ho
    | none =>
      rcases htype with h | h <;> subst h <;>
        cases hf : s.files path <;> simp [Object.create, Sys.openCreate, ho, hf]
  refine ⟨hc _ (Or.inl rfl), hc _ (Or.inr rfl), ?_, ?_, ?_⟩
  · simp [Object.open, Sys.read, hm, tagLGBL, tagCMMT, tagTREE, tagBLOB]
  · simp [Object.open, Sys.read, hm, tagPURG, tagCMMT, tagTREE, tagBLOB]
  · intro type htype
    exact ⟨_, _, Object.open_tagged self _ path type rest (by simp) htype, rfl⟩

theorem cmd_verify_foldl (verifyObject : String → String) (objs : List String)
    (st : Int × List String) :
    objs.foldl
        (fun (st : Int × List String) (it : String) =>
          let error := verifyObject it
          if error ≠ "" then (1, st.2 ++ [verifyReport it error]) else st) st =
      (if ∀ h ∈ objs, verifyObject h = "" then st.1 else 1,
        st.2 ++ (objs.filter (fun h => verifyObject h ≠ "")).map
          (fun h => verifyReport h (verifyObject h))) := by
  induction objs generalizing st with
  | nil => simp
  | cons o os ih =>
    rw [List.foldl_cons, ih]
    by_cases ho : verifyObject o = ""
    · simp [ho]
    · simp [ho]

/-- C7. `cmd_verify` checks every hash that `listObjects` returns: its exit status
is 0 exactly when `verifyObject` returns the empty string for all of them and 1
otherwise, and it prints one report for each hash whose result is non-empty, for
these hashes only and for all of them, in the order of the set, so that an error on
one object does not stop the check of the others. -/
theorem cmd_verify_correct (listObjects : List String) (verifyObject : String → String) :
    ((cmd_verify listObjects verifyObject).1 = 0 ↔
        ∀ h ∈ listObjects, verifyObject h = "") ∧
      ((cmd_verify listObjects verifyObject).1 = 1 ↔
        ∃ h ∈ listObjects, verifyObject h ≠ "") ∧
      (cmd_verify listObjects verifyObject).2 =
        (listObjects.filter (fun h => verifyObject h ≠ "")).map
          (fun h => verifyReport h (verifyObject h)) := by
  unfold cmd_verify
  rw [cmd_verify_foldl]
  refine ⟨?_, ?_, by simp only [List.nil_append]⟩
  · by_cases hall : ∀ h ∈ listObjects, verifyObject h = ""
    · simp only [if_pos hall]
      exact ⟨fun _ => hall, fun _ => trivial⟩
    · simp only [if_neg hall]
      exact ⟨fun h => absurd h (by decide), fun h => absurd h hall⟩
  · by_cases hall : ∀ h ∈ listObjects, verifyObject h = ""
    · simp only [if_pos hall]
      constructor
      · intro h; exact absurd h (by decide)
      · rintro ⟨h, hh, hne⟩; exact absurd (hall h hh) hne
    · simp only [if_neg hall]
      refine ⟨fun _ => ?_, fun _ => trivial⟩
      by_contra hno
      exact hall (fun h hh => by_contra fun hne => hno ⟨h, hh, hne⟩)

/-- Whatever `pull` reports, `cmd_pull` and `cmd_clone` return 0 and set HEAD to
the HEAD of the source repository. -/
theorem cmd_pull_clone_head (pull : RepoState → RepoState → PullResult)
    (openRepo : String → RepoState) (init : World → String → Int × World)
    (a srcRoot newRoot : String) (repository : RepoState) (w : World) :
    (cmd_pull pull openRepo [a, srcRoot] repository).1 = 0 ∧
      (cmd_pull pull openRepo [a, srcRoot] repository).2.head = (openRepo srcRoot).head ∧
      (cmd_clone init pull [a, srcRoot, newRoot] w).1 = 0 ∧
      ((cmd_clone init pull [a, srcRoot, newRoot] w).2.openRepo newRoot).head =
        ((init w newRoot).2.openRepo srcRoot).head := by
  simp [cmd_pull, cmd_clone, cloneInto, RepoState.updateHead, World.openRepo]

/-- C8, the code at the failing input. With a pull that fails and changes nothing,
`cmd_pull` on a repository whose HEAD is `old` returns 0 and leaves HEAD at `new`,
the HEAD of the source, and `cmd_clone` returns 0 and leaves the HEAD of the new
repository at `new` although no object has arrived. -/
theorem cmd_pull_clone_failed_pull :
    (failingPull ⟨"old", ["old"]⟩ (sampleWorld.openRepo "/src")).succeeded = false ∧
      cmd_pull failingPull sampleWorld.openRepo ["pull", "/src"] ⟨"old", ["old"]⟩ =
        (0, ⟨"new", ["old"]⟩) ∧
      (cmd_clone sampleInit failingPull ["clone", "/src", "/dst"] sampleWorld).1 = 0 ∧
      (cmd_clone sampleInit failingPull ["clone", "/src", "/dst"] sampleWorld).2 "/dst" =
        some ⟨"new", []⟩ := by
  decide

/-! ## The commit command -/

theorem Repository.foldl_perform_log (ops : List StoreOp) (r : Repository) :
    (ops.foldl Repository.perform r).log = r.log ++ ops := by
  induction ops generalizing r with
  | nil => simp
  | cons op ops ih => simp [ih, Repository.perform]

theorem Repository.foldl_perform_state (ops : List StoreOp) (r : Repository) :
    (ops.foldl Repository.perform r).state = ops.foldl RepoState.apply r.state := by
  induction ops generalizing r with
  | nil => simp
  | cons op ops ih => simp [ih, Repository.perform]

theorem RepoState.apply_head (r : RepoState) (op : StoreOp) (h : op.isUpdateHead = false) :
    (r.apply op).head = r.head := by
  cases op <;> simp_all [RepoState.apply, StoreOp.isUpdateHead]

theorem RepoState.foldl_apply_head (ops : List StoreOp) (r : RepoState)
    (h : ∀ op ∈ ops, op.isUpdateHead = false) :
    (ops.foldl RepoState.apply r).head = r.head := by
  induction ops generalizing r with
  | nil => rfl
  | cons op ops ih =>
    rw [List.foldl_cons, ih _ (fun o ho => h o (List.mem_cons_of_mem _ ho)),
      RepoState.apply_head _ _ (h op (List.mem_cons_self _ _))]

theorem RepoState.apply_objects_mono (r : RepoState) (op : StoreOp) (x : String)
    (hx : x ∈ r.objects) : x ∈ (r.apply op).objects := by
  cases op <;> simp_all [RepoState.apply, RepoState.updateHead, List.mem_insert_iff]

theorem RepoState.foldl_apply_objects_mono (ops : List StoreOp) (r : RepoState) (x : String)
    (hx : x ∈ r.objects) : x ∈ (ops.foldl RepoState.apply r).objects := by
  induction ops generalizing r with
  | nil => exact hx
  | cons op ops ih => exact ih _ (RepoState.apply_objects_mono r op x hx)

theorem RepoState.foldl_apply_addCommit (ops : List StoreOp) (r : RepoState) (h : String)
    (hmem : StoreOp.addCommit h ∈ ops) : h ∈ (ops.foldl RepoState.apply r).objects := by
  induction ops generalizing r with
  | nil => simp at hmem
  | cons op ops ih =>
    rcases List.mem_cons.1 hmem with heq | hin
    · subst heq
      exact RepoState.foldl_apply_objects_mono ops _ h (by simp [RepoState.apply])
    · exact ih _ hin

mutual

theorem commitHelper_ops (env : CommitEnv) (tree : Repo.Tree) (r : Repository) :
    ∀ e : DirEntry, ∃ ops : List StoreOp,
      (commitHelper env tree r e).2 = ops.foldl Repository.perform r ∧
        ∀ op ∈ ops, op.isUpdateHead = false
  | .file path =>
    ⟨[.addFile path (env.hashFile path)], by simp [commitHelper, Repository.addFile],
      by simp [StoreOp.isUpdateHead]⟩
  | .dir path entries => by
    obtain ⟨ops, h1, h2⟩ := Scan_Traverse_ops env [] r entries
    refine ⟨ops ++ [.addTree (env.hashTree (Scan_Traverse env [] r entries).1)], ?_, ?_⟩
    · simp [commitHelper, Repository.addTree, h1]
    · intro op hop
      rcases List.mem_append.1 hop with h | h
      · exact h2 op h
      · simp only [List.mem_singleton] at h
        subst h
        rfl

theorem Scan_Traverse_ops (env : CommitEnv) (tree : Repo.Tree) (r : Repository) :
    ∀ es : List DirEntry, ∃ ops : List StoreOp,
      (Scan_Traverse env tree r es).2 = ops.foldl Repository.perform r ∧
        ∀ op ∈ ops, op.isUpdateHead = false
  | [] => ⟨[], by simp [Scan_Traverse], by simp⟩
  | e :: es => by
    obtain ⟨ops1, h1, h2⟩ := commitHelper_ops env tree r e
    obtain ⟨ops2, h3, h4⟩ :=
      Scan_Traverse_ops env (commitHelper env tree r e).1 (commitHelper env tree r e).2 es
    refine ⟨ops1 ++ ops2, ?_, ?_⟩
    · simp only [Scan_Traverse]
      rw [h3, h1, List.foldl_append]
    · intro op hop
      rcases List.mem_append.1 hop with h | h
      · exact h2 op h
      · exact h4 op h

end

/-- The mutations that `cmd_commit` makes when those of its scan are `scanOps`:
those of the scan, then the tree of the root, the commit, and HEAD. -/
theorem cmd_commit_unfold_of (env : CommitEnv) (root : List DirEntry) (argv : List String)
    (repository : Repository) (scanOps : List StoreOp)
    (h1 : (Scan_Traverse env [] repository root).2 = scanOps.foldl Repository.perform repository)
    (h2 : ∀ op ∈ scanOps, op.isUpdateHead = false) :
      (cmd_commit env root argv repository).1 = 0 ∧
      (cmd_commit env root argv repository).2.log = repository.log ++ (scanOps ++
        [StoreOp.addTree (env.hashTree (Scan_Traverse env [] repository root).1),
          StoreOp.addCommit
            (env.hashCommit (expectedCommit env root repository (commitMessage argv))),
          StoreOp.updateHead
            (env.hashCommit (expectedCommit env root repository (commitMessage argv)))]) ∧
      (cmd_commit env root argv repository).2.state = (scanOps ++
        [StoreOp.addTree (env.hashTree (Scan_Traverse env [] repository root).1),
          StoreOp.addCommit
            (env.hashCommit (expectedCommit env root repository (commitMessage argv))),
          StoreOp.updateHead
            (env.hashCommit (expectedCommit env root repository (commitMessage argv)))]).foldl
        RepoState.apply repository.state := by
  refine ⟨rfl, ?_⟩
  have hhead : ((Scan_Traverse env [] repository root).2.perform
      (.addTree (env.hashTree (Scan_Traverse env [] repository root).1))).state.head =
      repository.state.head := by
    rw [h1]
    simp only [Repository.perform, Repository.foldl_perform_state]
    rw [RepoState.apply_head _ (StoreOp.addTree _) rfl, RepoState.foldl_apply_head _ _ h2]
  have huser : (if env.fullname ≠ "" then
        (((((Repo.Commit.new.setTree (env.hashTree (Scan_Traverse env [] repository root).1)).setParents
          repository.state.head "").setMessage (commitMessage argv)).setTime env.now).setUser
            env.fullname)
      else
        ((((Repo.Commit.new.setTree (env.hashTree (Scan_Traverse env [] repository root).1)).setParents
          repository.state.head "").setMessage (commitMessage argv)).setTime env.now)) =
      expectedCommit env root repository (commitMessage argv) := by
    by_cases hu : env.fullname = ""
    · simp [hu, expectedCommit, Repo.Commit.new, Repo.Commit.setTree, Repo.Commit.setParents,
        Repo.Commit.setMessage, Repo.Commit.setTime]
    · simp [hu, expectedCommit, Repo.Commit.new, Repo.Commit.setTree, Repo.Commit.setParents,
        Repo.Commit.setMessage, Repo.Commit.setTime, Repo.Commit.setUser]
  have hc : (cmd_commit env root argv repository).2 =
      (scanOpsAll scanOps env root argv repository).foldl Repository.perform repository := by
    simp only [cmd_commit, Repository.addTree, Repository.addCommit, Repository.updateHead,
      Repository.getHead, hhead, huser, scanOpsAll]
    rw [h1, List.foldl_append]
    rfl
  rw [hc, Repository.foldl_perform_log, Repository.foldl_perform_state]
  exact ⟨rfl, rfl⟩

/-- The mutations that `cmd_commit` makes: those of the scan, then the tree of the
root, the commit, and HEAD. -/
theorem cmd_commit_unfold (env : CommitEnv) (root : List DirEntry) (argv : List String)
    (repository : Repository) :
    ∃ scanOps : List StoreOp, (∀ op ∈ scanOps, op.isUpdateHead = false) ∧
      (cmd_commit env root argv repository).1 = 0 ∧
      (cmd_commit env root argv repository).2.log = repository.log ++ (scanOps ++
        [StoreOp.addTree (env.hashTree (Scan_Traverse env [] repository root).1),
          StoreOp.addCommit
            (env.hashCommit (expectedCommit env root repository (commitMessage argv))),
          StoreOp.updateHead
            (env.hashCommit (expectedCommit env root repository (commitMessage argv)))]) ∧
      (cmd_commit env root argv repository).2.state = (scanOps ++
        [StoreOp.addTree (env.hashTree (Scan_Traverse env [] repository root).1),
          StoreOp.addCommit
            (env.hashCommit (expectedCommit env root repository (commitMessage argv))),
          StoreOp.updateHead
            (env.hashCommit (expectedCommit env root repository (commitMessage argv)))]).foldl
        RepoState.apply repository.state := by
  obtain ⟨ops, h1, h2⟩ := Scan_Traverse_ops env [] repository root
  exact ⟨ops, h2, cmd_commit_unfold_of env root argv repository ops h1 h2⟩

theorem statesAlong_adds_then_head (adds : List StoreOp) (h : String) (r : RepoState)
    (hadds : ∀ op ∈ adds, op.isUpdateHead = false) :
    ∀ s ∈ statesAlong r (adds ++ [StoreOp.updateHead h]),
      s.head = r.head ∨ s = (adds.foldl RepoState.apply r).updateHead h := by
  induction adds generalizing r with
  | nil =>
    intro s hs
    simp only [List.nil_append, statesAlong, List.mem_cons, List.mem_singleton,
      List.not_mem_nil, or_false] at hs
    rcases hs with hs | hs
    · exact Or.inl (by rw [hs])
    · exact Or.inr (by rw [hs]; rfl)
  | cons op ops ih =>
    intro s hs
    simp only [List.cons_append, statesAlong, List.mem_cons] at hs
    rcases hs with hs | hs
    · exact Or.inl (by rw [hs])
    · have hop := hadds op (List.mem_cons_self _ _)
      rcases ih (r.apply op) (fun o ho => hadds o (List.mem_cons_of_mem _ ho)) s hs with h1 | h1
      · exact Or.inl (by rw [h1, RepoState.apply_head _ _ hop])
      · exact Or.inr (by rw [h1, List.foldl_cons])

/-- C9. `cmd_commit` returns 0 and leaves HEAD at the hash that `addCommit`
returned for the commit whose tree is the hash of the tree built from the
repository root, whose first parent is the HEAD before the command, whose second
parent is empty, and whose message is `No message.` when no message argument is
given and the argument when one is given. -/
theorem cmd_commit_head (env : CommitEnv) (root : List DirEntry) (repository : Repository)
    (a : String) :
    (cmd_commit env root [a] repository).1 = 0 ∧
      (cmd_commit env root [a] repository).2.state.head =
        env.hashCommit (expectedCommit env root repository "No message.") ∧
      StoreOp.addCommit (env.hashCommit (expectedCommit env root repository "No message.")) ∈
        (cmd_commit env root [a] repository).2.log ∧
      ∀ msg : String,
        (cmd_commit env root [a, msg] repository).1 = 0 ∧
          (cmd_commit env root [a, msg] repository).2.state.head =
            env.hashCommit (expectedCommit env root repository msg) ∧
          StoreOp.addCommit (env.hashCommit (expectedCommit env root repository msg)) ∈
            (cmd_commit env root [a, msg] repository).2.log := by
  have key : ∀ argv : List String,
      (cmd_commit env root argv repository).1 = 0 ∧
        (cmd_commit env root argv repository).2.state.head =
          env.hashCommit (expectedCommit env root repository (commitMessage argv)) ∧
        StoreOp.addCommit
            (env.hashCommit (expectedCommit env root repository (commitMessage argv))) ∈
          (cmd_commit env root argv repository).2.log := by
    intro argv
    obtain ⟨ops, _, h0, hlog, hstate⟩ := cmd_commit_unfold env root argv repository
    refine ⟨h0, ?_, ?_⟩
    · rw [hstate]
      simp only [List.foldl_append, List.foldl_cons, List.foldl_nil, RepoState.apply,
        RepoState.updateHead]
    · rw [hlog]
      simp
  exact ⟨(key [a]).1, (key [a]).2.1, (key [a]).2.2, fun msg => key [a, msg]⟩

mutual

theorem commitHelper_tree (env : CommitEnv) :
    ∀ (e : DirEntry) (tree : Repo.Tree) (r r' : Repository),
      (commitHelper env tree r e).1 = tree ++ (commitHelper env [] r' e).1
  | .file path, tree, r, r' => by
    simp [commitHelper, Repository.addFile, Repo.Tree.addObject]
  | .dir path entries, tree, r, r' => by
    have h := Scan_Traverse_tree env entries [] r r'
    simp only [List.nil_append] at h
    simp [commitHelper, Repository.addTree, Repo.Tree.addObject, h]

theorem Scan_Traverse_tree (env : CommitEnv) :
    ∀ (es : List DirEntry) (tree : Repo.Tree) (r r' : Repository),
      (Scan_Traverse env tree r es).1 = tree ++ (Scan_Traverse env [] r' es).1
  | [], tree, r, r' => by simp [Scan_Traverse]
  | e :: es, tree, r, r' => by
    simp only [Scan_Traverse]
    rw [Scan_Traverse_tree env es (commitHelper env tree r e).1 (commitHelper env tree r e).2 r',
      Scan_Traverse_tree env es (commitHelper env [] r' e).1 (commitHelper env [] r' e).2 r',
      commitHelper_tree env e tree r r', List.append_assoc]

end

theorem commitHelper_treeEntry (env : CommitEnv) (r : Repository) (e : DirEntry) :
    (commitHelper env [] r e).1 = [e.treeEntry env r] := by
  cases e <;> simp [commitHelper, DirEntry.treeEntry, Repository.addFile, Repository.addTree,
    Repo.Tree.addObject]

/-- The tree that the scan builds for a directory has one entry for each entry of
the directory, in order. -/
theorem Scan_Traverse_map (env : CommitEnv) (r : Repository) (es : List DirEntry) :
    (Scan_Traverse env [] r es).1 = es.map (DirEntry.treeEntry env r) := by
  induction es with
  | nil => simp [Scan_Traverse]
  | cons e es ih =>
    simp only [Scan_Traverse]
    rw [Scan_Traverse_tree env es _ _ r, ih, commitHelper_treeEntry]
    rfl

theorem commitHelper_mono (env : CommitEnv) (tree : Repo.Tree) (r : Repository) (e : DirEntry)
    (x : String) (hx : x ∈ r.state.objects) :
    x ∈ (commitHelper env tree r e).2.state.objects := by
  obtain ⟨ops, h1, _⟩ := commitHelper_ops env tree r e
  rw [h1, Repository.foldl_perform_state]
  exact RepoState.foldl_apply_objects_mono ops _ x hx

theorem Scan_Traverse_mono (env : CommitEnv) (tree : Repo.Tree) (r : Repository)
    (es : List DirEntry) (x : String) (hx : x ∈ r.state.objects) :
    x ∈ (Scan_Traverse env tree r es).2.state.objects := by
  obtain ⟨ops, h1, _⟩ := Scan_Traverse_ops env tree r es
  rw [h1, Repository.foldl_perform_state]
  exact RepoState.foldl_apply_objects_mono ops _ x hx

mutual

theorem commitHelper_stored (env : CommitEnv) (r0 : Repository) :
    ∀ (e : DirEntry) (tree : Repo.Tree) (r : Repository),
      (e.treeEntry env r0).2 ∈ (commitHelper env tree r e).2.state.objects ∧
        ∀ ds ∈ e.dirsBelow,
          env.hashTree (Scan_Traverse env [] r0 ds).1 ∈
              (commitHelper env tree r e).2.state.objects ∧
            ∀ ent ∈ (Scan_Traverse env [] r0 ds).1,
              ent.2 ∈ (commitHelper env tree r e).2.state.objects
  | .file path, tree, r => by
    simp [commitHelper, Repository.addFile, Repository.perform, RepoState.apply,
      DirEntry.dirsBelow, DirEntry.treeEntry]
  | .dir path entries, tree, r => by
    obtain ⟨h1, h2⟩ := Scan_Traverse_stored env r0 entries [] r
    have ht := Scan_Traverse_tree env entries [] r r0
    simp only [List.nil_append] at ht
    have hr : (commitHelper env tree r (.dir path entries)).2 =
        (Scan_Traverse env [] r entries).2.perform
          (.addTree (env.hashTree (Scan_Traverse env [] r0 entries).1)) := by
      simp [commitHelper, Repository.addTree, ht]
    have hmono : ∀ x, x ∈ (Scan_Traverse env [] r entries).2.state.objects →
        x ∈ (commitHelper env tree r (.dir path entries)).2.state.objects := by
      intro x hx
      rw [hr]
      exact RepoState.apply_objects_mono _ _ x hx
    have hself : env.hashTree (Scan_Traverse env [] r0 entries).1 ∈
        (commitHelper env tree r (.dir path entries)).2.state.objects := by
      rw [hr]
      simp [Repository.perform, RepoState.apply]
    refine ⟨by simpa [DirEntry.treeEntry, Repository.addTree] using hself, ?_⟩
    intro ds hds
    simp only [DirEntry.dirsBelow, List.mem_cons] at hds
    rcases hds with rfl | hds
    · exact ⟨hself, fun ent hent => hmono _ (h1 ent hent)⟩
    · exact ⟨hmono _ (h2 ds hds).1, fun ent hent => hmono _ ((h2 ds hds).2 ent hent)⟩

theorem Scan_Traverse_stored (env : CommitEnv) (r0 : Repository) :
    ∀ (es : List DirEntry) (tree : Repo.Tree) (r : Repository),
      (∀ ent ∈ (Scan_Traverse env [] r0 es).1,
          ent.2 ∈ (Scan_Traverse env tree r es).2.state.objects) ∧
        ∀ ds ∈ DirEntry.dirsBelowAll es,
          env.hashTree (Scan_Traverse env [] r0 ds).1 ∈
              (Scan_Traverse env tree r es).2.state.objects ∧
            ∀ ent ∈ (Scan_Traverse env [] r0 ds).1,
              ent.2 ∈ (Scan_Traverse env tree r es).2.state.objects
  | [], tree, r => by simp [Scan_Traverse, DirEntry.dirsBelowAll]
  | e :: es, tree, r => by
    obtain ⟨h1, h2⟩ := commitHelper_stored env r0 e tree r
    obtain ⟨h3, h4⟩ :=
      Scan_Traverse_stored env r0 es (commitHelper env tree r e).1 (commitHelper env tree r e).2
    have hs : (Scan_Traverse env tree r (e :: es)).2 =
        (Scan_Traverse env (commitHelper env tree r e).1 (commitHelper env tree r e).2 es).2 := by
      simp only [Scan_Traverse]
    have hmono := Scan_Traverse_mono env (commitHelper env tree r e).1
      (commitHelper env tree r e).2 es
    constructor
    · intro ent hent
      rw [Scan_Traverse_map, List.map_cons, List.mem_cons] at hent
      rw [hs]
      rcases hent with rfl | hent
      · exact hmono _ h1
      · exact h3 ent (by rw [Scan_Traverse_map]; exact hent)
    · intro ds hds
      simp only [DirEntry.dirsBelowAll, List.mem_append] at hds
      rw [hs]
      rcases hds with hds | hds
      · exact ⟨hmono _ (h2 ds hds).1, fun ent hent => hmono _ ((h2 ds hds).2 ent hent)⟩
      · exact h4 ds hds

end

/-- C10. In `cmd_commit` the HEAD update is the last mutation of the store: the
mutations of the command are insertions (`addFile`, `addTree`, and last of them the
`addCommit` of the new commit), followed by one `updateHead` with the hash of
that commit. In every state that the repository passes through, HEAD is either
still the HEAD from before the command, or it is the hash of the new commit and
the store holds that commit, the tree that the commit names, and, for the
repository root and every directory below it, the tree built for it and the
object (blob or tree) of each entry of that tree. The tree built for a directory
has one entry for each entry of the directory: a file with the hash of its
blob, a directory with the hash of the tree built for it; it does not depend on
the state of the repository at the time it is built. The command always ends,
with exit status 0. -/
theorem cmd_commit_updateHead_last (env : CommitEnv) (root : List DirEntry) (argv : List String)
    (repository : Repository) :
    ∃ (adds : List StoreOp) (h : String),
      (cmd_commit env root argv repository).1 = 0 ∧
      (cmd_commit env root argv repository).2.log =
        repository.log ++ adds ++ [StoreOp.updateHead h] ∧
      (∀ op ∈ adds, op.isUpdateHead = false) ∧
      adds.getLast? = some (StoreOp.addCommit h) ∧
      (cmd_commit env root argv repository).2.state =
        (adds ++ [StoreOp.updateHead h]).foldl RepoState.apply repository.state ∧
      h = env.hashCommit (expectedCommit env root repository (commitMessage argv)) ∧
      (∀ s ∈ statesAlong repository.state (adds ++ [StoreOp.updateHead h]),
        s.head = repository.state.head ∨
          (s.head = h ∧ h ∈ s.objects ∧
            (expectedCommit env root repository (commitMessage argv)).tree ∈ s.objects ∧
            ∀ es ∈ root :: DirEntry.dirsBelowAll root,
              env.hashTree (Scan_Traverse env [] repository es).1 ∈ s.objects ∧
                ∀ ent ∈ (Scan_Traverse env [] repository es).1, ent.2 ∈ s.objects)) ∧
      (∀ (es : List DirEntry) (tree : Repo.Tree) (r : Repository),
        (Scan_Traverse env tree r es).1 = tree ++ (Scan_Traverse env [] repository es).1) ∧
      (∀ es : List DirEntry,
        (Scan_Traverse env [] repository es).1 = es.map (DirEntry.treeEntry env repository)) ∧
      (∀ path : String, DirEntry.treeEntry env repository (.file path) =
        (path, env.hashFile path)) ∧
      ∀ (path : String) (entries : List DirEntry),
        DirEntry.treeEntry env repository (.dir path entries) =
          (path, env.hashTree (Scan_Traverse env [] repository entries).1) := by
  obtain ⟨ops, h1, hops⟩ := Scan_Traverse_ops env [] repository root
  obtain ⟨h0, hlog, hstate⟩ := cmd_commit_unfold_of env root argv repository ops h1 hops
  have hadds : ∀ op ∈ ops ++
      [StoreOp.addTree (env.hashTree (Scan_Traverse env [] repository root).1),
        StoreOp.addCommit
          (env.hashCommit (expectedCommit env root repository (commitMessage argv)))],
      op.isUpdateHead = false := by
    intro op hop
    rcases List.mem_append.1 hop with h | h
    · exact hops op h
    · simp only [List.mem_cons, List.mem_singleton, List.not_mem_nil, or_false] at h
      rcases h with h | h <;> subst h <;> rfl
  have hscan : ops.foldl RepoState.apply repository.state =
      (Scan_Traverse env [] repository root).2.state := by
    rw [h1, Repository.foldl_perform_state]
  have hafter : ∀ x, x ∈ (Scan_Traverse env [] repository root).2.state.objects →
      x ∈ ((ops ++
        [StoreOp.addTree (env.hashTree (Scan_Traverse env [] repository root).1),
          StoreOp.addCommit
            (env.hashCommit (expectedCommit env root repository (commitMessage argv)))]).foldl
        RepoState.apply repository.state).objects := by
    intro x hx
    rw [List.foldl_append, hscan]
    exact RepoState.foldl_apply_objects_mono _ _ x hx
  have htree : env.hashTree (Scan_Traverse env [] repository root).1 ∈ ((ops ++
        [StoreOp.addTree (env.hashTree (Scan_Traverse env [] repository root).1),
          StoreOp.addCommit
            (env.hashCommit (expectedCommit env root repository (commitMessage argv)))]).foldl
        RepoState.apply repository.state).objects := by
    rw [List.foldl_append]
    simp [RepoState.apply]
  obtain ⟨hst1, hst2⟩ := Scan_Traverse_stored env repository root [] repository
  refine ⟨ops ++ [StoreOp.addTree (env.hashTree (Scan_Traverse env [] repository root).1),
      StoreOp.addCommit
        (env.hashCommit (expectedCommit env root repository (commitMessage argv)))],
    env.hashCommit (expectedCommit env root repository (commitMessage argv)),
    h0, ?_, hadds, by simp, ?_, rfl, ?_,
    fun es tree r => Scan_Traverse_tree env es tree r repository,
    Scan_Traverse_map env repository, fun _ => rfl, fun _ _ => rfl⟩
  · rw [hlog]
    simp only [List.append_assoc, List.cons_append, List.nil_append]
  · rw [hstate]
    simp only [List.append_assoc, List.cons_append, List.nil_append]
  · intro s hs
    rcases statesAlong_adds_then_head _ _ _ hadds s hs with h | h
    · exact Or.inl h
    · refine Or.inr ?_
      rw [h]
      refine ⟨rfl, ?_, htree, ?_⟩
      · exact RepoState.foldl_apply_addCommit _ repository.state _ (by simp)
      · intro es hes
        rcases List.mem_cons.1 hes with rfl | hes
        · exact ⟨htree, fun ent hent => hafter _ (hst1 ent hent)⟩
        · exact ⟨hafter _ (hst2 es hes).1, fun ent hent => hafter _ ((hst2 es hes).2 ent hent)⟩

/-! ## Repository initialisation -/

theorem set_opt_helper_clone (data : mount_ori_config) (remotePath : String) :
    set_opt_helper data ("clone=" ++ remotePath) OPT_KEY_CLONE_PARAM =
      (0, { data with clonePath := "=" ++ remotePath }) := by
  have h6 : substr ("clone=" ++ remotePath) 0 6 = "clone=" := by
    apply String.ext
    simp [substr, String.data_append]
  have h5 : substrFrom ("clone=" ++ remotePath) 5 = "=" ++ remotePath := by
    apply String.ext
    simp [substrFrom, String.data_append]
  simp [set_opt_helper, h6, h5, OPT_KEY_CLONE_PARAM, FUSE_OPT_KEY_OPT, FUSE_OPT_KEY_NONOPT]

/-- C18, the code at the failing input. For the option `clone=<remotePath>`,
`set_opt_helper` returns 0, which removes the option from the arguments passed on
to FUSE, but it stores `=<remotePath>` in `clonePath`: the text that follows the
first five characters, not the six of `clone=`. With `clone=host:/repo` the path
stored is `=host:/repo`. -/
theorem set_opt_helper_clone_off_by_one (data : mount_ori_config) (remotePath : String) :
    (set_opt_helper data ("clone=" ++ remotePath) OPT_KEY_CLONE_PARAM).1 = 0 ∧
      (set_opt_helper data ("clone=" ++ remotePath) OPT_KEY_CLONE_PARAM).2.clonePath =
        "=" ++ remotePath ∧
      (set_opt_helper data ("clone=" ++ remotePath) OPT_KEY_CLONE_PARAM).2.clonePath ≠
        remotePath ∧
      (set_opt_helper ⟨2, "r", "m", ""⟩ "clone=host:/repo" OPT_KEY_CLONE_PARAM).2.clonePath =
        "=host:/repo" := by
  rw [set_opt_helper_clone]
  refine ⟨rfl, rfl, ?_, by decide⟩
  intro h
  have := congrArg String.length h
  simp only [String.length_append] at this
  have h1 : "=".length = 1 := by decide
  omega

theorem cmd_findheads_foldl (env : FindHeadsEnv) (refs : List (String × List String))
    (out : List String) :
    refs.foldl
        (fun (out : List String) (it : String × List String) =>
          if it.1 = env.EMPTY_COMMIT then out
          else if it.2.length = 0 && env.enumValue (env.getObjectType it.1) ≠ 0 then
            out ++ findheadsReport it.1 (env.getCommit it.1)
          else out) out =
      out ++ ((refs.filter (fun it => it.1 ≠ env.EMPTY_COMMIT && it.2.length = 0 &&
          env.enumValue (env.getObjectType it.1) ≠ 0)).map
        (fun it => findheadsReport it.1 (env.getCommit it.1))).flatten := by
  induction refs generalizing out with
  | nil => simp
  | cons it refs ih =>
    rw [List.foldl_cons, ih]
    by_cases h1 : it.1 = env.EMPTY_COMMIT
    · simp [h1]
    · by_cases h2 : it.2 = [] <;>
        by_cases h3 : env.enumValue (env.getObjectType it.1) = 0 <;>
        simp [h1, h2, h3, List.filter_cons]

/-- The objects that `cmd_findheads` prints: every key other than `EMPTY_COMMIT`
that nothing refers to and whose type has a non-zero enumerator value. Neither the
type Commit nor HEAD enters the test. -/
theorem cmd_findheads_printed (env : FindHeadsEnv) :
    (cmd_findheads env).2 =
      ((env.computeRefCounts.filter (fun it => it.1 ≠ env.EMPTY_COMMIT && it.2.length = 0 &&
          env.enumValue (env.getObjectType it.1) ≠ 0)).map
        (fun it => findheadsReport it.1 (env.getCommit it.1))).flatten := by
  unfold cmd_findheads
  rw [cmd_findheads_foldl]
  simp

/-- C19, the code at the failing input. In a repository whose HEAD is the commit
`c-head` and which holds a tree `t-lost` that nothing refers to, `cmd_findheads`
prints `c-head`, the commit that HEAD names, and prints the tree `t-lost` as a
commit, with the fields that `getCommit` returns for it. -/
theorem cmd_findheads_head_and_tree :
    sampleFindHeadsEnv.getObjectType "t-lost" = .Tree ∧
      cmd_findheads sampleFindHeadsEnv =
        (0, ["commit:  c-head", "parents: c-old", "second",
          "commit:  t-lost", "parents: ", ""]) := by
  decide

/-- C20. `cmd_purgeobj` calls `purgeObject` only when there are two arguments and
the named object has type Blob, and then exactly once, on that object. With any
other argument count, or an object of another type, it returns 1, calls nothing
and leaves the store as it was; when `purgeObject` reports failure it returns 1,
and when it reports success 0. -/
theorem cmd_purgeobj_correct {σ : Type} (getObjectType : σ → String → Option ObjectType)
    (purgeObject : σ → String → Bool × σ) (argv : List String) (store : σ) :
    (argv.length ≠ 2 → cmd_purgeobj getObjectType purgeObject argv store = (1, store, [])) ∧
      (∀ a objId, argv = [a, objId] → getObjectType store objId ≠ some .Blob →
        cmd_purgeobj getObjectType purgeObject argv store = (1, store, [])) ∧
      (∀ a objId, argv = [a, objId] → getObjectType store objId = some .Blob →
        cmd_purgeobj getObjectType purgeObject argv store =
          (if (purgeObject store objId).1 then 0 else 1, (purgeObject store objId).2,
            [objId])) ∧
      ((cmd_purgeobj getObjectType purgeObject argv store).2.2 ≠ [] →
        ∃ a objId, argv = [a, objId] ∧ getObjectType store objId = some .Blob) := by
  refine ⟨?_, ?_, ?_, ?_⟩
  · intro h
    match argv, h with
    | [], _ => rfl
    | [_], _ => rfl
    | [_, _], h => simp at h
    | _ :: _ :: _ :: _, _ => rfl
  · intro a objId he ht
    subst he
    simp [cmd_purgeobj, ht]
  · intro a objId he ht
    subst he
    cases hp : (purgeObject store objId).1 <;> simp [cmd_purgeobj, ht, hp]
  · intro h
    match argv, h with
    | [], h => simp [cmd_purgeobj] at h
    | [_], h => simp [cmd_purgeobj] at h
    | [a, objId], h =>
      refine ⟨a, objId, rfl, ?_⟩
      by_contra ht
      simp [cmd_purgeobj, ht] at h
    | _ :: _ :: _ :: _, h => simp [cmd_purgeobj] at h

/-- C20, witness: a store that is the list of its purged objects; purging `b1`
succeeds, and `t1` is a tree. -/
theorem cmd_purgeobj_correct_witness :
    cmd_purgeobj (fun (_ : List String) h => if h = "b1" then some .Blob else some .Tree)
        (fun s h => (true, h :: s)) ["purgeobj", "b1"] [] = (0, ["b1"], ["b1"]) ∧
      cmd_purgeobj (fun (_ : List String) h => if h = "b1" then some .Blob else some .Tree)
        (fun s h => (true, h :: s)) ["purgeobj", "t1"] [] = (1, [], []) :=
  ⟨(cmd_purgeobj_correct (fun (_ : List String) h => if h = "b1" then some .Blob else some .Tree)
      (fun s h => (true, h :: s)) ["purgeobj", "b1"] []).2.2.1 "purgeobj" "b1" rfl (by decide),
    (cmd_purgeobj_correct (fun (_ : List String) h => if h = "b1" then some .Blob else some .Tree)
      (fun s h => (true, h :: s)) ["purgeobj", "t1"] []).2.1 "purgeobj" "t1" rfl (by decide)⟩

/-! ## The mount adapter: snapshot isolation -/

theorem strncmpEq_snapshot (rest : String) :
    strncmpEq (ORI_SNAPSHOT_DIRPATH ++ rest) ORI_SNAPSHOT_DIRPATH = true := by
  simp [strncmpEq, String.data_append]

theorem snapshot_ne_control (rest : String) :
    ORI_SNAPSHOT_DIRPATH ++ rest ≠ ORI_CONTROL_FILEPATH := by
  intro h
  have h1 := congrArg String.data h
  simp [String.data_append, ORI_SNAPSHOT_DIRPATH, ORI_CONTROL_FILEPATH] at h1

/-- C12, counterexample. On the snapshot path `/.snapshot/s/f`, an open for
writing returns `-EPERM`, not `-EACCES`; `ori_write` and `ori_ftruncate` return
`-EIO` when `ASSERT` is compiled out and stop the process on `ASSERT(false)` when
it is compiled in. -/
theorem snapshot_codes_counterexample :
    ori_open emptyPriv "/.snapshot/s/f" O_WRONLY 0 = .ok (-EPERM, emptyPriv, 0) ∧
      ori_write false emptyPriv "/.snapshot/s/f" 4 0 0 = .ok (- EIO, emptyPriv) ∧
      ori_ftruncate false emptyPriv "/.snapshot/s/f" 0 0 = .ok (- EIO, emptyPriv) ∧
      ori_write true emptyPriv "/.snapshot/s/f" 4 0 0 = .error .AssertionFailed ∧
      ori_ftruncate true emptyPriv "/.snapshot/s/f" 0 0 = .error .AssertionFailed ∧
      -EPERM ≠ -EACCES ∧ - EIO ≠ -EACCES := by
  refine ⟨rfl, rfl, rfl, rfl, rfl, by decide, by decide⟩

/-- C12, amended. For every path that begins with `/.snapshot`, so for every path
under `/.snapshot`: unlink, symlink, rename from or to it, create, truncate,
mkdir, rmdir, chmod, chown and utimens return `-EACCES` and leave the overlay,
with its journal, as it was. An open returns `-EPERM` for writing (0 for reading)
and `ori_write` and `ori_ftruncate` return `-EIO`, all three leaving the overlay
as it was; when `ASSERT` is compiled in, `ori_write` and `ori_ftruncate` stop the
process on `ASSERT(false)` instead. -/
theorem snapshot_isolation (priv : OriPriv) (rest other : String) (mode uid gid fh flags size : Nat)
    (length offset mtime : Int) :
    ori_unlink priv (ORI_SNAPSHOT_DIRPATH ++ rest) = .ok (-EACCES, priv) ∧
      ori_symlink priv other (ORI_SNAPSHOT_DIRPATH ++ rest) = .ok (-EACCES, priv) ∧
      ori_rename priv (ORI_SNAPSHOT_DIRPATH ++ rest) other = .ok (-EACCES, priv) ∧
      ori_rename priv other (ORI_SNAPSHOT_DIRPATH ++ rest) = .ok (-EACCES, priv) ∧
      ori_create priv (ORI_SNAPSHOT_DIRPATH ++ rest) mode fh = .ok (-EACCES, priv, fh) ∧
      ori_truncate false priv (ORI_SNAPSHOT_DIRPATH ++ rest) length = .ok (-EACCES, priv) ∧
      ori_truncate true priv (ORI_SNAPSHOT_DIRPATH ++ rest) length = .ok (-EACCES, priv) ∧
      ori_mkdir priv (ORI_SNAPSHOT_DIRPATH ++ rest) mode = .ok (-EACCES, priv) ∧
      ori_rmdir priv (ORI_SNAPSHOT_DIRPATH ++ rest) = .ok (-EACCES, priv) ∧
      ori_chmod priv (ORI_SNAPSHOT_DIRPATH ++ rest) mode = .ok (-EACCES, priv) ∧
      ori_chown priv (ORI_SNAPSHOT_DIRPATH ++ rest) uid gid = .ok (-EACCES, priv) ∧
      ori_utimens priv (ORI_SNAPSHOT_DIRPATH ++ rest) mtime = .ok (-EACCES, priv) ∧
      ori_open priv (ORI_SNAPSHOT_DIRPATH ++ rest) flags fh =
        .ok (if flags &&& O_WRONLY ≠ 0 ∨ flags &&& O_RDWR ≠ 0 then -EPERM else 0, priv, fh) ∧
      ori_write false priv (ORI_SNAPSHOT_DIRPATH ++ rest) size offset fh = .ok (- EIO, priv) ∧
      ori_ftruncate false priv (ORI_SNAPSHOT_DIRPATH ++ rest) length fh = .ok (- EIO, priv) ∧
      ori_write true priv (ORI_SNAPSHOT_DIRPATH ++ rest) size offset fh =
        .error .AssertionFailed ∧
      ori_ftruncate true priv (ORI_SNAPSHOT_DIRPATH ++ rest) length fh =
        .error .AssertionFailed := by
  have hs := strncmpEq_snapshot rest
  have hc := snapshot_ne_control rest
  refine ⟨?_, ?_, ?_, ?_, ?_, ?_, ?_, ?_, ?_, ?_, ?_, ?_, ?_, ?_, ?_, ?_, ?_⟩
  · simp [ori_unlink, hs, hc]
  · simp [ori_symlink, hs, hc]
  · simp only [ori_rename, hs]
    split <;> rfl
  · simp [ori_rename, hs]
  · simp [ori_create, hs]
  · simp [ori_truncate, hs, hc]
  · simp [ori_truncate, hs, hc]
  · simp [ori_mkdir, hs]
  · simp [ori_rmdir, hs]
  · simp [ori_chmod, setAttr, hs, hc]
  · simp [ori_chown, setAttr, hs, hc]
  · simp [ori_utimens, setAttr, hs, hc]
  · simp only [ori_open, hs, hc, if_true, if_false]
    by_cases h1 : flags &&& O_WRONLY = 0 <;> by_cases h2 : flags &&& O_RDWR = 0 <;>
      simp [h1, h2]
  · simp [ori_write, hs, hc]
  · simp [ori_ftruncate, hs, hc]
  · simp [ori_write, hs, hc]
  · simp [ori_ftruncate, hs, hc]

/-! ## The mount adapter: lookups in the overlay -/

theorem OriPriv.getFileInfo_id (priv : OriPriv) (path : String) (info : OriFileInfo)
    (h : priv.getFileInfo path = .ok info) : priv.paths path = some info.id := by
  unfold OriPriv.getFileInfo at h
  cases hp : priv.paths path with
  | none => simp [hp] at h
  | some id =>
    cases hi : priv.infos id with
    | none => simp [hp, hi] at h
    | some i0 =>
      simp only [hp, hi, Except.ok.injEq] at h
      rw [← h]

theorem OriPriv.getFileInfo_setInfo (priv : OriPriv) (path : String) (info : OriFileInfo)
    (h : priv.paths path = some info.id) : (priv.setInfo info).getFileInfo path = .ok info := by
  simp [OriPriv.getFileInfo, OriPriv.setInfo, h]

theorem OriPriv.getFileInfoFh_id (priv : OriPriv) (fh : Nat) (info : OriFileInfo)
    (h : priv.getFileInfoFh fh = some info) : priv.handles fh = some info.id := by
  unfold OriPriv.getFileInfoFh at h
  cases hp : priv.handles fh with
  | none => simp [hp] at h
  | some id =>
    cases hi : priv.infos id with
    | none => simp [hp, hi] at h
    | some i0 =>
      simp only [hp, hi, Option.some.injEq] at h
      rw [← h]

theorem OriPriv.getFileInfoFh_setInfo (priv : OriPriv) (fh : Nat) (info : OriFileInfo)
    (h : priv.handles fh = some info.id) : (priv.setInfo info).getFileInfoFh fh = some info := by
  simp [OriPriv.getFileInfoFh, OriPriv.setInfo, h]

theorem OriPriv.getDir_of_dir (priv : OriPriv) (path : String) (info : OriFileInfo)
    (h : priv.getFileInfo path = .ok info) (hd : info.kind = .Dir) :
    priv.getDir path = .ok info.id := by
  simp [OriPriv.getDir, h, hd]

/-! ## The mount adapter: rename of a directory -/

/-- C13, counterexample. In an overlay where `/d` is a directory, `ori_rename`
of `/d` returns `-ENOTEMPTY` onto the directory `/e` that has an entry, `-EISDIR`
onto the regular file `/f` and `-EACCES` onto a path under `/.snapshot`; none of
these is `-EINVAL`. -/
theorem ori_rename_directory_counterexample :
    (samplePriv.getFileInfo "/d").map (fun i => i.kind) = .ok FileKind.Dir ∧
      ori_rename samplePriv "/d" "/e" = .ok (-ENOTEMPTY, samplePriv) ∧
      ori_rename samplePriv "/d" "/f" = .ok (-EISDIR, samplePriv) ∧
      ori_rename samplePriv "/d" "/.snapshot/s/d" = .ok (-EACCES, samplePriv) ∧
      -ENOTEMPTY ≠ -EINVAL ∧ -EISDIR ≠ -EINVAL ∧ -EACCES ≠ -EINVAL := by
  refine ⟨rfl, rfl, rfl, rfl, by decide, by decide, by decide⟩

/-- C13, amended. For every source path that names a directory, `ori_rename`
changes neither the overlay nor the journal and returns an error code: `-EACCES`
when the destination or the source begins with `/.snapshot`; otherwise
`-ENOTEMPTY` when the destination is a directory with entries, `-EISDIR` when the
destination exists and is not a directory, and `-EINVAL` when the destination
does not exist or is an empty directory. -/
theorem ori_rename_directory (priv : OriPriv) (from_path to_path : String) (info : OriFileInfo)
    (hsrc : priv.getFileInfo from_path = .ok info) (hdir : info.kind = .Dir) :
    ori_rename priv from_path to_path =
      .ok (if strncmpEq to_path ORI_SNAPSHOT_DIRPATH = true ∨
              strncmpEq from_path ORI_SNAPSHOT_DIRPATH = true then -EACCES
           else
             match priv.getFileInfo to_path with
             | .error _ => -EINVAL
             | .ok dest =>
               if dest.kind = .Dir then
                 (if (priv.dirs dest.id).entries = [] then -EINVAL else -ENOTEMPTY)
               else -EISDIR, priv) := by
  unfold ori_rename
  by_cases h1 : strncmpEq to_path ORI_SNAPSHOT_DIRPATH = true
  · simp [h1]
  by_cases h2 : strncmpEq from_path ORI_SNAPSHOT_DIRPATH = true
  · simp [h1, h2]
  simp only [h1, h2, hsrc, or_self, if_false, Bool.false_eq_true]
  cases hto : priv.getFileInfo to_path with
  | error e => simp [Except.toOption, hdir]
  | ok dest =>
    by_cases hk : dest.kind = .Dir
    · have hg := OriPriv.getDir_of_dir priv to_path dest hto hk
      by_cases he : (priv.dirs dest.id).entries = []
      · simp [Except.toOption, hk, hg, he, hdir]
      · have hb : (priv.dirs dest.id).entries.isEmpty = false := by
          cases hl : (priv.dirs dest.id).entries with
          | nil => exact absurd hl he
          | cons a l => rfl
        simp [Except.toOption, hk, hg, he, hdir, hb]
    · simp [Except.toOption, hk, hdir]

/-- C13, witness: the directory `/d` of the sample overlay renamed onto `/g`. -/
theorem ori_rename_directory_witness :
    ori_rename samplePriv "/d" "/g" = .ok (-EINVAL, samplePriv) :=
  ori_rename_directory samplePriv "/d" "/g" _ (by rfl) (by rfl)

/-! ## The mount adapter: the Committed and the Dirty state -/

theorem setAttr_ok (priv : OriPriv) (path : String) (f : StatInfo → StatInfo)
    (info : OriFileInfo) (dir : Nat)
    (hc : path ≠ ORI_CONTROL_FILEPATH) (hs : strncmpEq path ORI_SNAPSHOT_DIRPATH = false)
    (hinfo : priv.getFileInfo path = .ok info)
    (hpar : priv.getDir (parentPathOf path) = .ok dir) :
    ∃ p', setAttr priv path f = .ok (0, p') ∧
      p'.getFileInfo path = .ok { info with statInfo := f info.statInfo, type := .Dirty } ∧
      p'.spill = priv.spill ∧ p'.fds = priv.fds := by
  have hid := OriPriv.getFileInfo_id priv path info hinfo
  have hget := OriPriv.getFileInfo_setInfo priv path
    { info with statInfo := f info.statInfo, type := .Dirty } hid
  have hpar1 : (priv.setInfo { info with statInfo := f info.statInfo, type := .Dirty }).getDir
      (parentPathOf path) = .ok dir := by
    unfold OriPriv.getDir OriPriv.getFileInfo at hpar ⊢
    cases hp : priv.paths (parentPathOf path) with
    | none => simp [hp] at hpar
    | some k =>
      by_cases hk : k = info.id
      · subst hk
        unfold OriPriv.getFileInfo at hinfo
        rw [hid] at hinfo
        cases hi : priv.infos info.id with
        | none => simp [hi] at hinfo
        | some i0 =>
          simp only [hi, Except.ok.injEq] at hinfo
          simp only [hp, hi] at hpar
          have hkind : i0.kind = info.kind := by rw [← hinfo]
          simp only [OriPriv.setInfo, hp, Function.update_same]
          simpa [hkind] using hpar
      · simp only [hp] at hpar
        simp only [OriPriv.setInfo, hp, Function.update_noteq hk]
        exact hpar
  refine ⟨(priv.setInfo { info with statInfo := f info.statInfo, type := .Dirty }).setDirDirty dir,
    ?_, ?_, rfl, rfl⟩
  · simp only [setAttr, hc, hs, hinfo, hpar1, if_false, Bool.false_eq_true]
  · exact hget

/-- C14, counterexample. In an overlay where `/f` is a regular file in the
Committed state, `ori_chmod` returns 0 and leaves `/f` Dirty with an empty spill
path, so that the `ori_truncate` that follows fails with `-ENOENT`; `ori_truncate`
on the Committed file itself returns `-EINVAL` (or stops on `ASSERT(false)`) and
leaves the overlay, with `/f` Committed, as it was. -/
theorem committed_mutation_counterexample :
    (samplePriv.getFileInfo "/f").map (fun i => (i.kind, i.type, i.path)) =
        .ok (FileKind.Reg, FileType.Committed, "") ∧
      (∃ p', ori_chmod samplePriv "/f" 0o600 = .ok (0, p') ∧
        (p'.getFileInfo "/f").map (fun i => (i.kind, i.type, i.path)) =
          .ok (FileKind.Reg, FileType.Dirty, "") ∧
        ori_truncate false p' "/f" 10 = .ok (-ENOENT, p')) ∧
      ori_truncate false samplePriv "/f" 10 = .ok (-EINVAL, samplePriv) ∧
      ori_truncate true samplePriv "/f" 10 = .error .AssertionFailed := by
  refine ⟨rfl, ⟨_, rfl, rfl, rfl⟩, rfl, rfl⟩

theorem OriPriv.pwrite_ok (priv : OriPriv) (fd : Int) (size : Nat) (offset : Int) (n : Nat)
    (p2 : OriPriv) (h : priv.pwrite fd size offset = .ok (n, p2)) :
    0 ≤ offset ∧ offset + (size : Int) < 2 ^ 63 ∧ n = min size OriPriv.MAX_RW_COUNT ∧
      p2.infos = priv.infos ∧ p2.handles = priv.handles ∧ p2.paths = priv.paths ∧
      p2.journalLog = priv.journalLog := by
  unfold OriPriv.pwrite at h
  cases hf : priv.fds fd with
  | none => simp [hf] at h
  | some file =>
    simp only [hf] at h
    by_cases hb : offset < 0 ∨ (2 : Int) ^ 63 ≤ offset + (size : Int)
    · rw [if_pos hb] at h
      cases h
    · rw [if_neg hb] at h
      simp only [Except.ok.injEq, Prod.mk.injEq] at h
      obtain ⟨h1, h2⟩ := h
      push_neg at hb
      subst h2
      exact ⟨hb.1, hb.2, h1.symm, rfl, rfl, rfl, rfl⟩

/-- What `ori_write` does on an open file outside the control file and the
snapshot tree: the Dirty mark, the `pwrite`, and the update of the size. -/
theorem ori_write_open (assertOn : Bool) (priv : OriPriv) (path : String) (size : Nat)
    (offset : Int) (fh : Nat) (info : OriFileInfo)
    (hc : path ≠ ORI_CONTROL_FILEPATH) (hs : strncmpEq path ORI_SNAPSHOT_DIRPATH = false)
    (hfh : priv.getFileInfoFh fh = some info) (hk : info.kind ≠ .Dir) :
    ∃ status p' info', ori_write assertOn priv path size offset fh = .ok (status, p') ∧
      p'.getFileInfoFh fh = some info' ∧ info'.type = .Dirty ∧ info'.path = info.path ∧
      info'.fd = info.fd ∧ info'.kind = info.kind ∧
      (0 ≤ status → 0 ≤ offset ∧ offset + (size : Int) < 2 ^ 63 ∧
        info'.statInfo =
          if info.statInfo.st_size < toOffT size + offset then
            { info.statInfo with
              st_size := toOffT (size + toSizeT offset)
              st_blocks := (((size + toSizeT offset + (512 - 1)) % 2 ^ 64 / 512 : Nat) : Int) }
          else info.statInfo) := by
  have hid := OriPriv.getFileInfoFh_id priv fh info hfh
  simp only [ori_write, hc, hs, hfh, hk, if_false, Bool.false_eq_true]
  cases hp : (priv.setInfo { info with type := FileType.Dirty }).pwrite info.fd size offset with
  | error e =>
    refine ⟨-e, _, { info with type := FileType.Dirty }, rfl,
      OriPriv.getFileInfoFh_setInfo priv fh _ hid, rfl, rfl, rfl, rfl, ?_⟩
    intro h0
    exfalso
    unfold OriPriv.pwrite at hp
    cases hf : (priv.setInfo { info with type := FileType.Dirty }).fds info.fd with
    | none =>
      simp only [hf, Except.error.injEq] at hp
      rw [← hp] at h0
      exact absurd h0 (by decide)
    | some file =>
      simp only [hf] at hp
      split at hp
      · simp only [Except.error.injEq] at hp
        rw [← hp] at h0
        exact absurd h0 (by decide)
      · simp at hp
  | ok r =>
    obtain ⟨n, p2⟩ := r
    obtain ⟨h1, h2, _, _, h5, _, _⟩ := OriPriv.pwrite_ok _ _ _ _ _ _ hp
    have hh : p2.handles fh = some info.id := by rw [h5]; exact hid
    by_cases hlt : info.statInfo.st_size < toOffT size + offset
    · simp only [hlt, if_true]
      exact ⟨_, _, _, rfl, OriPriv.getFileInfoFh_setInfo p2 fh _ hh, rfl, rfl, rfl, rfl,
        fun _ => ⟨h1, h2, rfl⟩⟩
    · simp only [hlt, if_false]
      exact ⟨_, _, _, rfl, OriPriv.getFileInfoFh_setInfo p2 fh _ hh, rfl, rfl, rfl, rfl,
        fun _ => ⟨h1, h2, rfl⟩⟩

/-- C14, amended. Of the mutations of a regular file that is in the Committed
state, chmod, chown and utimens (its parent directory being in the overlay) and a
write through an open handle leave it in the Dirty state without materialising a
spill file: its spill path and its descriptor stay what they were, and chmod,
chown and utimens touch no spill file and no descriptor. Truncate and ftruncate
do not change it: they return `-EINVAL`, or stop on `ASSERT(false)` when `ASSERT`
is compiled in, and the file stays Committed. -/
theorem committed_mutation (priv : OriPriv) (path : String) (info : OriFileInfo)
    (mode uid gid size : Nat) (mtime offset length : Int) (assertOn : Bool)
    (hc : path ≠ ORI_CONTROL_FILEPATH) (hs : strncmpEq path ORI_SNAPSHOT_DIRPATH = false)
    (hinfo : priv.getFileInfo path = .ok info)
    (hreg : info.kind = .Reg) (hcom : info.type = .Committed) :
    (∀ dir, priv.getDir (parentPathOf path) = .ok dir →
        (∃ p', ori_chmod priv path mode = .ok (0, p') ∧
          p'.getFileInfo path = .ok
            { info with statInfo := { info.statInfo with st_mode := mode }, type := .Dirty } ∧
          p'.spill = priv.spill ∧ p'.fds = priv.fds) ∧
        (∃ p', ori_chown priv path uid gid = .ok (0, p') ∧
          p'.getFileInfo path = .ok
            { info with
              statInfo := { info.statInfo with st_uid := uid, st_gid := gid }, type := .Dirty } ∧
          p'.spill = priv.spill ∧ p'.fds = priv.fds) ∧
        (∃ p', ori_utimens priv path mtime = .ok (0, p') ∧
          p'.getFileInfo path = .ok
            { info with statInfo := { info.statInfo with st_mtime := mtime }, type := .Dirty } ∧
          p'.spill = priv.spill ∧ p'.fds = priv.fds)) ∧
      (∀ fh, priv.getFileInfoFh fh = some info →
        (∃ status p' info', ori_write assertOn priv path size offset fh = .ok (status, p') ∧
          p'.getFileInfoFh fh = some info' ∧ info'.type = .Dirty ∧ info'.path = info.path ∧
          info'.fd = info.fd) ∧
        ori_ftruncate false priv path length fh = .ok (-EINVAL, priv) ∧
        ori_ftruncate true priv path length fh = .error .AssertionFailed) ∧
      ori_truncate false priv path length = .ok (-EINVAL, priv) ∧
      ori_truncate true priv path length = .error .AssertionFailed := by
  have hk : info.kind ≠ .Dir := by rw [hreg]; decide
  have hnd : info.type ≠ .Dirty := by rw [hcom]; decide
  refine ⟨fun dir hpar => ⟨setAttr_ok priv path _ info dir hc hs hinfo hpar,
    setAttr_ok priv path _ info dir hc hs hinfo hpar,
    setAttr_ok priv path _ info dir hc hs hinfo hpar⟩, fun fh hfh => ⟨?_, ?_, ?_⟩, ?_, ?_⟩
  · obtain ⟨status, p', info', h1, h2, h3, h4, h5, _⟩ :=
      ori_write_open assertOn priv path size offset fh info hc hs hfh hk
    exact ⟨status, p', info', h1, h2, h3, h4, h5⟩
  · simp [ori_ftruncate, hc, hs, hfh, hnd]
  · simp [ori_ftruncate, hc, hs, hfh, hnd]
  · simp [ori_truncate, hc, hs, hinfo, hnd]
  · simp [ori_truncate, hc, hs, hinfo, hnd]

/-- C14, witness: the Committed file `/f` of the sample overlay, open on handle 7,
whose parent directory has the id 0. -/
theorem committed_mutation_witness :
    (∃ p', ori_chmod samplePriv "/f" 0o600 = .ok (0, p') ∧
        p'.getFileInfo "/f" = .ok
          ⟨4, .Reg, { StatInfo.zero with st_mode := 0o600, st_size := 100, st_blocks := 1 },
            "", "", "h4", .Dirty, -1⟩ ∧
        p'.spill = samplePriv.spill ∧ p'.fds = samplePriv.fds) ∧
      ori_ftruncate true samplePriv "/f" 10 7 = .error .AssertionFailed ∧
      ori_truncate false samplePriv "/f" 10 = .ok (-EINVAL, samplePriv) :=
  have h := committed_mutation samplePriv "/f"
    ⟨4, .Reg, { StatInfo.zero with st_size := 100, st_blocks := 1 }, "", "", "h4",
      .Committed, -1⟩ 0o600 0 0 4 0 0 10 true (by decide) (by rfl) (by rfl) (by rfl) (by rfl)
  ⟨(h.1 0 (by rfl)).1, (h.2.1 7 (by rfl)).2.2, h.2.2.1⟩

/-! ## The mount adapter: sizes and block counts -/

theorem ceilDiv512_eq (s : Int) : ceilDiv512 s = (s + 511) / 512 := by
  unfold ceilDiv512
  rw [Int.ceil_eq_iff]
  have h1 := Int.ediv_add_emod (s + 511) 512
  have h2 := Int.emod_nonneg (s + 511) (by decide : (512 : Int) ≠ 0)
  have h3 := Int.emod_lt_of_pos (s + 511) (by decide : (0 : Int) < 512)
  constructor
  · rw [lt_div_iff₀ (by norm_num)]
    have : ((s + 511) / 512 - 1) * 512 < s := by omega
    exact_mod_cast this
  · rw [div_le_iff₀ (by norm_num)]
    have : s ≤ (s + 511) / 512 * 512 := by omega
    exact_mod_cast this

theorem ceilDiv512_tdiv (s : Int) (h : 0 ≤ s) : Int.tdiv (s + (512 - 1)) 512 = ceilDiv512 s := by
  rw [ceilDiv512_eq, Int.tdiv_eq_ediv (by omega) (by decide)]
  rfl

theorem toOffT_of_lt (n : Nat) (h : (n : Int) < 2 ^ 63) : toOffT n = (n : Int) := by
  have h1 : n < 2 ^ 63 := by exact_mod_cast h
  have h2 : n % 2 ^ 64 = n := Nat.mod_eq_of_lt (by omega)
  simp only [toOffT, h2, h1, if_true]

theorem toSizeT_of_nonneg (i : Int) (h0 : 0 ≤ i) (h : i < 2 ^ 63) :
    ((toSizeT i : Nat) : Int) = i := by
  unfold toSizeT
  rw [Int.emod_eq_of_lt h0 (by omega)]
  exact Int.toNat_of_nonneg h0

/-- C15, counterexample. After `ori_chmod` the file `/f` of the sample overlay is
Dirty with a recorded size of 100 and no spill file; `ori_truncate` to length 10
on it returns `-ENOENT` and `ori_ftruncate` through handle 7 returns `-EBADF`,
and both leave the overlay, with the recorded size of 100, as it was. -/
theorem truncate_dirty_counterexample :
    ∃ p', ori_chmod samplePriv "/f" 0o600 = .ok (0, p') ∧
      (p'.getFileInfo "/f").map (fun i => (i.type, i.statInfo.st_size)) =
        .ok (FileType.Dirty, 100) ∧
      (p'.getFileInfoFh 7).map (fun i => (i.type, i.statInfo.st_size)) =
        some (FileType.Dirty, 100) ∧
      ori_truncate true p' "/f" 10 = .ok (-ENOENT, p') ∧
      ori_ftruncate true p' "/f" 10 7 = .ok (-EBADF, p') ∧ (100 : Int) ≠ 10 :=
  ⟨_, rfl, rfl, rfl, rfl, rfl, by decide⟩

theorem OriPriv.truncate_ok (priv : OriPriv) (path : String) (length : Int) (p1 : OriPriv)
    (h : priv.truncate path length = .ok p1) :
    0 ≤ length ∧ p1.paths = priv.paths ∧ p1.handles = priv.handles := by
  unfold OriPriv.truncate at h
  cases hsp : priv.spill path with
  | none => simp [hsp] at h
  | some sz =>
    simp only [hsp] at h
    by_cases hl : length < 0
    · rw [if_pos hl] at h
      cases h
    · rw [if_neg hl] at h
      simp only [Except.ok.injEq] at h
      subst h
      exact ⟨by omega, rfl, rfl⟩

theorem OriPriv.truncate_error (priv : OriPriv) (path : String) (length e : Int)
    (h : priv.truncate path length = .error e) : -e < 0 := by
  unfold OriPriv.truncate at h
  cases hsp : priv.spill path with
  | none =>
    simp only [hsp, Except.error.injEq] at h
    rw [← h]
    decide
  | some sz =>
    simp only [hsp] at h
    by_cases hl : length < 0
    · rw [if_pos hl] at h
      simp only [Except.error.injEq] at h
      rw [← h]
      decide
    · rw [if_neg hl] at h
      cases h

theorem OriPriv.ftruncate_ok (priv : OriPriv) (fd length : Int) (p1 : OriPriv)
    (h : priv.ftruncate fd length = .ok p1) :
    0 ≤ length ∧ p1.paths = priv.paths ∧ p1.handles = priv.handles := by
  unfold OriPriv.ftruncate at h
  cases hsp : priv.fds fd with
  | none => simp [hsp] at h
  | some file =>
    simp only [hsp] at h
    by_cases hl : length < 0
    · rw [if_pos hl] at h
      cases h
    · rw [if_neg hl] at h
      simp only [Except.ok.injEq] at h
      subst h
      exact ⟨by omega, rfl, rfl⟩

theorem OriPriv.ftruncate_error (priv : OriPriv) (fd length e : Int)
    (h : priv.ftruncate fd length = .error e) : -e < 0 := by
  unfold OriPriv.ftruncate at h
  cases hsp : priv.fds fd with
  | none =>
    simp only [hsp, Except.error.injEq] at h
    rw [← h]
    decide
  | some file =>
    simp only [hsp] at h
    by_cases hl : length < 0
    · rw [if_pos hl] at h
      simp only [Except.error.injEq] at h
      rw [← h]
      decide
    · rw [if_neg hl] at h
      cases h

theorem ori_write_success (assertOn : Bool) (priv : OriPriv) (path : String) (size : Nat)
    (offset : Int) (fh : Nat) (info : OriFileInfo) (status : Int) (p' : OriPriv)
    (hfh : priv.getFileInfoFh fh = some info)
    (hret : ori_write assertOn priv path size offset fh = .ok (status, p'))
    (h0 : 0 ≤ status) :
    ∃ info', p'.getFileInfoFh fh = some info' ∧ info'.type = .Dirty ∧
      info'.statInfo.st_size = max info.statInfo.st_size (offset + (size : Int)) ∧
      (info.statInfo.st_blocks = ceilDiv512 info.statInfo.st_size →
        info'.statInfo.st_blocks = ceilDiv512 info'.statInfo.st_size) := by
  have hc : path ≠ ORI_CONTROL_FILEPATH := by
    intro h
    simp only [ori_write, h, if_true, Except.ok.injEq, Prod.mk.injEq] at hret
    rw [← hret.1] at h0
    exact absurd h0 (by decide)
  have hs : strncmpEq path ORI_SNAPSHOT_DIRPATH = false := by
    cases hs : strncmpEq path ORI_SNAPSHOT_DIRPATH with
    | false => rfl
    | true =>
      simp only [ori_write, hc, hs, if_true, if_false] at hret
      cases assertOn with
      | true => simp at hret
      | false =>
        simp only [Bool.false_eq_true, if_false, Except.ok.injEq, Prod.mk.injEq] at hret
        rw [← hret.1] at h0
        exact absurd h0 (by decide)
  have hk : info.kind ≠ .Dir := by
    intro h
    simp only [ori_write, hc, hs, hfh, h, if_true, if_false, Bool.false_eq_true,
      Except.ok.injEq, Prod.mk.injEq] at hret
    rw [← hret.1] at h0
    exact absurd h0 (by decide)
  obtain ⟨s2, p2, info', e, g, t, _, _, _, hst⟩ :=
    ori_write_open assertOn priv path size offset fh info hc hs hfh hk
  rw [hret] at e
  simp only [Except.ok.injEq, Prod.mk.injEq] at e
  obtain ⟨e1, e2⟩ := e
  subst e1
  subst e2
  obtain ⟨o1, o2, hstat⟩ := hst h0
  have hsz : toOffT size = (size : Int) := toOffT_of_lt size (by omega)
  have hoff := toSizeT_of_nonneg offset o1 (by omega)
  have hsum : toOffT (size + toSizeT offset) = (size : Int) + offset := by
    rw [toOffT_of_lt _ (by push_cast; omega)]
    push_cast
    omega
  refine ⟨info', g, t, ?_, ?_⟩
  · rw [hstat]
    by_cases hlt : info.statInfo.st_size < toOffT size + offset
    · rw [if_pos hlt]
      simp only [hsum]
      rw [hsz] at hlt
      rw [max_eq_right (by omega)]
      omega
    · rw [if_neg hlt]
      rw [hsz] at hlt
      rw [max_eq_left (by omega)]
  · intro hinv
    rw [hstat]
    by_cases hlt : info.statInfo.st_size < toOffT size + offset
    · rw [if_pos hlt]
      simp only [hsum]
      rw [ceilDiv512_eq]
      have hlt64 : size + toSizeT offset + (512 - 1) < 2 ^ 64 := by
        have : ((size + toSizeT offset + (512 - 1) : Nat) : Int) < 2 ^ 64 := by
          push_cast
          omega
        exact_mod_cast this
      rw [Nat.mod_eq_of_lt hlt64]
      push_cast
      rw [hoff]
    · rw [if_neg hlt]
      exact hinv

/-- C15, amended. After an `ori_write` of `size` bytes at `offset` that succeeds
(returns a value that is not negative), the file is marked Dirty and its recorded
size is the larger of the previous size and `offset + size`; if the block count
was the ceiling of the recorded size over 512 before the call, it is so after the
call. An `ori_truncate` or `ori_ftruncate` to `length` on a Dirty file that
succeeds (returns 0) sets the recorded size to `length` and the block count to
the ceiling of `length` over 512; one that returns an error code leaves the
overlay as it was. -/
theorem write_truncate_size (assertOn : Bool) (priv : OriPriv) (path : String) (fh : Nat)
    (info : OriFileInfo) (size : Nat) (offset length : Int) :
    (∀ status p', priv.getFileInfoFh fh = some info →
        ori_write assertOn priv path size offset fh = .ok (status, p') → 0 ≤ status →
        ∃ info', p'.getFileInfoFh fh = some info' ∧ info'.type = .Dirty ∧
          info'.statInfo.st_size = max info.statInfo.st_size (offset + (size : Int)) ∧
          (info.statInfo.st_blocks = ceilDiv512 info.statInfo.st_size →
            info'.statInfo.st_blocks = ceilDiv512 info'.statInfo.st_size)) ∧
      (∀ c p', priv.getFileInfo path = .ok info → info.type = .Dirty →
        ori_truncate assertOn priv path length = .ok (c, p') →
        (c = 0 ∧ p'.getFileInfo path = .ok
            { info with
              statInfo := { info.statInfo with
                st_size := length, st_blocks := ceilDiv512 length } }) ∨
          (c < 0 ∧ p' = priv)) ∧
      (∀ c p', priv.getFileInfoFh fh = some info → info.type = .Dirty →
        ori_ftruncate assertOn priv path length fh = .ok (c, p') →
        (c = 0 ∧ p'.getFileInfoFh fh = some
            { info with
              statInfo := { info.statInfo with
                st_size := length, st_blocks := ceilDiv512 length } }) ∨
          (c < 0 ∧ p' = priv)) := by
  refine ⟨fun status p' hfh hret h0 =>
    ori_write_success assertOn priv path size offset fh info status p' hfh hret h0, ?_, ?_⟩
  · intro c p' hinfo hd hret
    unfold ori_truncate at hret
    by_cases hc : path = ORI_CONTROL_FILEPATH
    · simp only [hc, if_true, Except.ok.injEq, Prod.mk.injEq] at hret
      exact Or.inr ⟨by rw [← hret.1]; decide, hret.2.symm⟩
    cases hs : strncmpEq path ORI_SNAPSHOT_DIRPATH with
    | true =>
      simp only [hc, hs, if_true, if_false, Except.ok.injEq, Prod.mk.injEq] at hret
      exact Or.inr ⟨by rw [← hret.1]; decide, hret.2.symm⟩
    | false =>
      simp only [hc, hs, hinfo, eq_true hd, if_true, if_false, Bool.false_eq_true] at hret
      cases ht : priv.truncate info.path length with
      | error e =>
        simp only [ht, Except.ok.injEq, Prod.mk.injEq] at hret
        exact Or.inr ⟨by rw [← hret.1]; exact OriPriv.truncate_error _ _ _ _ ht, hret.2.symm⟩
      | ok p1 =>
        simp only [ht, Except.ok.injEq, Prod.mk.injEq] at hret
        obtain ⟨hl, hp, _⟩ := OriPriv.truncate_ok _ _ _ _ ht
        have hid : p1.paths path = some info.id := by
          rw [hp]
          exact OriPriv.getFileInfo_id priv path info hinfo
        refine Or.inl ⟨hret.1.symm, ?_⟩
        rw [← hret.2, ceilDiv512_tdiv length hl]
        exact OriPriv.getFileInfo_setInfo p1 path _ hid
  · intro c p' hfh hd hret
    unfold ori_ftruncate at hret
    by_cases hc : path = ORI_CONTROL_FILEPATH
    · simp only [hc, if_true, Except.ok.injEq, Prod.mk.injEq] at hret
      exact Or.inr ⟨by rw [← hret.1]; decide, hret.2.symm⟩
    cases hs : strncmpEq path ORI_SNAPSHOT_DIRPATH with
    | true =>
      simp only [hc, hs, if_true, if_false] at hret
      cases assertOn with
      | true => simp at hret
      | false =>
        simp only [Bool.false_eq_true, if_false, Except.ok.injEq, Prod.mk.injEq] at hret
        exact Or.inr ⟨by rw [← hret.1]; decide, hret.2.symm⟩
    | false =>
      simp only [hc, hs, hfh, eq_true hd, if_true, if_false, Bool.false_eq_true] at hret
      cases ht : priv.ftruncate info.fd length with
      | error e =>
        simp only [ht, Except.ok.injEq, Prod.mk.injEq] at hret
        exact Or.inr ⟨by rw [← hret.1]; exact OriPriv.ftruncate_error _ _ _ _ ht, hret.2.symm⟩
      | ok p1 =>
        simp only [ht, Except.ok.injEq, Prod.mk.injEq] at hret
        obtain ⟨hl, _, hp⟩ := OriPriv.ftruncate_ok _ _ _ _ ht
        have hid : p1.handles fh = some info.id := by
          rw [hp]
          exact OriPriv.getFileInfoFh_id priv fh info hfh
        refine Or.inl ⟨hret.1.symm, ?_⟩
        rw [← hret.2, ceilDiv512_tdiv length hl]
        exact OriPriv.getFileInfoFh_setInfo p1 fh _ hid

/-- C15, witness: on the Dirty file `/w` of 100 bytes, open on handle 0, a write
of 50 bytes at offset 80 succeeds and gives the size 130; a truncate to 1000
succeeds and gives the size 1000. -/
theorem write_truncate_size_witness :
    (∃ p' info', ori_write true dirtyPriv "/w" 50 80 0 = .ok (50, p') ∧
        p'.getFileInfoFh 0 = some info' ∧ info'.type = .Dirty ∧
        info'.statInfo.st_size = 130) ∧
      (∃ p' info', ori_truncate true dirtyPriv "/w" 1000 = .ok (0, p') ∧
        p'.getFileInfo "/w" = .ok info' ∧ info'.statInfo.st_size = 1000 ∧
        info'.statInfo.st_blocks = ceilDiv512 1000) :=
  have hd : dirtyPriv.getFileInfoFh 0 = some ⟨1, .Reg,
      { StatInfo.zero with st_size := 100, st_blocks := 1 }, "", "/repo/.ori/tmp/1", "",
      .Dirty, 3⟩ := rfl
  have hw : ori_write true dirtyPriv "/w" 50 80 0 = .ok (50, _) := rfl
  have ht : ori_truncate true dirtyPriv "/w" 1000 = .ok (0, _) := rfl
  have h := write_truncate_size true dirtyPriv "/w" 0 _ 50 80 1000
  ⟨⟨_, (h.1 50 _ hd hw (by decide)).choose, hw, (h.1 50 _ hd hw (by decide)).choose_spec.1,
      (h.1 50 _ hd hw (by decide)).choose_spec.2.1,
      (h.1 50 _ hd hw (by decide)).choose_spec.2.2.1⟩,
    ⟨_, _, ht, (h.2.1 0 _ rfl rfl ht).elim (fun x => x.2) (fun x => absurd x.1 (by decide)), rfl, rfl⟩⟩

/-! ## The mount adapter: rmdir and the control file -/

/-- C16. For a directory of the overlay outside the snapshot tree: while it has
entries, `ori_rmdir` returns `-ENOTEMPTY` and leaves the overlay, so the
directory and the journal, as it was. When it has none, `ori_rmdir` returns 0 and
the directory is removed: the path is no longer in the overlay while every other
path names what it named; in the directory that held it the entries are the old
ones without its name, which is no longer listed, and that directory is dirty;
every other directory, the objects, the handles, the allocators, the root path
and the spill files are as they were; and the journal has the one new line
`rmdir` with the path. -/
theorem ori_rmdir_correct (priv : OriPriv) (path : String) (dir : Nat)
    (hs : strncmpEq path ORI_SNAPSHOT_DIRPATH = false)
    (hdir : priv.getDir path = .ok dir) :
    ((priv.dirs dir).entries ≠ [] → ori_rmdir priv path = .ok (-ENOTEMPTY, priv)) ∧
      ((priv.dirs dir).entries = [] →
        ∃ p', ori_rmdir priv path = .ok (0, p') ∧
          p'.paths = Function.update priv.paths path none ∧
          p'.getFileInfo path = .error ENOENT ∧ p'.getDir path = .error ENOENT ∧
          (∀ parent, priv.getDir (parentPathOf path) = .ok parent →
            (p'.dirs parent).entries =
                (priv.dirs parent).entries.filter (fun e => e.1 ≠ OriFile_Basename path) ∧
              (∀ e ∈ (p'.dirs parent).entries, e.1 ≠ OriFile_Basename path) ∧
              (p'.dirs parent).dirty = true ∧
              ∀ d, d ≠ parent → p'.dirs d = priv.dirs d) ∧
          ((∀ parent, priv.getDir (parentPathOf path) ≠ .ok parent) → p'.dirs = priv.dirs) ∧
          p'.infos = priv.infos ∧ p'.handles = priv.handles ∧ p'.nextId = priv.nextId ∧
          p'.nextFh = priv.nextFh ∧ p'.rootPath = priv.rootPath ∧ p'.spill = priv.spill ∧
          p'.fds = priv.fds ∧
          p'.journalLog = priv.journalLog ++ [("rmdir", path)]) := by
  constructor
  · intro hne
    have hb : (priv.dirs dir).entries.isEmpty = false := by
      cases hl : (priv.dirs dir).entries with
      | nil => exact absurd hl hne
      | cons a l => rfl
    simp [ori_rmdir, hs, hdir, hb]
  · intro he
    have hp : ((priv.rmDir path).journal "rmdir" path).paths path = none := by
      simp [OriPriv.rmDir, OriPriv.journal]
    refine ⟨(priv.rmDir path).journal "rmdir" path, ?_, rfl, ?_, ?_, ?_, ?_, ?_⟩
    · simp [ori_rmdir, hs, hdir, he]
    · simp only [OriPriv.getFileInfo, hp]
    · simp only [OriPriv.getDir, OriPriv.getFileInfo, hp]
    · intro parent hparent
      have hd : ((priv.rmDir path).journal "rmdir" path).dirs =
          Function.update priv.dirs parent
            { entries := (priv.dirs parent).entries.filter
                (fun e => e.1 ≠ OriFile_Basename path),
              dirty := true } := by
        simp only [OriPriv.rmDir, OriPriv.journal, OriPriv.dirRemove, hparent]
      rw [hd]
      refine ⟨by simp, ?_, by simp, ?_⟩
      · intro e hmem
        simp only [Function.update_same, List.mem_filter, decide_eq_true_eq] at hmem
        exact hmem.2
      · intro d hne
        exact Function.update_noteq hne _ _
    · intro hno
      unfold OriPriv.rmDir OriPriv.journal OriPriv.dirRemove
      cases hg : priv.getDir (parentPathOf path) with
      | error e => rfl
      | ok parent => exact absurd hg (hno parent)
    · unfold OriPriv.rmDir OriPriv.journal OriPriv.dirRemove
      cases priv.getDir (parentPathOf path) <;> exact ⟨rfl, rfl, rfl, rfl, rfl, rfl, rfl, rfl⟩

/-- C16, witness: in the sample overlay `/e` has an entry and `/d` has none; after
`ori_rmdir` of `/d` the root directory lists `e` and `f` and is dirty, and the
directory `/e` is as it was. -/
theorem ori_rmdir_correct_witness :
    ori_rmdir samplePriv "/e" = .ok (-ENOTEMPTY, samplePriv) ∧
      ∃ p', ori_rmdir samplePriv "/d" = .ok (0, p') ∧ p'.paths "/d" = none ∧
        p'.paths "/e" = some 2 ∧ p'.getFileInfo "/d" = .error ENOENT ∧
        p'.getDir "/d" = .error ENOENT ∧
        p'.dirs 0 = ⟨[("e", 2), ("f", 4)], true⟩ ∧ p'.dirs 2 = ⟨[("x", 3)], false⟩ ∧
        p'.journalLog = [("rmdir", "/d")] := by
  refine ⟨(ori_rmdir_correct samplePriv "/e" 2 (by rfl) (by rfl)).1 (by decide), ?_⟩
  obtain ⟨p', h0, hpaths, hfi, hgd, hpar, _, _, _, _, _, _, _, _, hj⟩ :=
    (ori_rmdir_correct samplePriv "/d" 1 (by rfl) (by rfl)).2 (by rfl)
  obtain ⟨hent, _, hdirty, hother⟩ := hpar 0 (by rfl)
  refine ⟨p', h0, by rw [hpaths]; rfl, by rw [hpaths]; rfl, hfi, hgd, ?_, ?_, by rw [hj]; rfl⟩
  · have h1 : (p'.dirs 0).entries = [("e", 2), ("f", 4)] := by rw [hent]; rfl
    cases hd : p'.dirs 0 with
    | mk entries dirty =>
      rw [hd] at h1 hdirty
      simp only at h1 hdirty
      rw [h1, hdirty]
  · rw [hother 2 (by decide)]; rfl

/-- C17. For a repository root path shorter than 2^31 characters: `ori_read` on
`/.ori_control` with offset 0 and a size of at least the length of the root path
puts the root path at the start of the buffer, leaves the rest of the buffer as
it was, and returns the length of the root path, which is the `st_size` that
`ori_getattr` reports for `/.ori_control`; with another offset or a smaller size
it returns `-EIO` and leaves the buffer as it was. -/
theorem ori_read_control
    (readOther : OriPriv → String → List Char → Nat → Int → Nat → Int × List Char)
    (attrOther : OriPriv → String → Int × StatInfo) (euid egid : Nat)
    (priv : OriPriv) (buf : List Char) (size : Nat) (offset : Int) (fh : Nat)
    (hlen : priv.rootPath.length < 2 ^ 31) :
    (offset = 0 → priv.rootPath.length ≤ size →
        ori_read readOther priv ORI_CONTROL_FILEPATH buf size offset fh =
          ((priv.rootPath.length : Int), priv.rootPath.data ++ buf.drop priv.rootPath.length) ∧
        (ori_read readOther priv ORI_CONTROL_FILEPATH buf size offset fh).1 =
          (ori_getattr attrOther euid egid priv ORI_CONTROL_FILEPATH).2.st_size) ∧
      (offset ≠ 0 ∨ size < priv.rootPath.length →
        ori_read readOther priv ORI_CONTROL_FILEPATH buf size offset fh = (- EIO, buf)) := by
  constructor
  · intro ho hsz
    have hnot : ¬ (offset ≠ 0 ∨ size < priv.rootPath.length) := by
      push_neg
      exact ⟨ho, hsz⟩
    have hlt : ¬ size < priv.rootPath.length := by omega
    have h32 : toInt32 priv.rootPath.length = (priv.rootPath.length : Int) :=
      toInt32_of_lt _ hlen
    have h64 : toSizeT (priv.rootPath.length : Int) = priv.rootPath.length :=
      toSizeT_natCast _ (by omega)
    have hread : ori_read readOther priv ORI_CONTROL_FILEPATH buf size offset fh =
        ((priv.rootPath.length : Int),
          priv.rootPath.data ++ buf.drop priv.rootPath.length) := by
      simp only [ori_read, if_true, if_neg hnot, if_neg hlt, h32, h64, memcpy]
      rw [String.length, List.take_length]
    refine ⟨hread, ?_⟩
    rw [hread]
    simp [ori_getattr]
  · intro h
    simp only [ori_read, if_true, if_pos h]

/-- C17, witness: the sample overlay, whose root path is `/repo`, read into a
buffer of eight characters. -/
theorem ori_read_control_witness :
    ori_read (fun _ _ b _ _ _ => (0, b)) samplePriv "/.ori_control" "????????".data 8 0 0 =
        (5, "/repo???".data) ∧
      ori_read (fun _ _ b _ _ _ => (0, b)) samplePriv "/.ori_control" "????????".data 4 0 0 =
        (- EIO, "????????".data) :=
  have h := ori_read_control (fun _ _ b _ _ _ => (0, b)) (fun _ _ => (0, StatInfo.zero)) 0 0
    samplePriv "????????".data
  ⟨((h 8 0 0 (by decide)).1 rfl (by decide)).1, (h 4 0 0 (by decide)).2 (Or.inr (by decide))⟩

/-! ## The commit codec: what a decode depends on, and injectivity -/

theorem Commit.getBlob_ok (DEBUG : Bool) (c : Commit) (b : Bytes)
    (h : c.getBlob DEBUG = .ok b) : b = c.canonicalBytes := by
  rw [Commit.getBlob_cases] at h
  split at h
  · cases h
  · simp only [Except.ok.injEq] at h
    exact h.symm

theorem Commit.canonicalBytes_injective (c1 c2 : Commit) (h1 : c1.stringsFit)
    (h2 : c2.stringsFit) (h : c1.canonicalBytes = c2.canonicalBytes) : c1 = c2 := by
  have d1 := Commit.fromBlob_canonical false (Commit.new TimeT.zero) c1 [] h1
  have d2 := Commit.fromBlob_canonical false (Commit.new TimeT.zero) c2 [] h2
  rw [List.append_nil, Commit.decodedInto_new] at d1 d2
  simp only [Bool.false_and, Bool.false_eq_true, if_false] at d1 d2
  rw [h, d2] at d1
  simp only [Except.ok.injEq] at d1
  exact d1.symm

set_option maxRecDepth 100000 in
/-- C30, the code at the failing input. The canonical bytes of a commit with one
parent have the count byte 1. Decoded into a freshly constructed commit they give
that commit, with an empty `parent2`; decoded into an object that held a commit
with two parents they give a commit whose `parent2` is still the second parent of
the earlier commit. The two results differ. -/
theorem Commit.fromBlob_keeps_parent2 :
    singleParentCommit.getBlob false = .ok singleParentCommit.canonicalBytes ∧
      singleParentCommit.canonicalBytes[32]? = some 1 ∧
      Commit.fromBlob false (Commit.new TimeT.zero) singleParentCommit.canonicalBytes =
        .ok singleParentCommit ∧
      Commit.fromBlob false sampleGraftCommit singleParentCommit.canonicalBytes =
        .ok { singleParentCommit with parents := (ObjectHash.fill 1, ObjectHash.fill 2) } ∧
      (ObjectHash.fill 2).isEmpty = false ∧
      singleParentCommit ≠
        { singleParentCommit with parents := (ObjectHash.fill 1, ObjectHash.fill 2) } := by
  have d1 := Commit.fromBlob_canonical false (Commit.new TimeT.zero) singleParentCommit []
    (by decide)
  have d2 := Commit.fromBlob_canonical false sampleGraftCommit singleParentCommit [] (by decide)
  rw [List.append_nil] at d1 d2
  rw [Commit.decodedInto_new] at d1
  simp only [Bool.false_and, Bool.false_eq_true, if_false] at d1 d2
  refine ⟨?_, by decide, d1, ?_, by decide, by decide⟩
  · rw [Commit.getBlob_cases]
    simp only [Bool.false_and, Bool.false_eq_true, if_false]
  · rw [d2]
    decide

/-- C26. On commits whose five strings are each shorter than `2 ^ 32` bytes,
`getBlob` is injective: two commits for which it returns the same bytes are equal
in every field, so two different commits have different canonical bytes; and two
commits with the same `hash()` are equal, or else the digest function gives one
value for their two different blobs. -/
theorem Commit.getBlob_injective (Util_HashString : Bytes → ObjectHash) (DEBUG : Bool)
    (c1 c2 : Commit) (b1 b2 : Bytes) (h1 : c1.stringsFit) (h2 : c2.stringsFit)
    (e1 : c1.getBlob DEBUG = .ok b1) (e2 : c2.getBlob DEBUG = .ok b2) :
    (b1 = b2 → c1 = c2) ∧ (c1 ≠ c2 → b1 ≠ b2) ∧
      c1.hash Util_HashString DEBUG = .ok (Util_HashString b1) ∧
      c2.hash Util_HashString DEBUG = .ok (Util_HashString b2) ∧
      (c1.hash Util_HashString DEBUG = c2.hash Util_HashString DEBUG →
        c1 = c2 ∨ (b1 ≠ b2 ∧ Util_HashString b1 = Util_HashString b2)) := by
  have inj : b1 = b2 → c1 = c2 := by
    intro h
    apply Commit.canonicalBytes_injective c1 c2 h1 h2
    rw [← Commit.getBlob_ok DEBUG c1 b1 e1, ← Commit.getBlob_ok DEBUG c2 b2 e2, h]
  have hh1 : c1.hash Util_HashString DEBUG = .ok (Util_HashString b1) := by
    simp only [Commit.hash, e1]
  have hh2 : c2.hash Util_HashString DEBUG = .ok (Util_HashString b2) := by
    simp only [Commit.hash, e2]
  refine ⟨inj, fun hne hb => hne (inj hb), hh1, hh2, ?_⟩
  intro hh
  rw [hh1, hh2] at hh
  simp only [Except.ok.injEq] at hh
  by_cases hb : b1 = b2
  · exact Or.inl (inj hb)
  · exact Or.inr ⟨hb, hh⟩

set_option maxRecDepth 100000 in
/-- C26, witness: a commit with one parent and a merge commit with a graft, in a
DEBUG build, have different canonical bytes. -/
theorem Commit.getBlob_injective_witness :
    singleParentCommit.canonicalBytes ≠ sampleGraftCommit.canonicalBytes :=
  (Commit.getBlob_injective lengthDigest true singleParentCommit sampleGraftCommit
    singleParentCommit.canonicalBytes sampleGraftCommit.canonicalBytes (by decide) (by decide)
    (by rw [Commit.getBlob_cases]; rfl) (by rw [Commit.getBlob_cases]; rfl)).2.1 (by decide)

/-! ## The mount adapter: the reach of the snapshot guard -/

/-- C27, the code at the failing input. `/.snapshots` and `/.snapshot2/f` are not
in the tree `/.snapshot`, yet the guard matches them: `ori_mkdir`, `ori_create`,
`ori_unlink` and `ori_rename` answer `-EACCES` and leave the overlay as it was,
while the same calls on `/snapshots` are carried out. -/
theorem snapshot_guard_reach :
    strncmpEq "/.snapshots" ORI_SNAPSHOT_DIRPATH = true ∧
      strncmpEq "/.snapshot2/f" ORI_SNAPSHOT_DIRPATH = true ∧
      ori_mkdir emptyPriv "/.snapshots" 0o755 = .ok (-EACCES, emptyPriv) ∧
      ori_create emptyPriv "/.snapshots" 0o644 0 = .ok (-EACCES, emptyPriv, 0) ∧
      ori_create emptyPriv "/.snapshot2/f" 0o644 0 = .ok (-EACCES, emptyPriv, 0) ∧
      ori_unlink samplePriv "/.snapshots" = .ok (-EACCES, samplePriv) ∧
      ori_rename samplePriv "/f" "/.snapshots" = .ok (-EACCES, samplePriv) ∧
      ori_rename samplePriv "/.snapshot2/f" "/g" = .ok (-EACCES, samplePriv) ∧
      (∃ p', ori_mkdir emptyPriv "/snapshots" 0o755 = .ok (0, p')) ∧
      (∃ p' fh, ori_create emptyPriv "/snapshots" 0o644 0 = .ok (0, p', fh)) ∧
      (∃ p', ori_rename samplePriv "/f" "/snapshots" = .ok (0, p')) ∧
      ori_unlink samplePriv "/snapshots" = .ok (-ENOENT, samplePriv) := by
  refine ⟨rfl, rfl, rfl, rfl, rfl, rfl, rfl, rfl, ⟨_, rfl⟩, ⟨_, _, rfl⟩, ⟨_, rfl⟩,
    rfl⟩

/-! ## Commands called with a wrong number of arguments -/

theorem rebuildrefsLoop_out (assertOn : Bool) (env : RebuildRefsEnv)
    (refs : List (String × List String)) (ops : List MetadataOp) (out : List String) :
    rebuildrefsLoop assertOn env refs ops out =
      (rebuildrefsLoop assertOn env refs ops []).map (fun r => (r.1, r.2.1, out ++ r.2.2)) := by
  induction refs generalizing ops out with
  | nil => simp [rebuildrefsLoop, Except.map]
  | cons it rest ih =>
    unfold rebuildrefsLoop
    by_cases h0 : it.1 = env.EMPTY_COMMIT
    · simp only [h0, if_true]
      exact ih ops out
    · simp only [h0, if_false]
      cases ho : env.openObject it.1 with
      | none => simp [Except.map]
      | some type =>
        simp only []
        split
        · exact ih _ out
        · split
          · exact ih _ out
          · split
            · simp [Except.map]
            · exact ih ops out

/-- The five commands that check the number of their arguments: with a wrong
number each returns 1 and leaves what it works on as it was. -/
theorem wrong_argc_checked {σ τ : Type} (env : InitEnv) (fs : DiskFs)
    (getObjectType : σ → String → Option ObjectType)
    (purgeObject : σ → String → Bool × σ) (store : σ)
    (init : World → String → Int × World)
    (pull : RepoState → RepoState → PullResult) (w : World) (openRepo : String → RepoState)
    (repository : RepoState) (realPath findRoot : String → String)
    (graftSubtree : τ → String → String → String → String → τ) (g : τ)
    (argv : List String) :
    (argv.length ≠ 1 → argv.length ≠ 2 → cmd_init env argv fs = (1, fs)) ∧
      (argv.length ≠ 2 → cmd_purgeobj getObjectType purgeObject argv store = (1, store, [])) ∧
      (argv.length ≠ 2 → argv.length ≠ 3 → cmd_clone init pull argv w = (1, w)) ∧
      (argv.length ≠ 2 → cmd_pull pull openRepo argv repository = (1, repository)) ∧
      (argv.length ≠ 3 →
        (cmd_graft realPath findRoot graftSubtree argv g).1 = 1 ∧
          (cmd_graft realPath findRoot graftSubtree argv g).2.1 = g) := by
  match argv with
  | [] => simp [cmd_init, cmd_purgeobj, cmd_clone, cmd_pull, cmd_graft]
  | [_] => simp [cmd_init, cmd_purgeobj, cmd_clone, cmd_pull, cmd_graft]
  | [_, _] => simp [cmd_init, cmd_purgeobj, cmd_clone, cmd_pull, cmd_graft]
  | [_, _, _] => simp [cmd_init, cmd_purgeobj, cmd_clone, cmd_pull, cmd_graft]
  | _ :: _ :: _ :: _ :: _ => simp [cmd_init, cmd_purgeobj, cmd_clone, cmd_pull, cmd_graft]

/-- C22, the code at the failing input. `cmd_rebuildrefs` prints its usage text
when it has arguments and then goes on as if it had none: the exit status and the
changes it makes to the object files are those of the call without arguments, and
`ori rebuildrefs extra` on a repository with a commit and its tree rewrites the
metadata of both and returns 0. `cmd_refcount` returns 0 for every argument list,
also for `ori refcount a b`, where it prints its usage text. -/
theorem wrong_argc_rebuildrefs_refcount :
    (∀ (assertOn : Bool) (env : RebuildRefsEnv) (argv : List String),
        (cmd_rebuildrefs assertOn env argv).map (fun r => (r.1, r.2.1)) =
          (cmd_rebuildrefs assertOn env ["rebuildrefs"]).map (fun r => (r.1, r.2.1))) ∧
      cmd_rebuildrefs true sampleRebuildRefsEnv ["rebuildrefs", "extra"] =
        .ok (0, [.clearMetadata "c1", .clearMetadata "t1", .addBackref "t1" "c1" .BRRef],
          ["rebuildrefs takes no arguements!", "Usage: ori rebuildrefs"]) ∧
      (∀ (getRefCounts : List (String × List (String × BRState)))
        (getRefs : String → List (String × BRState)) (argv : List String),
        (cmd_refcount getRefCounts getRefs argv).1 = 0) ∧
      cmd_refcount [] (fun _ => []) ["refcount", "a", "b"] =
        (0, ["Invalid number of arguements.", "ori refcount [OBJID]"]) := by
  refine ⟨?_, by decide, ?_, by decide⟩
  · intro assertOn env argv
    unfold cmd_rebuildrefs
    rw [rebuildrefsLoop_out assertOn env env.computeRefCounts []
      (if argv.length ≠ 1 then ["rebuildrefs takes no arguements!", "Usage: ori rebuildrefs"]
        else [])]
    rw [rebuildrefsLoop_out assertOn env env.computeRefCounts []
      (if ["rebuildrefs"].length ≠ 1 then
        ["rebuildrefs takes no arguements!", "Usage: ori rebuildrefs"] else [])]
    cases rebuildrefsLoop assertOn env env.computeRefCounts [] [] <;> rfl
  · intro getRefCounts getRefs argv
    unfold cmd_refcount
    split <;> rfl

/-! ## Mount options of `mount_ori` -/

theorem memset_zero_count (s : Bytes) (c : Int) : memset s c 0 = s := by
  simp [memset]

theorem memset_full (s : Bytes) : memset s 0 s.length = List.replicate s.length 0 := by
  simp [memset, byteOfNat]

/-- C28, the code at the failing input. The call is `memset(conf, sizeof(...), 0)`:
its count is 0, so `mount_ori_parse_opt` hands the structure to `fuse_opt_parse`
byte for byte as it was. On a structure of sixteen bytes `0xAA` and arguments
without a `repo=` or `clone=` option, `repo_path` and `clone_path` are not null
afterwards, whereas `memset(conf, 0, sizeof(...))` gives a structure of zero
bytes. -/
theorem mount_ori_parse_opt_no_zero_fill :
    (∀ (sizeofConfig : Nat)
        (fuse_opt_parse : List String → Bytes → Int × List String × Bytes)
        (args : List String) (conf : Bytes),
        mount_ori_parse_opt sizeofConfig fuse_opt_parse args conf =
          ((fuse_opt_parse args conf).2.1, (fuse_opt_parse args conf).2.2)) ∧
      mount_ori_parse_opt 16 fuseOptParseNoMatch ["mount_ori", "/mnt"]
          (List.replicate 16 0xAA) = (["mount_ori", "/mnt"], List.replicate 16 0xAA) ∧
      repo_path 0 (List.replicate 16 0xAA) ≠ 0 ∧ clone_path 8 (List.replicate 16 0xAA) ≠ 0 ∧
      mount_ori_parse_opt 16 fuseOptParseNoMatch ["mount_ori", "/mnt"] (List.replicate 16 0) ≠
        mount_ori_parse_opt 16 fuseOptParseNoMatch ["mount_ori", "/mnt"]
          (List.replicate 16 0xAA) ∧
      memset (List.replicate 16 0xAA) 0 16 = List.replicate 16 0 := by
  refine ⟨?_, by decide, by decide, by decide, by decide, by decide⟩
  intro sizeofConfig fuse_opt_parse args conf
  simp only [mount_ori_parse_opt, memset_zero_count]

/-! ## Checkout of a purged object -/

set_option maxRecDepth 100000 in
/-- C21, the code at the failing input. The tree of HEAD has the file `/f`, whose
object is purged, and the file `/g`. When the working directory holds `/f` with
another content, `cmd_checkout` prints `M /f` and calls `copyObject` for the purged
object, and does not print `Object has been purged.`; `/g` is restored. Only when
`/f` is missing from the working directory does it print the message and leave
out the call. -/
theorem cmd_checkout_purged_modified :
    sampleObjectType "h-f" = some .Purged ∧
      mapFind (tipStateOf sampleStatusEnv "c1") "/f" = some "h-f" ∧
      mapFind (dirStateOf sampleStatusEnv) "/f" = some "h-other" ∧
      cmd_checkout true sampleStatusEnv sampleObjectType ["checkout"] =
        .ok (0, [.copyObject "h-f" "/r/f", .copyObject "h-g" "/r/g"],
          ["M\t/f", "A\t/n", "U\t/g"]) ∧
      cmd_checkout true sampleEmptyWorkdirEnv sampleObjectType ["checkout"] =
        .ok (0, [.copyObject "h-g" "/r/g"],
          ["U\t/f", "Object has been purged.", "U\t/g"]) := by
  decide

/-! ## Lemmas: the order of strings and sorted maps -/

theorem charsLt_irrefl (a : List Char) : charsLt a a = false := by
  induction a with
  | nil => rfl
  | cons x xs ih => simp [charsLt, ih]

theorem charsLt_trans (a b c : List Char) (h1 : charsLt a b = true) (h2 : charsLt b c = true) :
    charsLt a c = true := by
  induction a generalizing b c with
  | nil =>
    cases b with
    | nil => simp [charsLt] at h1
    | cons y ys =>
      cases c with
      | nil => simp [charsLt] at h2
      | cons z zs => rfl
  | cons x xs ih =>
    cases b with
    | nil => simp [charsLt] at h1
    | cons y ys =>
      cases c with
      | nil => simp [charsLt] at h2
      | cons z zs =>
        simp only [charsLt] at h1 h2 ⊢
        by_cases hxy : x.toNat < y.toNat
        · by_cases hyz : y.toNat < z.toNat
          · simp [show x.toNat < z.toNat by omega]
          · by_cases hzy : z.toNat < y.toNat
            · simp [hyz, hzy] at h2
            · simp [show x.toNat < z.toNat by omega]
        · by_cases hyx : y.toNat < x.toNat
          · simp [hxy, hyx] at h1
          · simp only [hxy, hyx, if_false] at h1
            by_cases hyz : y.toNat < z.toNat
            · simp [show x.toNat < z.toNat by omega]
            · by_cases hzy : z.toNat < y.toNat
              · simp [hyz, hzy] at h2
              · simp only [hyz, hzy, if_false] at h2
                simp only [show ¬ x.toNat < z.toNat by omega, show ¬ z.toNat < x.toNat by omega,
                  if_false]
                exact ih ys zs h1 h2

theorem charsLt_total (a b : List Char) (h1 : charsLt a b = false) (hne : a ≠ b) :
    charsLt b a = true := by
  induction a generalizing b with
  | nil =>
    cases b with
    | nil => exact absurd rfl hne
    | cons y ys => simp [charsLt] at h1
  | cons x xs ih =>
    cases b with
    | nil => rfl
    | cons y ys =>
      simp only [charsLt] at h1 ⊢
      by_cases hxy : x.toNat < y.toNat
      · simp [hxy] at h1
      · by_cases hyx : y.toNat < x.toNat
        · simp [hyx]
        · simp only [hxy, hyx, if_false] at h1 ⊢
          have hx : x = y := by
            apply Char.ext
            apply UInt32.ext
            show x.toNat = y.toNat
            omega
          subst hx
          exact ih ys h1 (fun h => hne (by rw [h]))

theorem strLt_irrefl (a : String) : strLt a a = false := charsLt_irrefl a.data

theorem strLt_trans (a b c : String) (h1 : strLt a b = true) (h2 : strLt b c = true) :
    strLt a c = true := charsLt_trans a.data b.data c.data h1 h2

theorem strLt_total (a b : String) (h1 : strLt a b = false) (hne : a ≠ b) :
    strLt b a = true :=
  charsLt_total a.data b.data h1 (fun h => hne (String.ext h))

theorem strLt_ne (a b : String) (h : strLt a b = true) : a ≠ b := by
  intro he
  rw [he, strLt_irrefl] at h
  cases h

theorem mem_mapInsert (m : StrMap) (k v : String) (x : String × String)
    (h : x ∈ mapInsert m k v) : x ∈ m ∨ x = (k, v) := by
  induction m with
  | nil =>
    simp only [mapInsert, List.mem_singleton] at h
    exact Or.inr h
  | cons y rest ih =>
    obtain ⟨k1, v1⟩ := y
    simp only [mapInsert] at h
    split at h
    · exact Or.inl h
    · split at h
      · rcases List.mem_cons.1 h with h | h
        · exact Or.inr h
        · exact Or.inl h
      · rcases List.mem_cons.1 h with h | h
        · exact Or.inl (by rw [h]; exact List.mem_cons_self _ _)
        · rcases ih h with h | h
          · exact Or.inl (List.mem_cons_of_mem _ h)
          · exact Or.inr h

theorem mapWF_nil : mapWF [] := List.Pairwise.nil

theorem mapWF_insert (m : StrMap) (k v : String) (h : mapWF m) : mapWF (mapInsert m k v) := by
  induction m with
  | nil => exact List.pairwise_singleton _ _
  | cons y rest ih =>
    obtain ⟨k1, v1⟩ := y
    have hp := List.pairwise_cons.1 h
    simp only [mapInsert]
    by_cases h1 : k = k1
    · simp only [h1, if_true]
      exact h
    · simp only [h1, if_false]
      cases h2 : strLt k k1 with
      | true =>
        simp only [if_true]
        refine List.pairwise_cons.2 ⟨?_, h⟩
        intro x hx
        rcases List.mem_cons.1 hx with hx | hx
        · rw [hx]; exact h2
        · exact strLt_trans k k1 x.1 h2 (hp.1 x hx)
      | false =>
        simp only [Bool.false_eq_true, if_false]
        refine List.pairwise_cons.2 ⟨?_, ih hp.2⟩
        intro x hx
        rcases mem_mapInsert rest k v x hx with hx | hx
        · exact hp.1 x hx
        · rw [hx]
          exact strLt_total k k1 h2 h1

theorem mapFind_of_mem (m : StrMap) (h : mapWF m) (x : String × String) (hx : x ∈ m) :
    mapFind m x.1 = some x.2 := by
  induction m with
  | nil => cases hx
  | cons y rest ih =>
    have hp := List.pairwise_cons.1 h
    rcases List.mem_cons.1 hx with hx | hx
    · subst hx
      simp [mapFind, List.lookup]
    · have hne : x.1 ≠ y.1 := fun he => strLt_ne y.1 x.1 (hp.1 x hx) he.symm
      have hb : (x.1 == y.1) = false := by simpa using hne
      have := ih hp.2 hx
      simp only [mapFind] at this ⊢
      rw [List.lookup_cons, hb]
      exact this

theorem mem_of_mapFind (m : StrMap) (k v : String) (h : mapFind m k = some v) : (k, v) ∈ m := by
  induction m with
  | nil => simp [mapFind] at h
  | cons y rest ih =>
    simp only [mapFind] at h ih
    rw [List.lookup_cons] at h
    cases hb : (k == y.1) with
    | true =>
      simp only [hb, Option.some.injEq] at h
      have hk : k = y.1 := by simpa using hb
      rw [hk, ← h]
      exact List.mem_cons_self _ _
    | false =>
      simp only [hb] at h
      exact List.mem_cons_of_mem _ (ih h)

theorem mapFind_none (m : StrMap) (k : String) (h : mapFind m k = none) :
    ∀ x ∈ m, x.1 ≠ k := by
  induction m with
  | nil => intro x hx; cases hx
  | cons y rest ih =>
    simp only [mapFind] at h ih
    rw [List.lookup_cons] at h
    cases hb : (k == y.1) with
    | true => simp [hb] at h
    | false =>
      simp only [hb] at h
      intro x hx
      rcases List.mem_cons.1 hx with hx | hx
      · rw [hx]
        intro he
        rw [he] at hb
        simp at hb
      · exact ih h x hx

mutual

theorem StatusTreeEntry_WF (tipState : StrMap) (path : String) (h : mapWF tipState) :
    ∀ e : TreeNode, mapWF (StatusTreeEntry tipState path e)
  | .blob name hash => by
    simp only [StatusTreeEntry]
    exact mapWF_insert _ _ _ h
  | .tree name _ entries => by
    simp only [StatusTreeEntry]
    exact StatusTreeIter_WF _ _ (mapWF_insert _ _ _ h) entries

theorem StatusTreeIter_WF (tipState : StrMap) (path : String) (h : mapWF tipState) :
    ∀ es : List TreeNode, mapWF (StatusTreeIter tipState path es)
  | [] => by
    simp only [StatusTreeIter]
    exact h
  | e :: es => by
    simp only [StatusTreeIter]
    exact StatusTreeIter_WF _ _ (StatusTreeEntry_WF tipState path h e) es

end

mutual

theorem scanEntry_WF (hashFile : String → String) (repoRoot : String) (dirState : StrMap)
    (h : mapWF dirState) : ∀ e : DirEntry, mapWF (scanEntry hashFile repoRoot dirState e)
  | .file path => by
    simp only [scanEntry, StatusDirectoryCB]
    exact mapWF_insert _ _ _ h
  | .dir path entries => by
    simp only [scanEntry, StatusDirectoryCB]
    exact Scan_RTraverse_WF hashFile repoRoot _ (mapWF_insert _ _ _ h) entries

theorem Scan_RTraverse_WF (hashFile : String → String) (repoRoot : String) (dirState : StrMap)
    (h : mapWF dirState) :
    ∀ es : List DirEntry, mapWF (Scan_RTraverse hashFile repoRoot dirState es)
  | [] => by
    simp only [Scan_RTraverse]
    exact h
  | e :: es => by
    simp only [Scan_RTraverse]
    exact Scan_RTraverse_WF hashFile repoRoot _ (scanEntry_WF hashFile repoRoot dirState h e) es

end

theorem tipStateOf_WF (env : StatusEnv) (tip : String) : mapWF (tipStateOf env tip) := by
  unfold tipStateOf
  split
  · exact StatusTreeIter_WF _ _ mapWF_nil _
  · exact mapWF_nil

theorem dirStateOf_WF (env : StatusEnv) : mapWF (dirStateOf env) :=
  Scan_RTraverse_WF _ _ _ mapWF_nil _

/-! ## The status command -/

theorem foldl_append_flatten {α β : Type} (f : α → List β) (l : List α) (init : List β) :
    l.foldl (fun out it => out ++ f it) init = init ++ (l.map f).flatten := by
  induction l generalizing init with
  | nil => simp
  | cons a l ih => simp [ih, List.append_assoc]

theorem statusLine_inj (a b p q : String) (ha : a.length = 1) (hb : b.length = 1)
    (h : statusLine a p = statusLine b q) : a = b ∧ p = q := by
  have hd := congrArg String.data h
  simp only [statusLine, String.data_append, List.append_assoc] at hd
  have hlen : a.data.length = b.data.length := by
    rw [← String.length, ← String.length, ha, hb]
  obtain ⟨h1, h2⟩ := List.append_inj hd hlen
  have h3 : p.data = q.data := by
    have := List.append_inj h2 rfl
    exact this.2
  exact ⟨String.ext h1, String.ext h3⟩

/-- The three letters of `cmd_status`. -/
theorem statusLine_letters (a b p q : String)
    (ha : a = "A" ∨ a = "M" ∨ a = "D") (hb : b = "A" ∨ b = "M" ∨ b = "D")
    (h : statusLine a p = statusLine b q) : a = b ∧ p = q := by
  apply statusLine_inj a b p q _ _ h
  · rcases ha with h | h | h <;> rw [h] <;> rfl
  · rcases hb with h | h | h <;> rw [h] <;> rfl

theorem mem_statusDirLines (tip : StrMap) (it : String × String) (l : String) :
    l ∈ statusDirLines tip it ↔
      (mapFind tip it.1 = none ∧ l = statusLine "A" it.1) ∨
        (∃ v, mapFind tip it.1 = some v ∧ v ≠ it.2 ∧ l = statusLine "M" it.1) := by
  unfold statusDirLines
  cases h : mapFind tip it.1 with
  | none => simp
  | some v =>
    by_cases hv : v = it.2
    · simp [hv]
    · simp [hv]

theorem mem_statusTipLines (dir : StrMap) (it : String × String) (l : String) :
    l ∈ statusTipLines dir it ↔ mapFind dir it.1 = none ∧ l = statusLine "D" it.1 := by
  unfold statusTipLines
  cases h : mapFind dir it.1 with
  | none => simp
  | some v => simp

theorem statusDirLines_letter (tip : StrMap) (it : String × String) (l : String)
    (h : l ∈ statusDirLines tip it) : ∃ a, (a = "A" ∨ a = "M") ∧ l = statusLine a it.1 := by
  rcases (mem_statusDirLines tip it l).1 h with ⟨_, h⟩ | ⟨_, _, _, h⟩
  · exact ⟨"A", Or.inl rfl, h⟩
  · exact ⟨"M", Or.inr rfl, h⟩

theorem nodup_flatten_lines (m : StrMap) (hWF : mapWF m) (f : String × String → List String)
    (hf : ∀ it l, l ∈ f it →
      ∃ a, (a = "A" ∨ a = "M" ∨ a = "D") ∧ l = statusLine a it.1)
    (hn : ∀ it, (f it).Nodup) : ((m.map f).flatten).Nodup := by
  induction m with
  | nil => simp
  | cons it rest ih =>
    have hp := List.pairwise_cons.1 hWF
    simp only [List.map_cons, List.flatten_cons]
    refine List.nodup_append.2 ⟨hn it, ih hp.2, ?_⟩
    intro l h1 h2
    obtain ⟨a, ha, ea⟩ := hf it l h1
    simp only [List.mem_flatten, List.mem_map] at h2
    obtain ⟨ls, ⟨it2, hit2, rfl⟩, hl⟩ := h2
    obtain ⟨b, hb, eb⟩ := hf it2 l hl
    have := (statusLine_letters a b it.1 it2.1 ha hb (ea.symm.trans eb)).2
    exact strLt_ne it.1 it2.1 (hp.1 it2 hit2) this

theorem cmd_status_out (env : StatusEnv) :
    (cmd_status env).2 =
      ((dirStateOf env).map (statusDirLines (tipStateOf env env.getHead))).flatten ++
        ((tipStateOf env env.getHead).map (statusTipLines (dirStateOf env))).flatten := by
  simp only [cmd_status, foldl_append_flatten, List.nil_append]

theorem length_le_one_of_all_eq {α : Type} (l : List α) (x : α) (hn : l.Nodup)
    (h : ∀ y ∈ l, y = x) : l.length ≤ 1 := by
  match l, hn, h with
  | [], _, _ => simp
  | [_], _, _ => simp
  | a :: b :: _, hn, h =>
    have ha := h a (by simp)
    have hb := h b (by simp)
    rw [ha, hb] at hn
    simp at hn

theorem cmd_status_added (env : StatusEnv) (p : String) :
    statusLine "A" p ∈ (cmd_status env).2 ↔
      mapFind (dirStateOf env) p ≠ none ∧ mapFind (tipStateOf env env.getHead) p = none := by
  rw [cmd_status_out, List.mem_append]
  simp only [List.mem_flatten, List.mem_map]
  constructor
  · rintro (⟨ls, ⟨it, hit, rfl⟩, hl⟩ | ⟨ls, ⟨it, hit, rfl⟩, hl⟩)
    · rcases (mem_statusDirLines _ it _).1 hl with ⟨hn, e⟩ | ⟨v, _, _, e⟩
      · have hp := (statusLine_letters "A" "A" p it.1 (by simp) (by simp) e).2
        rw [hp]
        refine ⟨?_, hn⟩
        rw [mapFind_of_mem _ (dirStateOf_WF env) it hit]
        simp
      · exact absurd (statusLine_letters "A" "M" p it.1 (by simp) (by simp) e).1 (by decide)
    · have e := ((mem_statusTipLines _ it _).1 hl).2
      exact absurd (statusLine_letters "A" "D" p it.1 (by simp) (by simp) e).1 (by decide)
  · rintro ⟨hd, ht⟩
    cases hw : mapFind (dirStateOf env) p with
    | none => exact absurd hw hd
    | some w =>
      refine Or.inl ⟨_, ⟨(p, w), mem_of_mapFind _ p w hw, rfl⟩, ?_⟩
      exact (mem_statusDirLines _ _ _).2 (Or.inl ⟨ht, rfl⟩)

theorem cmd_status_modified (env : StatusEnv) (p : String) :
    statusLine "M" p ∈ (cmd_status env).2 ↔
      ∃ v w, mapFind (dirStateOf env) p = some w ∧
        mapFind (tipStateOf env env.getHead) p = some v ∧ v ≠ w := by
  rw [cmd_status_out, List.mem_append]
  simp only [List.mem_flatten, List.mem_map]
  constructor
  · rintro (⟨ls, ⟨it, hit, rfl⟩, hl⟩ | ⟨ls, ⟨it, hit, rfl⟩, hl⟩)
    · rcases (mem_statusDirLines _ it _).1 hl with ⟨_, e⟩ | ⟨v, hv, hne, e⟩
      · exact absurd (statusLine_letters "M" "A" p it.1 (by simp) (by simp) e).1 (by decide)
      · have hp := (statusLine_letters "M" "M" p it.1 (by simp) (by simp) e).2
        rw [hp]
        exact ⟨v, it.2, mapFind_of_mem _ (dirStateOf_WF env) it hit, hv, hne⟩
    · have e := ((mem_statusTipLines _ it _).1 hl).2
      exact absurd (statusLine_letters "M" "D" p it.1 (by simp) (by simp) e).1 (by decide)
  · rintro ⟨v, w, hw, hv, hne⟩
    refine Or.inl ⟨_, ⟨(p, w), mem_of_mapFind _ p w hw, rfl⟩, ?_⟩
    exact (mem_statusDirLines _ _ _).2 (Or.inr ⟨v, hv, hne, rfl⟩)

theorem cmd_status_deleted (env : StatusEnv) (p : String) :
    statusLine "D" p ∈ (cmd_status env).2 ↔
      mapFind (tipStateOf env env.getHead) p ≠ none ∧ mapFind (dirStateOf env) p = none := by
  rw [cmd_status_out, List.mem_append]
  simp only [List.mem_flatten, List.mem_map]
  constructor
  · rintro (⟨ls, ⟨it, hit, rfl⟩, hl⟩ | ⟨ls, ⟨it, hit, rfl⟩, hl⟩)
    · rcases (mem_statusDirLines _ it _).1 hl with ⟨_, e⟩ | ⟨v, _, _, e⟩
      · exact absurd (statusLine_letters "D" "A" p it.1 (by simp) (by simp) e).1 (by decide)
      · exact absurd (statusLine_letters "D" "M" p it.1 (by simp) (by simp) e).1 (by decide)
    · obtain ⟨hn, e⟩ := (mem_statusTipLines _ it _).1 hl
      have hp := (statusLine_letters "D" "D" p it.1 (by simp) (by simp) e).2
      rw [hp]
      refine ⟨?_, hn⟩
      rw [mapFind_of_mem _ (tipStateOf_WF env _) it hit]
      simp
  · rintro ⟨ht, hd⟩
    cases hv : mapFind (tipStateOf env env.getHead) p with
    | none => exact absurd hv ht
    | some v =>
      refine Or.inr ⟨_, ⟨(p, v), mem_of_mapFind _ p v hv, rfl⟩, ?_⟩
      exact (mem_statusTipLines _ _ _).2 ⟨hd, rfl⟩

theorem cmd_status_nodup (env : StatusEnv) : (cmd_status env).2.Nodup := by
  rw [cmd_status_out]
  refine List.nodup_append.2 ⟨?_, ?_, ?_⟩
  · apply nodup_flatten_lines _ (dirStateOf_WF env)
    · intro it l hl
      obtain ⟨a, ha, e⟩ := statusDirLines_letter _ it l hl
      exact ⟨a, by rcases ha with h | h <;> simp [h], e⟩
    · intro it
      unfold statusDirLines
      split
      · simp
      · split <;> simp
  · apply nodup_flatten_lines _ (tipStateOf_WF env _)
    · intro it l hl
      exact ⟨"D", by simp, ((mem_statusTipLines _ it l).1 hl).2⟩
    · intro it
      unfold statusTipLines
      split <;> simp
  · intro l h1 h2
    simp only [List.mem_flatten, List.mem_map] at h1 h2
    obtain ⟨_, ⟨it, _, rfl⟩, hl1⟩ := h1
    obtain ⟨_, ⟨it2, _, rfl⟩, hl2⟩ := h2
    obtain ⟨a, ha, e1⟩ := statusDirLines_letter _ it l hl1
    have e2 := ((mem_statusTipLines _ it2 l).1 hl2).2
    have := (statusLine_letters a "D" it.1 it2.1 (by rcases ha with h | h <;> simp [h])
      (by simp) (e1.symm.trans e2)).1
    rcases ha with h | h <;> rw [h] at this <;> exact absurd this (by decide)

theorem cmd_status_empty (env : StatusEnv) :
    (cmd_status env).2 = [] ↔
      ∀ q, mapFind (dirStateOf env) q = mapFind (tipStateOf env env.getHead) q := by
  constructor
  · intro he q
    have hA := cmd_status_added env q
    have hM := cmd_status_modified env q
    have hD := cmd_status_deleted env q
    rw [he] at hA hM hD
    simp only [List.not_mem_nil, false_iff] at hA hM hD
    cases hw : mapFind (dirStateOf env) q with
    | none =>
      cases hv : mapFind (tipStateOf env env.getHead) q with
      | none => rfl
      | some v => exact absurd ⟨by rw [hv]; simp, hw⟩ hD
    | some w =>
      cases hv : mapFind (tipStateOf env env.getHead) q with
      | none => exact absurd ⟨by rw [hw]; simp, hv⟩ hA
      | some v =>
        by_cases hvw : v = w
        · rw [hvw]
        · exact absurd ⟨v, w, hw, hv, hvw⟩ hM
  · intro h
    rw [cmd_status_out]
    have h1 : ∀ it ∈ dirStateOf env, statusDirLines (tipStateOf env env.getHead) it = [] := by
      intro it hit
      have hf := mapFind_of_mem _ (dirStateOf_WF env) it hit
      unfold statusDirLines
      rw [← h it.1, hf]
      simp
    have h2 : ∀ it ∈ tipStateOf env env.getHead, statusTipLines (dirStateOf env) it = [] := by
      intro it hit
      have hf := mapFind_of_mem _ (tipStateOf_WF env _) it hit
      unfold statusTipLines
      rw [h it.1, hf]
    simp only [List.append_eq_nil, List.flatten_eq_nil_iff, List.mem_map]
    constructor
    · rintro l ⟨it, hit, rfl⟩
      exact h1 it hit
    · rintro l ⟨it, hit, rfl⟩
      exact h2 it hit

/-- C29. `cmd_status` returns 0 and prints only lines with the letters A, M and D.
For every path: the line `A path` is printed exactly when the path is in the map
of the working directory and not in the map of HEAD's tree, `M path` exactly when
it is in both maps with different values, `D path` exactly when it is in the map
of HEAD's tree and not in that of the working directory. No line is printed
twice and at most one line is printed for a path. Nothing is printed exactly when
the two maps have the same value, or none, at every path. -/
theorem cmd_status_classifies (env : StatusEnv) (p : String) :
    (cmd_status env).1 = 0 ∧
      (∀ l ∈ (cmd_status env).2,
        ∃ q, l = statusLine "A" q ∨ l = statusLine "M" q ∨ l = statusLine "D" q) ∧
      (statusLine "A" p ∈ (cmd_status env).2 ↔
        mapFind (dirStateOf env) p ≠ none ∧ mapFind (tipStateOf env env.getHead) p = none) ∧
      (statusLine "M" p ∈ (cmd_status env).2 ↔
        ∃ v w, mapFind (dirStateOf env) p = some w ∧
          mapFind (tipStateOf env env.getHead) p = some v ∧ v ≠ w) ∧
      (statusLine "D" p ∈ (cmd_status env).2 ↔
        mapFind (tipStateOf env env.getHead) p ≠ none ∧ mapFind (dirStateOf env) p = none) ∧
      (cmd_status env).2.Nodup ∧
      ((cmd_status env).2.filter (fun l =>
        decide (l = statusLine "A" p ∨ l = statusLine "M" p ∨ l = statusLine "D" p))).length
          ≤ 1 ∧
      ((cmd_status env).2 = [] ↔
        ∀ q, mapFind (dirStateOf env) q = mapFind (tipStateOf env env.getHead) q) := by
  have hA := cmd_status_added env p
  have hM := cmd_status_modified env p
  have hD := cmd_status_deleted env p
  have hN := cmd_status_nodup env
  refine ⟨rfl, ?_, hA, hM, hD, hN, ?_, cmd_status_empty env⟩
  · intro l hl
    rw [cmd_status_out, List.mem_append] at hl
    simp only [List.mem_flatten, List.mem_map] at hl
    rcases hl with ⟨_, ⟨it, _, rfl⟩, hl⟩ | ⟨_, ⟨it, _, rfl⟩, hl⟩
    · obtain ⟨a, ha, e⟩ := statusDirLines_letter _ it l hl
      rcases ha with h | h
      · exact ⟨it.1, Or.inl (by rw [e, h])⟩
      · exact ⟨it.1, Or.inr (Or.inl (by rw [e, h]))⟩
    · exact ⟨it.1, Or.inr (Or.inr ((mem_statusTipLines _ it l).1 hl).2)⟩
  · have hfn := hN.filter (fun l =>
      decide (l = statusLine "A" p ∨ l = statusLine "M" p ∨ l = statusLine "D" p))
    have hmem : ∀ y ∈ (cmd_status env).2.filter (fun l =>
        decide (l = statusLine "A" p ∨ l = statusLine "M" p ∨ l = statusLine "D" p)),
        y ∈ (cmd_status env).2 ∧
          (y = statusLine "A" p ∨ y = statusLine "M" p ∨ y = statusLine "D" p) := by
      intro y hy
      simpa using List.mem_filter.1 hy
    cases hw : mapFind (dirStateOf env) p with
    | none =>
      apply length_le_one_of_all_eq _ (statusLine "D" p) hfn
      intro y hy
      obtain ⟨hin, h | h | h⟩ := hmem y hy
      · rw [h] at hin
        exact absurd hw (hA.1 hin).1
      · rw [h] at hin
        obtain ⟨v, w, h1, _⟩ := hM.1 hin
        rw [hw] at h1
        cases h1
      · exact h
    | some w =>
      cases hv : mapFind (tipStateOf env env.getHead) p with
      | none =>
        apply length_le_one_of_all_eq _ (statusLine "A" p) hfn
        intro y hy
        obtain ⟨hin, h | h | h⟩ := hmem y hy
        · exact h
        · rw [h] at hin
          obtain ⟨v, w, _, h1, _⟩ := hM.1 hin
          rw [hv] at h1
          cases h1
        · rw [h] at hin
          have := (hD.1 hin).2
          rw [hw] at this
          cases this
      | some v =>
        apply length_le_one_of_all_eq _ (statusLine "M" p) hfn
        intro y hy
        obtain ⟨hin, h | h | h⟩ := hmem y hy
        · rw [h] at hin
          have := (hA.1 hin).2
          rw [hv] at this
          cases this
        · exact h
        · rw [h] at hin
          have := (hD.1 hin).2
          rw [hw] at this
          cases this

/-! ## Byte streams: the bound of an `fdstream` -/

theorem SrcFd.read_length (f : SrcFd) (count : Nat) (got : Bytes) (f1 : SrcFd)
    (h : f.read count = (.ok got, f1)) : got.length ≤ count := by
  unfold SrcFd.read at h
  split at h
  · cases h
  · cases h
  · simp only [Prod.mk.injEq, Except.ok.injEq] at h
    rw [← h.1, List.length_take]
    omega
  · simp only [Prod.mk.injEq, Except.ok.injEq] at h
    rw [← h.1, List.length_take]
    omega

theorem fdstream.retry_read_spec (final_size rounds : Nat) (s : fdstream) :
    (fdstream.retry_read final_size rounds s).1.length ≤ final_size ∧
      (final_size ≤ s.left →
        (fdstream.retry_read final_size rounds s).2.left +
          (fdstream.retry_read final_size rounds s).1.length = s.left) ∧
      (fdstream.retry_read final_size rounds s).2.length = s.length := by
  induction rounds generalizing s with
  | zero => simp [fdstream.retry_read]
  | succ rounds ih =>
    unfold fdstream.retry_read
    cases hr : s.fd.read final_size with
    | mk res fd1 =>
      cases res with
      | error e =>
        by_cases he : e = EINTR
        · simp only [he, if_true]
          exact ih { s with fd := fd1 }
        · simp [he, fdstream.setErrno]
      | ok got =>
        have hl := SrcFd.read_length s.fd final_size got fd1 hr
        refine ⟨hl, ?_, rfl⟩
        intro hle
        show s.left - got.length + got.length = s.left
        omega

theorem fdstream.read_spec (s : fdstream) (n : Nat) :
    (s.read n).1.length ≤ min n s.left ∧ (s.read n).2.left + (s.read n).1.length = s.left ∧
      (s.read n).2.length = s.length := by
  obtain ⟨h1, h2, h3⟩ := fdstream.retry_read_spec (min n s.left) (s.fd.script.length + 1) s
  exact ⟨h1, h2 (Nat.min_le_right _ _), h3⟩

theorem fdstream.readMany_spec (s : fdstream) (ns : List Nat) :
    (s.readMany ns).2.left + (s.readMany ns).1.sum = s.left := by
  induction ns generalizing s with
  | nil => simp [fdstream.readMany]
  | cons n ns ih =>
    have h := (fdstream.read_spec s n).2.1
    have h2 := ih (s.read n).2
    simp only [fdstream.readMany, List.sum_cons]
    omega

theorem fdstream.new_left (fd : SrcFd) (offset : Int) (length : Nat) :
    (fdstream.new fd offset length).left = length := by
  simp only [fdstream.new]
  by_cases h : (fd.lseek offset).1 ≠ offset
  · rw [if_pos h]
    rfl
  · rw [if_neg h]

/-- C23. Every `read(buf, n)` of an `fdstream` returns at most `min(n, left)`
bytes and takes what it returns off `left`. For a stream built with
`(fd, offset, length)` and any sequence of reads, `left` plus the bytes returned
so far is `length`, so the total never exceeds `length`, and `ended()` is true
once `length` bytes have been returned. -/
theorem fdstream_read_bounds (fd : SrcFd) (offset : Int) (length : Nat) (ns : List Nat)
    (s : fdstream) (n : Nat) :
    ((s.read n).1.length ≤ min n s.left ∧ (s.read n).2.left + (s.read n).1.length = s.left) ∧
      ((fdstream.new fd offset length).readMany ns).2.left +
        ((fdstream.new fd offset length).readMany ns).1.sum = length ∧
      ((fdstream.new fd offset length).readMany ns).1.sum ≤ length ∧
      (((fdstream.new fd offset length).readMany ns).1.sum = length →
        ((fdstream.new fd offset length).readMany ns).2.ended = true) := by
  have h := fdstream.readMany_spec (fdstream.new fd offset length) ns
  rw [fdstream.new_left] at h
  refine ⟨⟨(fdstream.read_spec s n).1, (fdstream.read_spec s n).2.1⟩, h, by omega, ?_⟩
  intro hs
  have h0 : ((fdstream.new fd offset length).readMany ns).2.left = 0 := by omega
  simp [fdstream.ended, h0]

/-! ## Byte streams: `readAll` -/

/-- The loop that `readAll` runs when `sizeHint()` is 0: when it ends without an
error on the stream, it has put together what the reads delivered. -/
theorem readAllLoop_delivered {σ : Type} (bs : bytestream σ) (rounds : Nat) :
    ∀ (s s1 : σ) (rval out : Bytes), bs.readAllLoop rounds s rval = some (out, s1) →
      bs.error s1 = false →
      ∃ d, bs.deliveredUntilEnded COPYFILE_BUFSZ rounds s = some d ∧ out = rval ++ d := by
  induction rounds with
  | zero =>
    intro s s1 rval out h _
    simp [bytestream.readAllLoop] at h
  | succ rounds ih =>
    intro s s1 rval out h he
    unfold bytestream.readAllLoop at h
    unfold bytestream.deliveredUntilEnded
    by_cases hend : bs.ended s = true
    · simp only [hend, if_true, Option.some.injEq, Prod.mk.injEq] at h
      exact ⟨[], by simp [hend], by rw [← h.1]; simp⟩
    · simp only [hend, Bool.false_eq_true, if_false] at h ⊢
      by_cases herr : bs.error (bs.read s COPYFILE_BUFSZ).2 = true
      · simp only [herr, if_true, Option.some.injEq, Prod.mk.injEq] at h
        rw [h.2, he] at herr
        cases herr
      · simp only [herr, Bool.false_eq_true, if_false] at h
        obtain ⟨d, hd, ho⟩ := ih _ s1 _ out h he
        refine ⟨(bs.read s COPYFILE_BUFSZ).1 ++ d, by simp [hd], ?_⟩
        rw [ho, List.append_assoc]

set_option maxRecDepth 100000 in
/-- C24, the code at the failing input. An `fdstream` of length 5 on a file that
holds `hello`, whose first `read` is cut short after three bytes, reports no error
and delivers `hello` to successive reads; `readAll` calls `read` once and returns
`hel` followed by two zero bytes. After a `read` of two bytes on the stream with
complete reads, `readAll` returns `llo` followed by two zero bytes. -/
theorem readAll_short_read :
    (fdstream.new helloShortFd 0 5).sizeHint = 5 ∧
      (fdstream.methods.readAll 10 (fdstream.new helloShortFd 0 5)).map
          (fun r => (r.1, r.2.error)) = some ([104, 101, 108, 0, 0], false) ∧
      fdstream.methods.deliveredUntilEnded COPYFILE_BUFSZ 10 (fdstream.new helloShortFd 0 5) =
        some helloBytes ∧
      (fdstream.methods.readAll 10 ((fdstream.new helloFd 0 5).read 2).2).map
          (fun r => (r.1, r.2.error)) = some ([108, 108, 111, 0, 0], false) ∧
      fdstream.methods.deliveredUntilEnded COPYFILE_BUFSZ 10
          ((fdstream.new helloFd 0 5).read 2).2 = some [108, 108, 111] := by
  decide

/-! ## Byte streams: `copyToFile` -/

theorem DstSys.write_complete (sys : DstSys) (fd : Fd) (buf : Bytes) (hs : sys.script = [])
    (hb : buf.length ≤ COPYFILE_BUFSZ) :
    ∃ sys1 fd1, sys.write fd buf = (.ok buf.length, sys1, fd1) ∧ sys1.script = [] := by
  have ht : buf.take OriPriv.MAX_RW_COUNT = buf := by
    apply List.take_of_length_le
    have : COPYFILE_BUFSZ ≤ OriPriv.MAX_RW_COUNT := by decide
    omega
  unfold DstSys.write
  rw [hs]
  simp only [ht]
  exact ⟨_, _, rfl, rfl⟩

theorem copyLoop_zeroStream (rounds : Nat) :
    ∀ (left totalWritten : Nat) (sys : DstSys) (dstFd : Fd), sys.script = [] →
      left ≤ COPYFILE_BUFSZ * rounds → totalWritten + left < 2 ^ 64 →
      ∃ sys1 fd1, bytestream.copyLoop zeroStream (rounds + 1) left sys dstFd totalWritten =
        some (toInt32 (totalWritten + left), 0, sys1, fd1) := by
  induction rounds with
  | zero =>
    intro left totalWritten sys dstFd _ hl _
    have h0 : left = 0 := by omega
    subst h0
    exact ⟨sys, dstFd, by simp [bytestream.copyLoop, zeroStream]⟩
  | succ rounds ih =>
    intro left totalWritten sys dstFd hs hl ht
    by_cases h0 : left = 0
    · subst h0
      exact ⟨sys, dstFd, by simp [bytestream.copyLoop, zeroStream]⟩
    · have hlen :
          (List.replicate (min COPYFILE_BUFSZ left) (0 : Byte)).length ≤ COPYFILE_BUFSZ := by
        rw [List.length_replicate]
        exact Nat.min_le_left _ _
      obtain ⟨sys1, fd1, hw, hs1⟩ :=
        DstSys.write_complete sys dstFd (List.replicate (min COPYFILE_BUFSZ left) 0) hs hlen
      rw [List.length_replicate] at hw
      have hmod : (totalWritten + min COPYFILE_BUFSZ left) % 2 ^ 64 =
          totalWritten + min COPYFILE_BUFSZ left := by
        apply Nat.mod_eq_of_lt
        have := Nat.min_le_right COPYFILE_BUFSZ left
        omega
      have hrec := ih (left - min COPYFILE_BUFSZ left) (totalWritten + min COPYFILE_BUFSZ left)
        sys1 fd1 hs1
        (by
          have hc : COPYFILE_BUFSZ = 2048 := rfl
          rw [hc] at hl ⊢
          omega)
        (by
          have := Nat.min_le_right COPYFILE_BUFSZ left
          omega)
      obtain ⟨sys2, fd2, h2⟩ := hrec
      refine ⟨sys2, fd2, ?_⟩
      have hsum : totalWritten + min COPYFILE_BUFSZ left + (left - min COPYFILE_BUFSZ left) =
          totalWritten + left := by
        have := Nat.min_le_right COPYFILE_BUFSZ left
        omega
      rw [hsum] at h2
      rw [← h2]
      have hend : zeroStream.ended left = false := by
        simp [zeroStream, h0]
      rw [bytestream.copyLoop]
      simp only [hend, Bool.false_eq_true, if_false]
      have hread : zeroStream.read left COPYFILE_BUFSZ =
          (List.replicate (min COPYFILE_BUFSZ left) 0, left - min COPYFILE_BUFSZ left) := rfl
      have herr : ∀ x, zeroStream.error x = false := fun _ => rfl
      rw [hread]
      simp only [herr, Bool.false_eq_true, if_false, hs, List.length_nil, Nat.zero_add,
        bytestream.retryWrite, hw, hmod]

/-- When `copyToFile` has opened the destination and returns a negative value, the
destination is not there afterwards. -/
theorem copyToFile_negative {σ : Type} (bs : bytestream σ) (rounds : Nat) (s s1 : σ)
    (sys sys1 : DstSys) (path : String) (rval : Int) (hopen : sys.openErrno path = none)
    (h : bs.copyToFile rounds s sys path = some (rval, s1, sys1)) (hneg : rval < 0) :
    sys1.files path = none := by
  unfold bytestream.copyToFile at h
  cases ho : sys.openCreate path with
  | error e =>
    unfold DstSys.openCreate at ho
    rw [hopen] at ho
    cases hf : sys.files path <;> simp [hf] at ho
  | ok r =>
    obtain ⟨sys2, dstFd⟩ := r
    simp only [ho] at h
    cases hc : bs.copyToFd rounds s sys2 dstFd with
    | none => simp [hc] at h
    | some q =>
      obtain ⟨rv, s2, sys3, fd3⟩ := q
      simp only [hc] at h
      by_cases hrv : rv < 0
      · rw [if_pos hrv] at h
        simp only [Option.some.injEq, Prod.mk.injEq] at h
        rw [← h.2.2]
        simp [DstSys.unlink]
      · rw [if_neg hrv] at h
        simp only [Option.some.injEq, Prod.mk.injEq] at h
        rw [h.1] at hrv
        exact absurd hneg hrv

theorem copyToFile_zeroStream (rounds left : Nat) (h1 : left ≤ COPYFILE_BUFSZ * rounds)
    (h2 : left < 2 ^ 64) (h3 : toInt32 left < 0) :
    ∃ sys1, zeroStream.copyToFile (rounds + 1) left emptyDst "/out" =
      some (toInt32 left, 0, sys1) ∧ sys1.files "/out" = none := by
  obtain ⟨sys1, fd1, h⟩ := copyLoop_zeroStream rounds left 0
    { emptyDst with files := Function.update emptyDst.files "/out" (some []) } ⟨"/out", 0⟩ rfl
    h1 (by omega)
  rw [Nat.zero_add] at h
  have ho : emptyDst.openCreate "/out" =
      .ok ({ emptyDst with files := Function.update emptyDst.files "/out" (some []) },
        ⟨"/out", 0⟩) := rfl
  refine ⟨sys1.unlink "/out", ?_, ?_⟩
  · unfold bytestream.copyToFile
    rw [ho]
    simp only [bytestream.copyToFd]
    rw [h]
    simp only [h3, if_true]
  · simp [DstSys.unlink]

theorem toInt32_two_pow_31 : toInt32 (2 ^ 31) = -2147483648 := by
  norm_num [toInt32]

set_option maxRecDepth 100000 in
/-- C25, the code at the failing input. A stream that delivers `2 ^ 31` bytes
without error, all of which are written, makes `copyToFd` return its `size_t`
total as the `int` `-2147483648`; `copyToFile` takes the negative value for a
failure, removes the destination it has just written in full, and returns that
value, which is no negated error number. And when a `write` is cut short,
`copyToFd` goes on with the next `read`: of the five bytes that the stream
delivers, three reach the destination, and `copyToFile` returns 3. -/
theorem copyToFile_return_value :
    (∃ sys1, zeroStream.copyToFile (2 ^ 20 + 1) (2 ^ 31) emptyDst "/out" =
        some (toInt32 (2 ^ 31), 0, sys1) ∧ sys1.files "/out" = none) ∧
      toInt32 (2 ^ 31) = -2147483648 ∧
      (fdstream.methods.copyToFile 10 (fdstream.new helloFd 0 5) shortWriteDst "/out").map
          (fun r => (r.1, r.2.1.error, r.2.2.files "/out")) =
        some (3, false, some [104, 101, 108]) ∧
      fdstream.methods.deliveredUntilEnded COPYFILE_BUFSZ 10 (fdstream.new helloFd 0 5) =
        some helloBytes :=
  ⟨copyToFile_zeroStream (2 ^ 20) (2 ^ 31) (by norm_num [COPYFILE_BUFSZ]) (by norm_num)
      (by rw [toInt32_two_pow_31]; decide),
    toInt32_two_pow_31, by decide, by decide⟩

end Ori
